import Mathlib

/-!
# Chain objective: `ComputeChainObjfAndDeriv` (chain/chain-training.cc)

A shallow embedding of the function that combines the numerator and the
denominator computations of the chain objective, applies the validity
guard and computes the L2 regularization term.

Numbers.  `BaseFloat` values are modelled as the finite numbers of an ordered
field `α` (take `ℚ` to compute) together with the three special values `+inf`,
`-inf` and `NaN`.  The operators `+`, `*`, `/` on finite values are exact (no
rounding, no overflow, no signed zero) and follow IEEE-754 on the special
values; they stand for the operations of the matrix library, whose code (and
with it the rounding of each operation) is not among the sources.  Where the
source itself computes a `float` from `double` and `float` operands
(`WriteVectorAsChar`, `ReadVectorAsChar`), every operation is followed by the
IEEE-754 rounding of its format, `round32` or `round64`.  `int32` arithmetic
that can leave the range of the type wraps around (`wrapInt32`).
-/

set_option linter.unusedSectionVars false

namespace kaldi

/-- A `BaseFloat` value: a finite number, an infinity or NaN. -/
inductive BaseFloat (α : Type) where
  | finite (x : α)
  | posInf
  | negInf
  | nan
  deriving DecidableEq

namespace BaseFloat

variable {α : Type} [LinearOrderedField α]

/-- The infinity or NaN selected by a sign: `+inf` for a positive sign,
`-inf` for a negative one and NaN for zero. -/
def ofSign : SignType → BaseFloat α
  | SignType.zero => nan
  | SignType.pos => posInf
  | SignType.neg => negInf

/-- The sign with which a finite divisor acts on an infinity; zero counts as `+0`. -/
def divisorSign (b : α) : SignType := if b < 0 then SignType.neg else SignType.pos

/-- IEEE negation. -/
def neg : BaseFloat α → BaseFloat α
  | finite a => finite (-a)
  | posInf => negInf
  | negInf => posInf
  | nan => nan

/-- IEEE addition, exact on finite values. -/
def add : BaseFloat α → BaseFloat α → BaseFloat α
  | finite a, finite b => finite (a + b)
  | finite _, posInf => posInf
  | finite _, negInf => negInf
  | posInf, finite _ => posInf
  | negInf, finite _ => negInf
  | posInf, posInf => posInf
  | negInf, negInf => negInf
  | posInf, negInf => nan
  | negInf, posInf => nan
  | nan, _ => nan
  | _, nan => nan

/-- IEEE multiplication, exact on finite values; `0 * inf` is NaN. -/
def mul : BaseFloat α → BaseFloat α → BaseFloat α
  | finite a, finite b => finite (a * b)
  | finite a, posInf => ofSign (SignType.sign a)
  | finite a, negInf => ofSign (-SignType.sign a)
  | posInf, finite b => ofSign (SignType.sign b)
  | negInf, finite b => ofSign (-SignType.sign b)
  | posInf, posInf => posInf
  | negInf, negInf => posInf
  | posInf, negInf => negInf
  | negInf, posInf => negInf
  | nan, _ => nan
  | _, nan => nan

/-- IEEE division, exact on finite values; `x / 0` is an infinity with the sign
of `x`, and `0 / 0` and `inf / inf` are NaN. -/
def div : BaseFloat α → BaseFloat α → BaseFloat α
  | finite a, finite b => if b = 0 then ofSign (SignType.sign a) else finite (a / b)
  | finite _, posInf => finite 0
  | finite _, negInf => finite 0
  | posInf, finite b => ofSign (divisorSign b)
  | negInf, finite b => ofSign (-divisorSign b)
  | posInf, posInf => nan
  | negInf, negInf => nan
  | posInf, negInf => nan
  | negInf, posInf => nan
  | nan, _ => nan
  | _, nan => nan

instance : Zero (BaseFloat α) := ⟨finite 0⟩
instance : One (BaseFloat α) := ⟨finite 1⟩
instance : Neg (BaseFloat α) := ⟨neg⟩
instance : Add (BaseFloat α) := ⟨add⟩
instance : Sub (BaseFloat α) := ⟨fun a b => add a (neg b)⟩
instance : Mul (BaseFloat α) := ⟨mul⟩
instance : Div (BaseFloat α) := ⟨div⟩

/-- The C++ comparison `a == b` on floating-point values: NaN equals nothing. -/
def feq : BaseFloat α → BaseFloat α → Bool
  | finite a, finite b => decide (a = b)
  | posInf, posInf => true
  | negInf, negInf => true
  | _, _ => false

/-- Conversion of an `int32` to `BaseFloat`. -/
def ofInt (z : Int) : BaseFloat α := finite (z : α)

/-- A value that is neither an infinity nor NaN. -/
def IsFinite : BaseFloat α → Prop
  | finite _ => True
  | _ => False

instance (x : BaseFloat α) : Decidable (IsFinite x) := by
  cases x <;> unfold IsFinite <;> infer_instance

end BaseFloat

/-! ## Matrix library primitives

Matrices and vectors have their dimensions in the type, so the dimension
checks that the library asserts at each call hold by construction.
Rows are indexed by `j` and columns by `i`, as in the comments of
`chain-training.cc`. -/

/-- A `CuVector<BaseFloat>` of dimension `n`. -/
abbrev CuVector (α : Type) (n : Nat) : Type := Fin n → BaseFloat α

/-- A `CuMatrix<BaseFloat>` with `m` rows and `n` columns. -/
abbrev CuMatrix (α : Type) (m n : Nat) : Type := Fin m → Fin n → BaseFloat α

section Library

variable {α : Type} [LinearOrderedField α] {m n : Nat}

/-- The sum `f 0 + f 1 + ... + f (k-1)`, accumulated from the left starting at zero. -/
def sumFin : (k : Nat) → (Fin k → BaseFloat α) → BaseFloat α
  | 0, _ => 0
  | k + 1, f => sumFin k (fun i => f i.castSucc) + f (Fin.last k)

/-- Modelled from the spec: the constructor `CuVector(dim)` of the matrix library, which is
not among the sources; a new vector is zero-initialised. -/
def CuVector.Zero : CuVector α n := fun _ => 0

/-- Modelled from the spec: the constructor `CuMatrix(rows, cols)` of the matrix library, which
is not among the sources; a new matrix is zero-initialised. -/
def CuMatrix.Zero : CuMatrix α m n := fun _ _ => 0

/-- Modelled from the spec: `CuMatrixBase::SetZero` of the matrix library, which is not among the
sources; every entry becomes zero. -/
def CuMatrix.SetZero (_this : CuMatrix α m n) : CuMatrix α m n := fun _ _ => 0

/-- Modelled from the spec: `CuMatrixBase::CopyFromMat` of the matrix library, which is not among
the sources; `*this` becomes a copy of `src`. -/
def CuMatrix.CopyFromMat (src : CuMatrix α m n) (_this : CuMatrix α m n) : CuMatrix α m n := src

/-- Modelled from the spec: `CuMatrixBase::AddMat` of the matrix library, which is not among the
sources; `*this += alpha * A`. -/
def CuMatrix.AddMat (alpha : BaseFloat α) (A : CuMatrix α m n) (this : CuMatrix α m n) :
    CuMatrix α m n :=
  fun j i => this j i + alpha * A j i

/-- Modelled from the spec: `CuMatrixBase::AddMatDiagVec` (with `kNoTrans`) of the matrix
library, which is not among the sources; `*this = beta * *this + alpha * M * diag(v)`. -/
def CuMatrix.AddMatDiagVec (alpha : BaseFloat α) (M : CuMatrix α m n) (v : CuVector α n)
    (beta : BaseFloat α) (this : CuMatrix α m n) : CuMatrix α m n :=
  fun j i => beta * this j i + alpha * (M j i * v i)

/-- Modelled from the spec: `CuMatrixBase::AddVecToRows` (with its default `beta = 1`) of the
matrix library, which is not among the sources; `alpha * row` is added to every row. -/
def CuMatrix.AddVecToRows (alpha : BaseFloat α) (row : CuVector α n) (this : CuMatrix α m n) :
    CuMatrix α m n :=
  fun j i => this j i + alpha * row i

/-- Modelled from the spec: `TraceMatMat(A, B, kTrans)` of the matrix library, which is not
among the sources; the trace of `A * B^T`, the sum over all entries of `A_ji * B_ji`. -/
def TraceMatMat (A B : CuMatrix α m n) : BaseFloat α :=
  sumFin m (fun j => sumFin n (fun i => A j i * B j i))

/-- Modelled from the spec: `CuVectorBase::AddRowSumMat` of the matrix library, which is not
among the sources; `*this = beta * *this + alpha * (sum of the rows of M)`. -/
def CuVector.AddRowSumMat (alpha : BaseFloat α) (M : CuMatrix α m n) (beta : BaseFloat α)
    (this : CuVector α n) : CuVector α n :=
  fun i => beta * this i + alpha * sumFin m (fun j => M j i)

/-- Modelled from the spec: `CuVectorBase::AddDiagMatMat(alpha, M, kTrans, N, kNoTrans, beta)`
of the matrix library, which is not among the sources;
`*this = beta * *this + alpha * diag(M^T N)`. -/
def CuVector.AddDiagMatMat (alpha : BaseFloat α) (M N : CuMatrix α m n) (beta : BaseFloat α)
    (this : CuVector α n) : CuVector α n :=
  fun i => beta * this i + alpha * sumFin m (fun j => M j i * N j i)

/-- Modelled from the spec: `CuVectorBase::AddVecVec` of the matrix library, which is not among
the sources; `*this = beta * *this + alpha * v .* r` (elementwise product). -/
def CuVector.AddVecVec (alpha : BaseFloat α) (v r : CuVector α n) (beta : BaseFloat α)
    (this : CuVector α n) : CuVector α n :=
  fun i => beta * this i + alpha * (v i * r i)

/-- Modelled from the spec: `CuVectorBase::AddDiagMat2(alpha, M, kTrans, beta)` of the matrix
library, which is not among the sources; `*this = beta * *this + alpha * diag(M^T M)`. -/
def CuVector.AddDiagMat2Trans (alpha : BaseFloat α) (M : CuMatrix α m n) (beta : BaseFloat α)
    (this : CuVector α n) : CuVector α n :=
  fun i => beta * this i + alpha * sumFin m (fun j => M j i * M j i)

/-- Modelled from the spec: `CuVectorBase::AddDiagMat2(alpha, M, kNoTrans, beta)` of the matrix
library, which is not among the sources; `*this = beta * *this + alpha * diag(M M^T)`. -/
def CuVector.AddDiagMat2NoTrans (alpha : BaseFloat α) (M : CuMatrix α m n) (beta : BaseFloat α)
    (this : CuVector α m) : CuVector α m :=
  fun j => beta * this j + alpha * sumFin n (fun i => M j i * M j i)

/-- Modelled from the spec: `CuVectorBase::DivElements` of the matrix library, which is not
among the sources; every element of `*this` is divided by the matching element of `v`. -/
def CuVector.DivElements (v : CuVector α n) (this : CuVector α n) : CuVector α n :=
  fun i => this i / v i

/-- Modelled from the spec: `CuVectorBase::AddVec` of the matrix library, which is not among
the sources; `*this += alpha * vec`. -/
def CuVector.AddVec (alpha : BaseFloat α) (vec : CuVector α n) (this : CuVector α n) :
    CuVector α n :=
  fun i => this i + alpha * vec i

end Library

/-! ## The collaborators of `ComputeChainObjfAndDeriv` -/

/-- Modelled from the spec: `ChainTrainingOptions` is declared in chain-training.h, which is
not among the sources; the regularization coefficient and the leaky-HMM coefficient. -/
structure ChainTrainingOptions (α : Type) where
  l2_regularize : BaseFloat α
  leaky_hmm_coefficient : BaseFloat α

/-- Modelled from the spec: `Supervision` is declared in chain-supervision.h, which is not
among the sources; the fields that `ComputeChainObjfAndDeriv` reads itself. -/
structure Supervision (α : Type) where
  weight : BaseFloat α
  num_sequences : Int
  frames_per_sequence : Int

/-- Modelled from the spec: the `NumeratorComputation` object built at line 42 from the
supervision and the network output (its class is not among the sources): the value that
`Forward()` returns and the effect of `Backward(deriv)` on the buffer it is given. -/
structure NumeratorComputation (α : Type) (m n : Nat) where
  Forward : BaseFloat α
  Backward : CuMatrix α m n → CuMatrix α m n

/-- Modelled from the spec: the `DenominatorComputation` object built at lines 58-60 from the
options, the denominator graph, `num_sequences` and the network output (its class is not among
the sources): the value that `Forward()` returns and, for `Backward(deriv_weight, deriv)`, the
flag it returns together with its effect on the buffer it is given. -/
structure DenominatorComputation (α : Type) (m n : Nat) where
  Forward : BaseFloat α
  Backward : BaseFloat α → CuMatrix α m n → Bool × CuMatrix α m n

section Chain

variable {α : Type} [LinearOrderedField α] {m n : Nat}

/-- Modelled from the spec: `NumeratorComputation::Backward` accumulates the gradient `N` of the
weighted numerator log-likelihood into the buffer it is given (spec 4.2). -/
def NumeratorComputation.Accumulates (numerator : NumeratorComputation α m n)
    (N : CuMatrix α m n) : Prop :=
  ∀ buf, numerator.Backward buf = fun j i => buf j i + N j i

/-- Modelled from the spec: `DenominatorComputation::Backward` accumulates the gradient `D` of
the denominator log-likelihood, scaled by `deriv_weight`, into the buffer it is given
(spec 4.3). -/
def DenominatorComputation.Accumulates (denominator : DenominatorComputation α m n)
    (D : CuMatrix α m n) : Prop :=
  ∀ deriv_weight buf,
    (denominator.Backward deriv_weight buf).2 = fun j i => buf j i + deriv_weight * D j i

/-! ## `ComputeChainObjfAndDeriv`, block by block -/

/-- The local state after lines 38-66. -/
structure ForwardBackward (α : Type) (m n : Nat) where
  num_logprob_weighted : BaseFloat α
  den_logprob : BaseFloat α
  ok : Bool
  nnet_output_deriv : Option (CuMatrix α m n)
  xent_output_deriv : Option (CuMatrix α m n)

/-- Lines 38-66: the numerator and denominator passes.  An absent (null) buffer is `none`. -/
def RunForwardBackward (numerator : NumeratorComputation α m n)
    (denominator : DenominatorComputation α m n) (supervision : Supervision α)
    (nnet_output_deriv xent_output_deriv : Option (CuMatrix α m n)) : ForwardBackward α m n :=
  -- lines 39-40
  let deriv0 := nnet_output_deriv.map CuMatrix.SetZero
  -- line 45
  let num_logprob_weighted := numerator.Forward
  -- lines 46-56
  let afterNum : Option (CuMatrix α m n) × Option (CuMatrix α m n) :=
    match deriv0 with
    | some deriv =>
        let deriv1 := numerator.Backward deriv
        (some deriv1, xent_output_deriv.map (CuMatrix.CopyFromMat deriv1))
    | none =>
        (none, xent_output_deriv.map (fun xent => numerator.Backward (CuMatrix.SetZero xent)))
  -- line 62
  let den_logprob := denominator.Forward
  -- lines 63-66
  let afterDen : Bool × Option (CuMatrix α m n) :=
    match afterNum.1 with
    | some deriv =>
        let r := denominator.Backward (-supervision.weight) deriv
        (r.1, some r.2)
    | none => (true, none)
  ⟨num_logprob_weighted, den_logprob, afterDen.1, afterDen.2, afterNum.2⟩

/-- The outputs and buffers after lines 68-84; `warning` holds what `KALDI_WARN` prints
(the raw objective and `ok`) when the guard fires. -/
structure Guarded (α : Type) (m n : Nat) where
  objf : BaseFloat α
  weight : BaseFloat α
  nnet_output_deriv : Option (CuMatrix α m n)
  xent_output_deriv : Option (CuMatrix α m n)
  warning : Option (BaseFloat α × Bool)

/-- Lines 68-84: the objective, the frame weight and the validity guard. -/
def ValidityGuard (supervision : Supervision α) (fb : ForwardBackward α m n) : Guarded α m n :=
  let objf := fb.num_logprob_weighted - supervision.weight * fb.den_logprob
  let weight := supervision.weight * BaseFloat.ofInt supervision.num_sequences *
    BaseFloat.ofInt supervision.frames_per_sequence
  if !(BaseFloat.feq (objf - objf) 0) || !fb.ok then
    let default_objf : BaseFloat α := BaseFloat.finite (-10)
    ⟨default_objf * weight, weight, fb.nnet_output_deriv.map CuMatrix.SetZero,
      fb.xent_output_deriv.map CuMatrix.SetZero, some (objf, fb.ok)⟩
  else
    ⟨objf, weight, fb.nnet_output_deriv, fb.xent_output_deriv, none⟩

/-- Lines 98-99: every index `i / num_sequences` (C++ integer division) used by the loop
over the `tot_frames` rows is defined and lies inside the vector of dimension
`frames_per_sequence`. -/
def FrameIndexesValid (supervision : Supervision α) (tot_frames : Nat) : Bool :=
  decide (0 ≤ supervision.frames_per_sequence ∧
    ∀ i : Fin tot_frames, supervision.num_sequences ≠ 0 ∧
      0 ≤ Int.tdiv (i.val : Int) supervision.num_sequences ∧
      Int.tdiv (i.val : Int) supervision.num_sequences < supervision.frames_per_sequence)

/-- Lines 91-100: the vector that the verbose block logs, or `none` when the block faults:
line 91 dereferences `nnet_output_deriv` without a null check, and line 99 indexes
`row_products_per_frame` with `i / num_sequences`. -/
def DerivsPerFrame (supervision : Supervision α)
    (nnet_output_deriv : Option (CuMatrix α m n)) : Option (List (BaseFloat α)) :=
  match nnet_output_deriv with
  | none => none
  | some deriv =>
      if FrameIndexesValid supervision m then
        let row_products : CuVector α m :=
          CuVector.AddDiagMat2NoTrans 1 deriv 0 CuVector.Zero
        some ((List.finRange m).foldl
          (fun row_products_per_frame i =>
            let t := (Int.tdiv (i.val : Int) supervision.num_sequences).toNat
            row_products_per_frame.set t (row_products_per_frame.getD t 0 + row_products i))
          (List.replicate supervision.frames_per_sequence.toNat 0))
      else none

/-- Lines 124-139: the per-column `scale` and `offset` of the regression of the chain output
on the cross-entropy output. -/
def ComputeScaleAndOffset (nnet_output xent_output : CuMatrix α m n) :
    CuVector α n × CuVector α n :=
  -- lines 124-128
  let scale0 : CuVector α n := CuVector.Zero
  let offset0 : CuVector α n := CuVector.Zero
  let nnet_col_sum0 : CuVector α n := CuVector.Zero
  let xent_col_sum0 : CuVector α n := CuVector.Zero
  let scale_denom0 : CuVector α n := CuVector.Zero
  -- lines 130-136
  let nnet_col_sum := CuVector.AddRowSumMat 1 nnet_output 0 nnet_col_sum0
  let xent_col_sum := CuVector.AddRowSumMat 1 xent_output 0 xent_col_sum0
  let scale1 := CuVector.AddDiagMatMat 1 xent_output nnet_output 0 scale0
  let scale2 := CuVector.AddVecVec (BaseFloat.finite (-1) / BaseFloat.ofInt (m : Int))
    nnet_col_sum xent_col_sum 1 scale1
  let scale_denom1 := CuVector.AddDiagMat2Trans 1 xent_output 0 scale_denom0
  let scale_denom := CuVector.AddVecVec (BaseFloat.finite (-1) / BaseFloat.ofInt (m : Int))
    xent_col_sum xent_col_sum 1 scale_denom1
  let scale := CuVector.DivElements scale_denom scale2
  -- lines 138-139
  let offset1 := CuVector.AddVec (BaseFloat.finite 1 / BaseFloat.ofInt (m : Int))
    nnet_col_sum offset0
  let offset := CuVector.AddVecVec (BaseFloat.finite (-1) / BaseFloat.ofInt (m : Int))
    scale xent_col_sum 1 offset1
  (scale, offset)

/-- Lines 146-149: `output_diff = (xent_output * diag(scale) + offset) - nnet_output`. -/
def OutputDiff (nnet_output xent_output : CuMatrix α m n) (scale offset : CuVector α n) :
    CuMatrix α m n :=
  let output_diff0 : CuMatrix α m n := CuMatrix.Zero
  let output_diff1 := CuMatrix.AddMatDiagVec 1 xent_output scale 0 output_diff0
  let output_diff2 := CuMatrix.AddVecToRows 1 offset output_diff1
  CuMatrix.AddMat (BaseFloat.finite (-1)) nnet_output output_diff2

/-- The L2 term and the buffers after lines 103-164. -/
structure Regularized (α : Type) (m n : Nat) where
  l2_term : BaseFloat α
  nnet_output_deriv : Option (CuMatrix α m n)
  xent_output_deriv : Option (CuMatrix α m n)

/-- Lines 103-164: the regularization step. -/
def L2Regularize (opts : ChainTrainingOptions α) (supervision : Supervision α)
    (nnet_output : CuMatrix α m n) (xent_output : Option (CuMatrix α m n))
    (nnet_output_deriv xent_output_deriv : Option (CuMatrix α m n)) : Regularized α m n :=
  if BaseFloat.feq opts.l2_regularize 0 then
    ⟨0, nnet_output_deriv, xent_output_deriv⟩
  else
    let scale_coeff := supervision.weight * opts.l2_regularize
    match xent_output with
    | some xent =>
        let so := ComputeScaleAndOffset nnet_output xent
        let scale := so.1
        let offset := so.2
        let output_diff := OutputDiff nnet_output xent scale offset
        ⟨BaseFloat.finite (-(1 / 2)) * scale_coeff * TraceMatMat output_diff output_diff,
          nnet_output_deriv.map (CuMatrix.AddMat scale_coeff output_diff),
          xent_output_deriv.map
            (CuMatrix.AddMatDiagVec (BaseFloat.finite (-1) * scale_coeff) output_diff scale 1)⟩
    | none =>
        ⟨BaseFloat.finite (-(1 / 2)) * scale_coeff * TraceMatMat nnet_output nnet_output,
          nnet_output_deriv.map (CuMatrix.AddMat (BaseFloat.finite (-1) * scale_coeff) nnet_output),
          xent_output_deriv⟩

/-- What a call of `ComputeChainObjfAndDeriv` leaves behind: the three output scalars, the two
caller-owned buffers and the diagnostic of the validity guard. -/
structure ChainOutput (α : Type) (m n : Nat) where
  objf : BaseFloat α
  l2_term : BaseFloat α
  weight : BaseFloat α
  nnet_output_deriv : Option (CuMatrix α m n)
  xent_output_deriv : Option (CuMatrix α m n)
  warning : Option (BaseFloat α × Bool)

/-- The function `ComputeChainObjfAndDeriv` of chain-training.cc.  `verbose_level` is the value
of `GetVerboseLevel()`, `numerator` and `denominator` are the two computation objects that the
function constructs, and an absent (null) matrix is `none`.  The result is `none` when the call
faults. -/
def ComputeChainObjfAndDeriv (verbose_level : Int) (numerator : NumeratorComputation α m n)
    (denominator : DenominatorComputation α m n) (opts : ChainTrainingOptions α)
    (supervision : Supervision α) (nnet_output : CuMatrix α m n)
    (xent_output : Option (CuMatrix α m n))
    (nnet_output_deriv xent_output_deriv : Option (CuMatrix α m n)) :
    Option (ChainOutput α m n) :=
  let fb := RunForwardBackward numerator denominator supervision nnet_output_deriv
    xent_output_deriv
  let g := ValidityGuard supervision fb
  if 1 ≤ verbose_level ∧ (DerivsPerFrame supervision g.nnet_output_deriv).isNone then
    none
  else
    let r := L2Regularize opts supervision nnet_output xent_output g.nnet_output_deriv
      g.xent_output_deriv
    some ⟨g.objf, r.l2_term, g.weight, r.nnet_output_deriv, r.xent_output_deriv, g.warning⟩

/-- The condition under which the verbose block of lines 90-101 does not fault. -/
def NoFault (verbose_level : Int) (supervision : Supervision α)
    (nnet_output_deriv : Option (CuMatrix α m n)) : Prop :=
  verbose_level < 1 ∨ (nnet_output_deriv.isSome ∧ FrameIndexesValid supervision m = true)

end Chain

/-! ## Concrete inputs

A minibatch of two sequences of one frame each (two rows) and one output column. -/

section Examples

open BaseFloat

/-- The options with `l2_regularize = 0`. -/
def exOptsNoL2 : ChainTrainingOptions ℚ := ⟨finite 0, finite 0⟩

/-- The options with `l2_regularize = 1`. -/
def exOptsL2 : ChainTrainingOptions ℚ := ⟨finite 1, finite 0⟩

/-- The options with `l2_regularize = -1`. -/
def exOptsNegL2 : ChainTrainingOptions ℚ := ⟨finite (-1), finite 0⟩

/-- A supervision of weight 1 with two sequences of one frame. -/
def exSupervision : Supervision ℚ := ⟨finite 1, 2, 1⟩

/-- The only column of the chain output: rows `1` and `3`. -/
def exNnetColumn : Fin 2 → ℚ := fun j => if j = 0 then 1 else 3

/-- The only column of the cross-entropy output: rows `0` and `1`. -/
def exXentColumn : Fin 2 → ℚ := fun j => if j = 0 then 0 else 1

/-- The chain output, with rows `1` and `3`. -/
def exNnetOutput : CuMatrix ℚ 2 1 := fun j _ => finite (exNnetColumn j)

/-- The cross-entropy output, with rows `0` and `1`. -/
def exXentOutput : CuMatrix ℚ 2 1 := fun j _ => finite (exXentColumn j)

/-- A buffer with arbitrary previous contents. -/
def exBuffer : CuMatrix ℚ 2 1 := fun _ _ => finite 7

/-- The gradient that the example numerator accumulates. -/
def exNumDeriv : CuMatrix ℚ 2 1 := fun _ _ => finite 1

/-- The gradient that the example denominator accumulates, before scaling. -/
def exDenDeriv : CuMatrix ℚ 2 1 := fun _ _ => finite (1 / 2)

/-- A numerator with log-likelihood `-3`. -/
def exNumerator : NumeratorComputation ℚ 2 1 :=
  ⟨finite (-3), fun buf j i => buf j i + exNumDeriv j i⟩

/-- A denominator with log-likelihood `-2` whose backward pass succeeds. -/
def exDenominator : DenominatorComputation ℚ 2 1 :=
  ⟨finite (-2), fun deriv_weight buf => (true, fun j i => buf j i + deriv_weight * exDenDeriv j i)⟩

/-- A denominator with log-likelihood `-2` whose backward pass reports failure. -/
def exDenominatorFailing : DenominatorComputation ℚ 2 1 :=
  ⟨finite (-2), fun deriv_weight buf => (false, fun j i => buf j i + deriv_weight * exDenDeriv j i)⟩

end Examples

end kaldi

/-! ## Example utilities (nnet3/nnet-example-utils.cc) -/

namespace kaldi

/-- The value of an `int32` computation whose mathematical result is `z`: two's-complement
wrap-around. -/
def wrapInt32 (z : Int) : Int := (z + 2147483648) % 4294967296 - 2147483648

namespace nnet3

/-- Modelled from the spec: `Index` is declared in nnet-common.h, which is not among the
sources; the three integer coordinates `n`, `t` and `x`. -/
structure Index where
  n : Int
  t : Int
  x : Int
  deriving DecidableEq

/-- Modelled from the spec: `GeneralMatrix` is declared in the matrix library, which is not
among the sources; a number of columns and the rows, whose number is `NumRows()`. -/
structure GeneralMatrix (β : Type) where
  NumCols : Nat
  rows : List (List β)
  deriving DecidableEq

/-- The number of rows of a matrix. -/
def GeneralMatrix.NumRows {β : Type} (M : GeneralMatrix β) : Nat := M.rows.length

/-- Modelled from the spec: `NnetIo` is declared in nnet-example.h, which is not among the
sources; a name, one `Index` per row and the feature matrix. -/
structure NnetIo (β : Type) where
  name : String
  indexes : List Index
  features : GeneralMatrix β
  deriving DecidableEq

/-- Modelled from the spec: `NnetExample` is declared in nnet-example.h, which is not among the
sources; the list of its `NnetIo`. -/
structure NnetExample (β : Type) where
  io : List (NnetIo β)
  deriving DecidableEq

section Merge

variable {β : Type}

/-- Insertion into a `std::set<std::string>`, kept as its sorted sequence of distinct
elements. -/
def setInsert (a : String) : List String → List String
  | [] => [a]
  | b :: bs => if a < b then a :: b :: bs else if a = b then b :: bs else b :: setInsert a bs

/-- The function `GetIoNames` (lines 31-42): the sorted list of all `NnetIo` names. -/
def GetIoNames (src : List (NnetExample β)) : List String :=
  src.foldl (fun names eg => eg.io.foldl (fun names2 io => setInsert io.name names2) names) []

/-- The index that `std::lower_bound` returns: the position of the first element that is
not less than `key`. -/
def lowerBound (key : String) : List String → Nat
  | [] => 0
  | b :: bs => if b < key then lowerBound key bs + 1 else 0

/-- Lines 60-75: the body of the inner loop of `GetIoSizes` for one `NnetIo`, on the vectors
`dims` and `sizes`; `none` when an assertion fails or `KALDI_ERR` is raised. -/
def GetIoSizesStep (names : List String) (st : List Int × List Int) (io : NnetIo β) :
    Option (List Int × List Int) :=
  let i := lowerBound io.name names
  -- line 63
  if names.get? i ≠ some io.name then none
  else
    let this_dim : Int := io.features.NumCols
    -- lines 66-72
    let dims' : Option (List Int) :=
      if st.1.getD i 0 = -1 then some (st.1.set i this_dim)
      else if st.1.getD i 0 ≠ this_dim then none
      else some st.1
    match dims' with
    | none => none
    | some dims =>
        -- line 73
        if io.features.NumRows ≠ io.indexes.length then none
        else
          let this_size : Int := io.indexes.length
          some (dims, st.2.set i (st.2.getD i 0 + this_size))

/-- The function `GetIoSizes` (lines 47-78): the total number of indexes per name, or `none`
when the feature dimensions of equally named `NnetIo` differ or an assertion fails. -/
def GetIoSizes (src : List (NnetExample β)) (names : List String) : Option (List Int) :=
  ((src.flatMap (fun eg => eg.io)).foldlM (GetIoSizesStep names)
    (List.replicate names.length (-1), List.replicate names.length 0)).map (fun st => st.2)

/-- Modelled from the spec: `AppendGeneralMatrixRows` belongs to the matrix library, which is
not among the sources; the rows of the source matrices are stacked in order. -/
def AppendGeneralMatrixRows (src : List (GeneralMatrix β)) : GeneralMatrix β :=
  ⟨(src.head?.map (fun M => M.NumCols)).getD 0, src.flatMap (fun M => M.rows)⟩

/-- The state of the main loop of `MergeIo`: `cur_size`, `output_lists` and the merged
`NnetIo` (name and indexes). -/
structure MergeState (β : Type) where
  cur_size : List Int
  output_lists : List (List (GeneralMatrix β))
  io : List (String × List Index)

/-- Lines 110-131: the body of the inner loop of `MergeIo` for one `NnetIo` of example
number `n`; `none` when an assertion fails. -/
def MergeIoStep (names : List String) (sizes : List Int) (n : Int) (st : MergeState β)
    (io : NnetIo β) : Option (MergeState β) :=
  let f := lowerBound io.name names
  -- line 113
  if names.get? f ≠ some io.name then none
  else
    let this_size : Int := io.indexes.length
    let this_offset : Int := st.cur_size.getD f 0
    -- line 117
    if ¬ (this_size + this_offset ≤ sizes.getD f 0) then none
    else
      let output_io := st.io.getD f ("", [])
      -- lines 120-121
      let copied := output_io.2.take this_offset.toNat ++ io.indexes ++
        output_io.2.drop (this_offset.toNat + io.indexes.length)
      -- lines 124-130
      let segment := (copied.drop this_offset.toNat).take io.indexes.length
      if ¬ (∀ idx ∈ segment, idx.n = 0) then none
      else
        let renumbered := copied.take this_offset.toNat ++
          segment.map (fun idx => { idx with n := n }) ++
          copied.drop (this_offset.toNat + io.indexes.length)
        some ⟨st.cur_size.set f (this_offset + this_size),
          st.output_lists.set f (st.output_lists.getD f [] ++ [io.features]),
          st.io.set f (output_io.1, renumbered)⟩

/-- Lines 106-133: the loop of `MergeIo` over the source examples, numbered from `n`. -/
def MergeIoLoop (names : List String) (sizes : List Int) :
    Int → MergeState β → List (NnetExample β) → Option (MergeState β)
  | _, st, [] => some st
  | n, st, eg :: rest =>
      (eg.io.foldlM (MergeIoStep names sizes n) st).bind
        (fun st' => MergeIoLoop names sizes (n + 1) st' rest)

/-- The function `MergeIo` (lines 85-143); `Compress` is `GeneralMatrix::Compress`, which is
not among the sources. -/
def MergeIo (Compress : GeneralMatrix β → GeneralMatrix β) (src : List (NnetExample β))
    (names : List String) (sizes : List Int) (compress : Bool) : Option (NnetExample β) :=
  -- lines 95-101
  if ¬ (∀ f < names.length, sizes.getD f 0 > 0) then none
  else
    let init : MergeState β :=
      ⟨List.replicate names.length 0, List.replicate names.length [],
        (List.range names.length).map (fun f =>
          (names.getD f "", List.replicate (sizes.getD f 0).toNat (⟨0, 0, 0⟩ : Index)))⟩
    match MergeIoLoop names sizes 0 init src with
    | none => none
    | some st =>
        -- line 134
        if st.cur_size ≠ sizes then none
        else
          -- lines 135-142
          some ⟨(List.range names.length).map (fun f =>
            let appended := AppendGeneralMatrixRows (st.output_lists.getD f [])
            ⟨(st.io.getD f ("", [])).1, (st.io.getD f ("", [])).2,
              if compress then Compress appended else appended⟩)⟩

/-- The function `MergeExamples` (lines 147-157); `none` when an assertion fails or `KALDI_ERR`
is raised. -/
def MergeExamples (Compress : GeneralMatrix β → GeneralMatrix β) (src : List (NnetExample β))
    (compress : Bool) : Option (NnetExample β) :=
  -- line 150
  if src.isEmpty then none
  else
    let io_names := GetIoNames src
    match GetIoSizes src io_names with
    | none => none
    | some io_sizes => MergeIo Compress src io_names io_sizes compress

end Merge

section Ranges

/-- Adds one to element `idx` of a vector of `int32` counters; `none` when `idx` is out of
range. -/
def bumpCount (counts : List Int) (idx : Int) : Option (List Int) :=
  if 0 ≤ idx ∧ idx < counts.length then
    some (counts.set idx.toNat (wrapInt32 (counts.getD idx.toNat 0 + 1)))
  else none

/-- The loops of lines 306-307 and 324-330: `calls` times, the counter selected by
`RandInt(0, hi)` is incremented.  `RandInt k lo hi` is the value that the `k`-th call of
`RandInt(lo, hi)` returns. -/
def drawCounts (RandInt : Nat → Int → Int → Int) (hi : Int) : Nat → List Int → Option (List Int)
  | 0, counts => some counts
  | k + 1, counts =>
      (drawCounts RandInt hi k counts).bind (fun c => bumpCount c (RandInt k 0 hi))

/-- Lines 310-314: the range starts when frames are skipped, from `cur_start` on; `skips` holds
`num_skips[i + 1]` for the remaining `i`.  Returns the starts and the final `cur_start`; the
two additions to `cur_start` are `int32` additions. -/
def layoutSkips (frames_per_range : Int) : Int → List Int → List Int × Int
  | cur_start, [] => ([], cur_start)
  | cur_start, s :: skips =>
      let r := layoutSkips frames_per_range
        (wrapInt32 (wrapInt32 (cur_start + frames_per_range) + s)) skips
      (cur_start :: r.1, r.2)

/-- Lines 333-337: the range starts when frames are duplicated, from `cur_start` on;
`backtracks` holds `num_backtracks[i]` for the remaining `i`.  Returns the starts and the final
`cur_start`; the addition and the subtraction are `int32` operations. -/
def layoutBacktracks (frames_per_range : Int) : Int → List Int → List Int × Int
  | cur_start, [] => ([], cur_start)
  | cur_start, b :: backtracks =>
      let r := layoutBacktracks frames_per_range
        (wrapInt32 (wrapInt32 (cur_start + frames_per_range) - b)) backtracks
      (cur_start :: r.1, r.2)

/-- The function `SplitIntoRanges` (lines 288-340) on `int32` arguments.  `RandInt k lo hi` is
the value that the `k`-th call of `RandInt(lo, hi)` returns; the result is `none` when the call
faults (division by zero, a vector of negative size, an index out of range or a failed
assertion).  The sums `num_ranges + 1`, the difference `frames_per_range - extra_frames` and
the updates of `cur_start` and of the counters are computed in `int32`. -/
def SplitIntoRanges (RandInt : Nat → Int → Int → Int) (num_frames frames_per_range : Int) :
    Option (List Int) :=
  if frames_per_range > num_frames then some []
  else if frames_per_range = 0 then none
  else
    let num_ranges := Int.tdiv num_frames frames_per_range
    let extra_frames := Int.tmod num_frames frames_per_range
    if extra_frames ≤ Int.tdiv frames_per_range 4 then
      -- lines 305-307
      if wrapInt32 (num_ranges + 1) < 0 then none
      else
        match drawCounts RandInt num_ranges extra_frames.toNat
            (List.replicate (wrapInt32 (num_ranges + 1)).toNat 0) with
        | none => none
        | some num_skips =>
            -- lines 308-315
            if num_ranges < 0 then none
            else
              let r := layoutSkips frames_per_range (num_skips.headD 0)
                (num_skips.tail.take num_ranges.toNat)
              if r.2 = num_frames then some r.1 else none
    else
      -- lines 318-330
      let num_ranges1 := wrapInt32 (num_ranges + 1)
      let num_duplicated_frames := wrapInt32 (frames_per_range - extra_frames)
      if num_ranges1 < 0 then none
      else
        match drawCounts RandInt (wrapInt32 (num_ranges1 - 2)) num_duplicated_frames.toNat
            (List.replicate num_ranges1.toNat 0) with
        | none => none
        | some num_backtracks =>
            -- lines 331-338
            let r := layoutBacktracks frames_per_range 0 num_backtracks
            if r.2 = num_frames then some r.1 else none

variable {α : Type} [LinearOrderedField α]

/-- Assignment `weights[r](pos) = value`; `none` when `pos` is outside the vector. -/
def setWeight (weights : List (List (BaseFloat α))) (r : Nat) (pos : Int)
    (value : BaseFloat α) : Option (List (List (BaseFloat α))) :=
  match weights.get? r with
  | none => none
  | some w =>
      if 0 ≤ pos ∧ pos < w.length then some (weights.set r (w.set pos.toNat value)) else none

/-- Lines 353-383: the body of the loop of `GetWeightsForRanges` for the pair of ranges
`i`, `i + 1`. -/
def GetWeightsForRangesStep (range_length : Int) (range_starts : List Int)
    (weights : List (List (BaseFloat α))) (i : Nat) : Option (List (List (BaseFloat α))) :=
  let j := i + 1
  let i_start := range_starts.getD i 0
  let i_end := i_start + range_length
  let j_start := range_starts.getD j 0
  -- line 356
  if ¬ (j_start > i_start) then none
  else if i_end > j_start then
    let overlap_length := i_end - j_start
    let left_length := Int.tdiv overlap_length 3
    let middle_length := Int.tdiv (overlap_length - left_length) 2
    let right_length := overlap_length - left_length - middle_length
    -- lines 366-367
    if ¬ (left_length ≥ 0 ∧ middle_length ≥ 0 ∧ right_length ≥ 0 ∧
        left_length + middle_length + right_length = overlap_length) then none
    else
      -- lines 369-370
      ((List.range left_length.toNat).foldlM
        (fun w (k : Nat) => setWeight w j (k : Int) 0) weights).bind (fun w1 =>
      -- lines 372-373
      ((List.range right_length.toNat).foldlM
        (fun w (k : Nat) => setWeight w i (range_length - 1 - (k : Int)) 0) w1).bind (fun w2 =>
      -- lines 378-382
      (List.range middle_length.toNat).foldlM
        (fun w (k : Nat) =>
          let weight : BaseFloat α :=
            BaseFloat.finite ((1 / 2 + (k : α)) / ((middle_length : Int) : α))
          (setWeight w j (left_length + (k : Int)) weight).bind (fun w' =>
            setWeight w' i (range_length - 1 - right_length - (k : Int)) weight)) w2))
  else some weights

/-- The function `GetWeightsForRanges` (lines 342-385); `none` when an assertion fails or an
index is out of range. -/
def GetWeightsForRanges (range_length : Int) (range_starts : List Int) :
    Option (List (List (BaseFloat α))) :=
  -- line 345
  if ¬ (range_length > 0) then none
  else
    let num_ranges := range_starts.length
    -- lines 347-351
    let weights : List (List (BaseFloat α)) :=
      List.replicate num_ranges (List.replicate range_length.toNat 1)
    -- lines 352-384
    (List.range (num_ranges - 1)).foldlM (GetWeightsForRangesStep range_length range_starts)
      weights

end Ranges

/-- An `NnetIo` named "input" with two feature columns. -/
def exIoTwoCols : NnetIo ℚ := ⟨"input", [⟨0, 0, 0⟩, ⟨0, 1, 0⟩], ⟨2, [[1, 2], [3, 4]]⟩⟩

/-- An `NnetIo` named "input" with three feature columns. -/
def exIoThreeCols : NnetIo ℚ := ⟨"input", [⟨0, 5, 0⟩], ⟨3, [[7, 8, 9]]⟩⟩

/-- A `RandInt` that always returns its lower bound. -/
def exRandInt : Nat → Int → Int → Int := fun _ lo _ => lo

end nnet3

end kaldi

/-! ## Rounding to a binary floating-point format -/

namespace kaldi

namespace BaseFloat

variable {α : Type} [LinearOrderedField α] [FloorRing α]

/-- Rounding of a number to the nearest integer, a tie going to the even one. -/
def roundTiesToEven (x : α) : Int :=
  if x - (⌊x⌋ : α) < 1 / 2 then ⌊x⌋
  else if 1 / 2 < x - (⌊x⌋ : α) then ⌊x⌋ + 1
  else if ⌊x⌋ % 2 = 0 then ⌊x⌋ else ⌊x⌋ + 1

/-- The exponent of the binade of `x` in a binary format whose least normal exponent is
`emin`: `floor (log2 |x|)`, and `emin` for a subnormal number or zero. -/
def binade (emin : Int) (x : α) : Int := max (Int.log 2 |x|) emin

/-- IEEE 754 rounding (to nearest, ties to even) of the number `x` to the binary format with
`prec` significand bits and normal exponents `emin .. emax`, subnormal numbers included; a
result beyond the largest number of the format is an infinity. -/
def roundBinary (prec : Nat) (emin emax : Int) (x : α) : BaseFloat α :=
  let quantum : α := 2 ^ (binade emin x - ((prec : Int) - 1))
  let r : α := (roundTiesToEven (x / quantum) : α) * quantum
  if (2 : α) ^ (emax + 1) ≤ |r| then (if 0 < x then posInf else negInf) else finite r

/-- The binary32 (`float`) value of an operation whose exact result is given. -/
def round32 : BaseFloat α → BaseFloat α
  | finite x => roundBinary 24 (-126) 127 x
  | x => x

/-- The binary64 (`double`) value of an operation whose exact result is given. -/
def round64 : BaseFloat α → BaseFloat α
  | finite x => roundBinary 53 (-1022) 1023 x
  | x => x

end BaseFloat

end kaldi

/-! ## Vectors written as characters (nnet3/nnet-example-utils.cc) -/

namespace kaldi

namespace BaseFloat

variable {α : Type} [LinearOrderedField α]

/-- The C++ comparison `a <= b` on floating-point values: false whenever NaN is involved. -/
def fle : BaseFloat α → BaseFloat α → Bool
  | finite a, finite b => decide (a ≤ b)
  | nan, _ => false
  | _, nan => false
  | negInf, _ => true
  | _, posInf => true
  | _, _ => false

/-- The conversion `static_cast<unsigned char>(x)`: the fractional part is discarded.  The
standard leaves the result undefined when the truncated value does not fit; it is taken modulo
256 here, and as 0 for an infinity or NaN. -/
def toUnsignedChar [FloorRing α] : BaseFloat α → Nat
  | finite x => ((if 0 ≤ x then ⌊x⌋ else ⌈x⌉) % 256).toNat
  | _ => 0

end BaseFloat

namespace nnet3

section VectorAsChar

variable {α : Type} [LinearOrderedField α] [FloorRing α]

/-- Modelled from the spec: the contents of the stream after a vector was written.
`WriteIntegerVector`, `ReadIntegerVector`, `VectorBase::Write` and `Vector::Read` are not among
the sources; the stream holds the characters or the floating-point values that were written,
and reading gives them back. -/
inductive VectorStream (α : Type) where
  | chars (char_vec : List Nat)
  | floats (vec : List (BaseFloat α))

/-- Lines 229-235: the loop that fills `char_vec`; `none` when the assertion of line 231
fails.  The literals `255.0` and `0.5` are of type `double`, so the product and the sum are
`double` operations on the `float` value. -/
def FillCharVec : List (BaseFloat α) → Option (List Nat)
  | [] => some []
  | value :: rest =>
      if BaseFloat.fle 0 value && BaseFloat.fle value 1 then
        (FillCharVec rest).map
          (fun chars => BaseFloat.toUnsignedChar
            (BaseFloat.round64
              (BaseFloat.round64 (BaseFloat.finite 255 * value) + BaseFloat.finite (1 / 2))) ::
            chars)
      else none

/-- The function `WriteVectorAsChar` (lines 222-241); `none` when an assertion fails. -/
def WriteVectorAsChar (binary : Bool) (vec : List (BaseFloat α)) : Option (VectorStream α) :=
  if binary then (FillCharVec vec).map VectorStream.chars
  else some (VectorStream.floats vec)

/-- The function `ReadVectorAsChar` (lines 243-258); `none` when the stream does not hold what
the mode expects.  The constant `1.0 / 255.0` is computed in `double` and stored in the `float`
variable `scale`; each product `scale * char_vec[i]` is a `float` multiplication. -/
def ReadVectorAsChar (binary : Bool) (is : VectorStream α) : Option (List (BaseFloat α)) :=
  if binary then
    let scale : BaseFloat α :=
      BaseFloat.round32 (BaseFloat.round64 (BaseFloat.finite 1 / BaseFloat.finite 255))
    match is with
    | VectorStream.chars char_vec =>
        some (char_vec.map
          (fun (c : Nat) => BaseFloat.round32 (scale * BaseFloat.finite (c : α))))
    | VectorStream.floats _ => none
  else
    match is with
    | VectorStream.floats vec => some vec
    | VectorStream.chars _ => none

end VectorAsChar

/-- A vector of `float` entries: `0`, `0x1.7f7f8p-2` and `1`. -/
def exFloatVector : List (BaseFloat ℚ) :=
  [BaseFloat.finite 0, BaseFloat.finite (196351 / 524288), BaseFloat.finite 1]

end nnet3

end kaldi

/-! ## Rounding the chunk length (nnet3/nnet-example-utils.cc) -/

namespace kaldi

namespace nnet3

section RoundUp

/-- Lines 263-271 and 272-280: a value that is not a multiple of `frame_subsampling_factor` is
replaced by `frame_subsampling_factor * (value / frame_subsampling_factor + 1)`, computed in
`int32`. -/
def RoundUpValue (frame_subsampling_factor value : Int) : Int :=
  if Int.tmod value frame_subsampling_factor ≠ 0 then
    wrapInt32 (frame_subsampling_factor *
      wrapInt32 (Int.tdiv value frame_subsampling_factor + 1))
  else value

/-- The function `RoundUpNumFrames` (lines 260-286): the new values of `*num_frames` and
`*num_frames_overlap`, or `none` when `KALDI_ERR` is raised or the remainder of line 263 or 272
is undefined (division by zero, or `INT_MIN % -1`). -/
def RoundUpNumFrames (frame_subsampling_factor num_frames num_frames_overlap : Int) :
    Option (Int × Int) :=
  if frame_subsampling_factor = 0 then none
  else if frame_subsampling_factor = -1 ∧
      (num_frames = -2147483648 ∨ num_frames_overlap = -2147483648) then none
  else
    let new_num_frames := RoundUpValue frame_subsampling_factor num_frames
    let new_num_frames_overlap := RoundUpValue frame_subsampling_factor num_frames_overlap
    -- lines 281-284
    if new_num_frames_overlap < 0 ∨ new_num_frames_overlap ≥ new_num_frames then none
    else some (new_num_frames, new_num_frames_overlap)

end RoundUp

end nnet3

end kaldi

/-! ## The deterministic FST over an RNN language model (tensorflow/tensorflow-rnnlm-lib.cc) -/

namespace kaldi

namespace tf_rnnlm

section TfRnnlm

variable {α : Type} [LinearOrderedField α] {Tensor : Type}

set_option linter.dupNamespace false

/-- Modelled from the spec: `KaldiTfRnnlmWrapper` is declared in tensorflow-rnnlm-lib.h, which
is not among the sources; the members that `TfRnnlmDeterministicFst` reads. `GetLogProb` is
the call with non-null `context_out` and `new_cell` (lines 180-244): it runs the TensorFlow
session, which is outside this repository, so its result is a field of the wrapper; `none` is
the `KALDI_ERR` raised when the session reports failure, and a result is the log-probability
with the tensors stored in `*context_out` and `*new_cell`. -/
structure KaldiTfRnnlmWrapper (α : Type) (Tensor : Type) where
  /-- The table `fst_label_to_rnn_label_`. -/
  fst_label_to_rnn_label_ : List Int
  /-- The tensor returned by `GetInitialContext` (line 246). -/
  initial_context_ : Tensor
  /-- The tensor returned by `GetInitialCell` (line 250). -/
  initial_cell_ : Tensor
  /-- The call `GetLogProb(word, fst_word, context_in, cell_in, &context_out, &new_cell)`. -/
  GetLogProb : Int → Int → Tensor → Tensor → Option (BaseFloat α × Tensor × Tensor)

/-- The arc type `fst::StdArc` of OpenFst: labels, weight and destination state. -/
structure StdArc (α : Type) where
  /-- The input label. -/
  ilabel : Int
  /-- The output label. -/
  olabel : Int
  /-- The weight of the arc. -/
  weight : BaseFloat α
  /-- The state the arc leads to. -/
  nextstate : Int

/-- Modelled from the spec: `TfRnnlmDeterministicFst` is declared in tensorflow-rnnlm-lib.h,
which is not among the sources; the data members that the constructor and `GetArc` use. The
hash map `wseq_to_state_` is kept as the list of its key-value pairs. -/
structure TfRnnlmDeterministicFst (α : Type) (Tensor : Type) where
  /-- The member `max_ngram_order_`. -/
  max_ngram_order_ : Int
  /-- The object `rnnlm_` points to. -/
  rnnlm_ : KaldiTfRnnlmWrapper α Tensor
  /-- The member `state_to_wseq_`. -/
  state_to_wseq_ : List (List Int)
  /-- The member `wseq_to_state_`. -/
  wseq_to_state_ : List (List Int × Int)
  /-- The member `state_to_context_`. -/
  state_to_context_ : List Tensor
  /-- The member `state_to_cell_`. -/
  state_to_cell_ : List Tensor
  /-- The member `start_state_`. -/
  start_state_ : Int

/-- The constructor (lines 255-272); the argument is `none` for a null pointer, on which
`KALDI_ASSERT(rnnlm != NULL)` fails. -/
def TfRnnlmDeterministicFst.TfRnnlmDeterministicFst (max_ngram_order : Int)
    (rnnlm : Option (KaldiTfRnnlmWrapper α Tensor)) :
    Option (tf_rnnlm.TfRnnlmDeterministicFst α Tensor) :=
  match rnnlm with
  | none => none
  | some rnnlm =>
    let bos : List Int := []
    some ⟨max_ngram_order, rnnlm, [bos], [(bos, 0)], [rnnlm.initial_context_],
      [rnnlm.initial_cell_], 0⟩

/-- The call `wseq_to_state_.insert(wseq_state_pair)` (line 317): the pair is added only when
the map has no entry for its key. The result is the map afterwards, the value stored under the
key (`result.first->second`) and whether the pair was added (`result.second`). -/
def MapType.insert (wseq_to_state_ : List (List Int × Int)) (wseq : List Int) (state : Int) :
    List (List Int × Int) × Int × Bool :=
  match wseq_to_state_.lookup wseq with
  | some found => (wseq_to_state_, found, false)
  | none => (wseq_to_state_ ++ [(wseq, state)], state, true)

/-- The loop of lines 304-307, entered only when `max_ngram_order_ > 0`: while
`wseq.size() >= max_ngram_order_` the first word is erased. -/
def eraseWhileLong (max_ngram_order_ : Int) : List Int → List Int
  | [] => []
  | word :: wseq =>
    if ((word :: wseq).length : Int) ≥ max_ngram_order_ then eraseWhileLong max_ngram_order_ wseq
    else word :: wseq

/-- The method `GetArc` (lines 286-334), returning the object afterwards and the arc written to
`*oarc`. `none` stands for a failed `KALDI_ASSERT`, an `ilabel` outside
`fst_label_to_rnn_label_`, or a failure of `GetLogProb`. The new state id is
`static_cast<Label>(state_to_wseq_.size())`, a 32-bit value. -/
def TfRnnlmDeterministicFst.GetArc (fst : tf_rnnlm.TfRnnlmDeterministicFst α Tensor)
    (s ilabel : Int) : Option (tf_rnnlm.TfRnnlmDeterministicFst α Tensor × StdArc α) :=
  if s < 0 ∨ s ≥ fst.state_to_wseq_.length then none
  else
    match fst.state_to_wseq_[s.toNat]?, fst.state_to_context_[s.toNat]?,
        fst.state_to_cell_[s.toNat]? with
    | some wseq, some context, some cell =>
      if ilabel < 0 then none
      else
        match fst.rnnlm_.fst_label_to_rnn_label_[ilabel.toNat]? with
        | none => none
        | some rnn_word =>
          match fst.rnnlm_.GetLogProb rnn_word ilabel context cell with
          | none => none
          | some (logprob, new_context, new_cell) =>
            let pushed := wseq ++ [rnn_word]
            let wseq :=
              if fst.max_ngram_order_ > 0 then eraseWhileLong fst.max_ngram_order_ pushed
              else pushed
            let result := MapType.insert fst.wseq_to_state_ wseq
              (wrapInt32 fst.state_to_wseq_.length)
            let after : tf_rnnlm.TfRnnlmDeterministicFst α Tensor :=
              if result.2.2 = true then
                ⟨fst.max_ngram_order_, fst.rnnlm_, fst.state_to_wseq_ ++ [wseq], result.1,
                  fst.state_to_context_ ++ [new_context], fst.state_to_cell_ ++ [new_cell],
                  fst.start_state_⟩
              else
                ⟨fst.max_ngram_order_, fst.rnnlm_, fst.state_to_wseq_, result.1,
                  fst.state_to_context_, fst.state_to_cell_, fst.start_state_⟩
            some (after, ⟨ilabel, ilabel, -logprob, result.2.1⟩)
    | _, _, _ => none

/-- The objects that arise from the constructor by calls of `GetArc` that return. -/
inductive Reachable (max_ngram_order : Int) (rnnlm : KaldiTfRnnlmWrapper α Tensor) :
    tf_rnnlm.TfRnnlmDeterministicFst α Tensor → Prop
  | constructed (fst : tf_rnnlm.TfRnnlmDeterministicFst α Tensor)
      (h : TfRnnlmDeterministicFst.TfRnnlmDeterministicFst max_ngram_order (some rnnlm) =
        some fst) : Reachable max_ngram_order rnnlm fst
  | arc (fst after : tf_rnnlm.TfRnnlmDeterministicFst α Tensor) (s ilabel : Int)
      (oarc : StdArc α) (hfst : Reachable max_ngram_order rnnlm fst)
      (h : fst.GetArc s ilabel = some (after, oarc)) : Reachable max_ngram_order rnnlm after

/-- The relation between the tables of the object that every call preserves: the three state
tables have one entry per state, state 0 is the start state and has the empty history, no
history is longer than `max_ngram_order_ - 1` when that is positive, and, as long as the state
ids fit 32 bits, every entry of `wseq_to_state_` maps a history to a state that has it. -/
def TfRnnlmDeterministicFst.Consistent (fst : tf_rnnlm.TfRnnlmDeterministicFst α Tensor) :
    Prop :=
  fst.state_to_context_.length = fst.state_to_wseq_.length ∧
  fst.state_to_cell_.length = fst.state_to_wseq_.length ∧
  fst.start_state_ = 0 ∧
  fst.state_to_wseq_[0]? = some [] ∧
  (0 < fst.max_ngram_order_ →
    ∀ wseq ∈ fst.state_to_wseq_, (wseq.length : Int) ≤ fst.max_ngram_order_ - 1) ∧
  ((fst.state_to_wseq_.length : Int) < 2147483648 →
    ∀ p ∈ fst.wseq_to_state_, 0 ≤ p.2 ∧ fst.state_to_wseq_[p.2.toNat]? = some p.1)

/-- A wrapper over four labels whose session always succeeds; tensors are word counts. -/
def exRnnlm : KaldiTfRnnlmWrapper ℚ Nat :=
  ⟨[0, 1, 2, 3], 0, 0, fun _ _ context cell => some (BaseFloat.finite (-1), context + 1, cell + 1)⟩

/-- The object constructed over `exRnnlm` with `max_ngram_order = 3`. -/
def exFstStart : tf_rnnlm.TfRnnlmDeterministicFst ℚ Nat :=
  ⟨3, exRnnlm, [[]], [([], 0)], [0], [0], 0⟩

/-- The object after `GetArc(0, 2)`. -/
def exFstOneWord : tf_rnnlm.TfRnnlmDeterministicFst ℚ Nat :=
  ⟨3, exRnnlm, [[], [2]], [([], 0), ([2], 1)], [0, 1], [0, 1], 0⟩

/-- The object after `GetArc(0, 2)` and `GetArc(1, 3)`. -/
def exFstTwoWords : tf_rnnlm.TfRnnlmDeterministicFst ℚ Nat :=
  ⟨3, exRnnlm, [[], [2], [2, 3]], [([], 0), ([2], 1), ([2, 3], 2)], [0, 1, 2], [0, 1, 2], 0⟩

end TfRnnlm

end tf_rnnlm

end kaldi

/-! ## The merged indexes, as the specification describes them -/

namespace kaldi

namespace nnet3

section MergeSpec

variable {β : Type}

end MergeSpec

end nnet3

end kaldi

/-! ## Arithmetic laws of `BaseFloat` -/

namespace kaldi

namespace BaseFloat

variable {α : Type} [LinearOrderedField α]

theorem add_def (a b : BaseFloat α) : a + b = add a b := rfl
theorem mul_def (a b : BaseFloat α) : a * b = mul a b := rfl
theorem neg_def (a : BaseFloat α) : -a = neg a := rfl
theorem div_def (a b : BaseFloat α) : a / b = div a b := rfl
theorem sub_def (a b : BaseFloat α) : a - b = a + -b := rfl
theorem zero_def : (0 : BaseFloat α) = finite 0 := rfl
theorem one_def : (1 : BaseFloat α) = finite 1 := rfl

@[simp] theorem finite_add_finite (a b : α) :
    (finite a + finite b : BaseFloat α) = finite (a + b) := rfl
@[simp] theorem finite_mul_finite (a b : α) :
    (finite a * finite b : BaseFloat α) = finite (a * b) := rfl
@[simp] theorem neg_finite (a : α) : (-(finite a) : BaseFloat α) = finite (-a) := rfl
@[simp] theorem finite_sub_finite (a b : α) :
    (finite a - finite b : BaseFloat α) = finite (a - b) := by
  rw [sub_def, neg_finite, finite_add_finite, sub_eq_add_neg]
theorem finite_div_finite (a b : α) (hb : b ≠ 0) :
    (finite a / finite b : BaseFloat α) = finite (a / b) := by
  simp [div_def, div, hb]

theorem posInf_eq : (posInf : BaseFloat α) = ofSign 1 := rfl
theorem negInf_eq : (negInf : BaseFloat α) = ofSign (-1) := rfl
theorem nan_eq : (nan : BaseFloat α) = ofSign 0 := rfl

theorem fzero_add (a : BaseFloat α) : 0 + a = a := by
  cases a <;> simp [add_def, BaseFloat.add, zero_def]

theorem fadd_zero (a : BaseFloat α) : a + 0 = a := by
  cases a <;> simp [add_def, BaseFloat.add, zero_def]

theorem fone_mul (a : BaseFloat α) : 1 * a = a := by
  cases a <;> simp [mul_def, BaseFloat.mul, one_def, ofSign]

theorem fneg_one_mul (a : BaseFloat α) : finite (-1) * a = -a := by
  cases a <;> simp [mul_def, BaseFloat.mul, neg_def, BaseFloat.neg, ofSign]

theorem fneg_mul (a b : BaseFloat α) : -a * b = -(a * b) := by
  cases a <;> cases b <;>
    simp [mul_def, BaseFloat.mul, neg_def, BaseFloat.neg, ofSign] <;>
    (rename_i x; rcases lt_trichotomy x 0 with h | h | h <;>
      simp [ofSign, h, sign_neg, sign_pos, Left.neg_pos_iff, Left.neg_neg_iff])

theorem finite_or_ofSign (x : BaseFloat α) :
    (∃ a, x = finite a) ∨ (∃ s, x = ofSign s) := by
  cases x
  · exact Or.inl ⟨_, rfl⟩
  · exact Or.inr ⟨SignType.pos, rfl⟩
  · exact Or.inr ⟨SignType.neg, rfl⟩
  · exact Or.inr ⟨SignType.zero, rfl⟩

theorem finite_mul_ofSign (a : α) (s : SignType) :
    (finite a * ofSign s : BaseFloat α) = ofSign (SignType.sign a * s) := by
  cases s <;> rcases lt_trichotomy a 0 with h | h | h <;>
    simp [mul_def, mul, ofSign, h, sign_neg, sign_pos]

theorem ofSign_mul_finite (s : SignType) (a : α) :
    (ofSign s * finite a : BaseFloat α) = ofSign (s * SignType.sign a) := by
  cases s <;> rcases lt_trichotomy a 0 with h | h | h <;>
    simp [mul_def, mul, ofSign, h, sign_neg, sign_pos]

theorem ofSign_mul_ofSign (s t : SignType) :
    (ofSign s * ofSign t : BaseFloat α) = ofSign (s * t) := by
  cases s <;> cases t <;> rfl

theorem fmul_comm (a b : BaseFloat α) : a * b = b * a := by
  rcases finite_or_ofSign a with ⟨x, rfl⟩ | ⟨s, rfl⟩ <;>
    rcases finite_or_ofSign b with ⟨y, rfl⟩ | ⟨t, rfl⟩ <;>
    simp [finite_mul_ofSign, ofSign_mul_finite, ofSign_mul_ofSign, mul_comm]

theorem fmul_assoc (a b c : BaseFloat α) : a * b * c = a * (b * c) := by
  rcases finite_or_ofSign a with ⟨x, rfl⟩ | ⟨s, rfl⟩ <;>
    rcases finite_or_ofSign b with ⟨y, rfl⟩ | ⟨t, rfl⟩ <;>
    rcases finite_or_ofSign c with ⟨z, rfl⟩ | ⟨u, rfl⟩ <;>
    simp [finite_mul_ofSign, ofSign_mul_finite, ofSign_mul_ofSign, mul_assoc, sign_mul]

end BaseFloat

end kaldi

/-! ## The control flow of `ComputeChainObjfAndDeriv` -/

namespace kaldi

section ChainLemmas

variable {α : Type} [LinearOrderedField α] {m n : Nat}

open BaseFloat

theorem feq_sub_self (x : BaseFloat α) : feq (x - x) 0 = true ↔ IsFinite x := by
  cases x <;> simp [sub_def, neg_def, add_def, BaseFloat.neg, BaseFloat.add, feq, IsFinite,
    zero_def]

theorem isFinite_iff (x : BaseFloat α) : IsFinite x ↔ ¬ (x = nan ∨ x = posInf ∨ x = negInf) := by
  cases x <;> simp [IsFinite]

theorem forwardBackward_deriv_isSome (numerator : NumeratorComputation α m n)
    (denominator : DenominatorComputation α m n) (supervision : Supervision α)
    (d x : Option (CuMatrix α m n)) :
    (RunForwardBackward numerator denominator supervision d x).nnet_output_deriv.isSome
      = d.isSome := by
  cases d <;> rfl

theorem validityGuard_deriv_isSome (supervision : Supervision α) (fb : ForwardBackward α m n) :
    (ValidityGuard supervision fb).nnet_output_deriv.isSome = fb.nnet_output_deriv.isSome := by
  simp only [ValidityGuard]
  split <;> simp

theorem derivsPerFrame_isNone (supervision : Supervision α) (d : Option (CuMatrix α m n)) :
    (DerivsPerFrame supervision d).isNone = !(d.isSome && FrameIndexesValid supervision m) := by
  cases d with
  | none => rfl
  | some deriv =>
      unfold DerivsPerFrame
      cases h : FrameIndexesValid supervision m <;> simp

/-- The call returns exactly when the verbose block does not fault, and then its result is
assembled from the three blocks. -/
theorem compute_of_noFault (verbose_level : Int) (numerator : NumeratorComputation α m n)
    (denominator : DenominatorComputation α m n) (opts : ChainTrainingOptions α)
    (supervision : Supervision α) (nnet_output : CuMatrix α m n)
    (xent_output : Option (CuMatrix α m n)) (d x : Option (CuMatrix α m n))
    (h : NoFault verbose_level supervision d) :
    ComputeChainObjfAndDeriv verbose_level numerator denominator opts supervision nnet_output
        xent_output d x =
      some ⟨(ValidityGuard supervision (RunForwardBackward numerator denominator supervision d x)).objf,
        (L2Regularize opts supervision nnet_output xent_output
          (ValidityGuard supervision
            (RunForwardBackward numerator denominator supervision d x)).nnet_output_deriv
          (ValidityGuard supervision
            (RunForwardBackward numerator denominator supervision d x)).xent_output_deriv).l2_term,
        (ValidityGuard supervision (RunForwardBackward numerator denominator supervision d x)).weight,
        (L2Regularize opts supervision nnet_output xent_output
          (ValidityGuard supervision
            (RunForwardBackward numerator denominator supervision d x)).nnet_output_deriv
          (ValidityGuard supervision
            (RunForwardBackward numerator denominator supervision d x)).xent_output_deriv).nnet_output_deriv,
        (L2Regularize opts supervision nnet_output xent_output
          (ValidityGuard supervision
            (RunForwardBackward numerator denominator supervision d x)).nnet_output_deriv
          (ValidityGuard supervision
            (RunForwardBackward numerator denominator supervision d x)).xent_output_deriv).xent_output_deriv,
        (ValidityGuard supervision (RunForwardBackward numerator denominator supervision d x)).warning⟩ := by
  unfold ComputeChainObjfAndDeriv
  have hnone : ¬ (1 ≤ verbose_level ∧
      (DerivsPerFrame supervision (ValidityGuard supervision
        (RunForwardBackward numerator denominator supervision d x)).nnet_output_deriv).isNone
        = true) := by
    rintro ⟨hv, hn⟩
    rw [derivsPerFrame_isNone, validityGuard_deriv_isSome, forwardBackward_deriv_isSome] at hn
    rcases h with h | ⟨h1, h2⟩
    · omega
    · simp [h1, h2] at hn
  simp only [hnone, if_false]

/-- The raw objective of line 68. -/
theorem forwardBackward_logprobs (numerator : NumeratorComputation α m n)
    (denominator : DenominatorComputation α m n) (supervision : Supervision α)
    (d x : Option (CuMatrix α m n)) :
    (RunForwardBackward numerator denominator supervision d x).num_logprob_weighted
        = numerator.Forward ∧
      (RunForwardBackward numerator denominator supervision d x).den_logprob
        = denominator.Forward := ⟨rfl, rfl⟩

/-- The flag `ok` of lines 63-66: the result of the denominator backward pass when a primary
buffer is supplied, `true` otherwise. -/
theorem forwardBackward_ok (numerator : NumeratorComputation α m n)
    (denominator : DenominatorComputation α m n) (supervision : Supervision α)
    (d x : Option (CuMatrix α m n)) :
    (RunForwardBackward numerator denominator supervision d x).ok =
      match d with
      | some deriv => (denominator.Backward (-supervision.weight)
          (numerator.Backward (CuMatrix.SetZero deriv))).1
      | none => true := by
  cases d <;> rfl

theorem validityGuard_warning_isSome (supervision : Supervision α) (fb : ForwardBackward α m n) :
    (ValidityGuard supervision fb).warning.isSome = true ↔
      ¬ IsFinite (fb.num_logprob_weighted - supervision.weight * fb.den_logprob) ∨
        fb.ok = false := by
  simp only [ValidityGuard]
  rw [← feq_sub_self]
  cases h1 : feq (fb.num_logprob_weighted - supervision.weight * fb.den_logprob -
    (fb.num_logprob_weighted - supervision.weight * fb.den_logprob)) 0 <;>
    cases h2 : fb.ok <;> simp [h1, h2]

theorem validityGuard_objf (supervision : Supervision α) (fb : ForwardBackward α m n) :
    (ValidityGuard supervision fb).objf =
      if (ValidityGuard supervision fb).warning.isSome then
        finite (-10) * (ValidityGuard supervision fb).weight
      else fb.num_logprob_weighted - supervision.weight * fb.den_logprob := by
  simp only [ValidityGuard]
  split <;> simp

theorem validityGuard_weight (supervision : Supervision α) (fb : ForwardBackward α m n) :
    (ValidityGuard supervision fb).weight =
      supervision.weight * ofInt supervision.num_sequences *
        ofInt supervision.frames_per_sequence := by
  simp only [ValidityGuard]
  split <;> rfl

theorem validityGuard_buffers_of_warning (supervision : Supervision α)
    (fb : ForwardBackward α m n) (hw : (ValidityGuard supervision fb).warning.isSome = true) :
    (ValidityGuard supervision fb).nnet_output_deriv = fb.nnet_output_deriv.map CuMatrix.SetZero ∧
      (ValidityGuard supervision fb).xent_output_deriv
        = fb.xent_output_deriv.map CuMatrix.SetZero := by
  simp only [ValidityGuard] at hw ⊢
  split
  · exact ⟨rfl, rfl⟩
  · rename_i hc
    simp [hc] at hw

theorem validityGuard_buffers_of_no_warning (supervision : Supervision α)
    (fb : ForwardBackward α m n) (hw : (ValidityGuard supervision fb).warning.isSome = false) :
    (ValidityGuard supervision fb).nnet_output_deriv = fb.nnet_output_deriv ∧
      (ValidityGuard supervision fb).xent_output_deriv = fb.xent_output_deriv := by
  simp only [ValidityGuard] at hw ⊢
  split
  · rename_i hc
    simp [hc] at hw
  · exact ⟨rfl, rfl⟩

theorem forwardBackward_setZero (numerator : NumeratorComputation α m n)
    (denominator : DenominatorComputation α m n) (supervision : Supervision α)
    (d x : Option (CuMatrix α m n)) :
    (RunForwardBackward numerator denominator supervision d x).nnet_output_deriv.map
        CuMatrix.SetZero = d.map (fun _ => CuMatrix.Zero) ∧
      (RunForwardBackward numerator denominator supervision d x).xent_output_deriv.map
        CuMatrix.SetZero = x.map (fun _ => CuMatrix.Zero) := by
  cases d <;> cases x <;> exact ⟨rfl, rfl⟩

theorem forwardBackward_primary (numerator : NumeratorComputation α m n)
    (denominator : DenominatorComputation α m n) (supervision : Supervision α)
    (B : CuMatrix α m n) (x : Option (CuMatrix α m n)) :
    (RunForwardBackward numerator denominator supervision (some B) x).nnet_output_deriv
        = some (denominator.Backward (-supervision.weight)
            (numerator.Backward CuMatrix.Zero)).2 ∧
      (RunForwardBackward numerator denominator supervision (some B) x).xent_output_deriv
        = x.map (fun _ => numerator.Backward CuMatrix.Zero) ∧
      (RunForwardBackward numerator denominator supervision (some B) x).ok
        = (denominator.Backward (-supervision.weight) (numerator.Backward CuMatrix.Zero)).1 := by
  cases x <;> exact ⟨rfl, rfl, rfl⟩

theorem forwardBackward_xent_only (numerator : NumeratorComputation α m n)
    (denominator : DenominatorComputation α m n) (supervision : Supervision α)
    (x : Option (CuMatrix α m n)) :
    (RunForwardBackward numerator denominator supervision none x).nnet_output_deriv = none ∧
      (RunForwardBackward numerator denominator supervision none x).xent_output_deriv
        = x.map (fun _ => numerator.Backward CuMatrix.Zero) ∧
      (RunForwardBackward numerator denominator supervision none x).ok = true := by
  cases x <;> exact ⟨rfl, rfl, rfl⟩

theorem validityGuard_silent (supervision : Supervision α) (fb : ForwardBackward α m n)
    (hfin : IsFinite (fb.num_logprob_weighted - supervision.weight * fb.den_logprob))
    (hok : fb.ok = true) :
    (ValidityGuard supervision fb).warning.isSome = false := by
  cases hws : (ValidityGuard supervision fb).warning.isSome
  · rfl
  · rcases (validityGuard_warning_isSome supervision fb).mp hws with hbad | hbad
    · exact absurd hfin hbad
    · rw [hok] at hbad
      exact absurd hbad (by decide)

theorem l2Regularize_zero (opts : ChainTrainingOptions α) (supervision : Supervision α)
    (nnet_output : CuMatrix α m n) (xent_output : Option (CuMatrix α m n))
    (d x : Option (CuMatrix α m n)) (hl2 : opts.l2_regularize = 0) :
    L2Regularize opts supervision nnet_output xent_output d x = ⟨0, d, x⟩ := by
  simp [L2Regularize, hl2, feq, zero_def]

theorem compute_fault (verbose_level : Int) (numerator : NumeratorComputation α m n)
    (denominator : DenominatorComputation α m n) (opts : ChainTrainingOptions α)
    (supervision : Supervision α) (nnet_output : CuMatrix α m n)
    (xent_output : Option (CuMatrix α m n)) (x : Option (CuMatrix α m n))
    (hv : 1 ≤ verbose_level) :
    ComputeChainObjfAndDeriv verbose_level numerator denominator opts supervision nnet_output
        xent_output none x = none := by
  unfold ComputeChainObjfAndDeriv
  have hnone : (DerivsPerFrame supervision (ValidityGuard supervision
      (RunForwardBackward numerator denominator supervision none x)).nnet_output_deriv).isNone
        = true := by
    rw [derivsPerFrame_isNone, validityGuard_deriv_isSome, forwardBackward_deriv_isSome]
    rfl
  simp only [hv, hnone, and_self, if_true]

end ChainLemmas

end kaldi

/-! ## The regression of the chain output on the cross-entropy output -/

namespace kaldi

section Regression

variable {α : Type} [LinearOrderedField α] {m n : Nat}

open BaseFloat

theorem sumFin_finite (k : Nat) (f : Fin k → α) :
    sumFin k (fun i => finite (f i)) = finite (∑ i, f i) := by
  induction k with
  | zero => simp [sumFin, zero_def]
  | succ k ih =>
      rw [sumFin, ih, Fin.sum_univ_castSucc, finite_add_finite]

theorem feq_zero_eq_false (a : BaseFloat α) (h : a ≠ 0) : feq a 0 = false := by
  cases a <;> simp_all [feq, zero_def]

/-- The entries of `output_diff` (lines 146-149). -/
theorem outputDiff_apply (nnet_output xent_output : CuMatrix α m n) (scale offset : CuVector α n)
    (j : Fin m) (i : Fin n) :
    OutputDiff nnet_output xent_output scale offset j i
      = scale i * xent_output j i + offset i - nnet_output j i := by
  simp only [OutputDiff, CuMatrix.AddMat, CuMatrix.AddVecToRows, CuMatrix.AddMatDiagVec,
    CuMatrix.Zero, fone_mul, fneg_one_mul, sub_def]
  rw [zero_def, finite_mul_finite, mul_zero, ← zero_def, fzero_add, fmul_comm]

/-- The regularization step when `l2_regularize` is nonzero and `xent_output` is supplied
(lines 107-157). -/
theorem l2Regularize_xent (opts : ChainTrainingOptions α) (supervision : Supervision α)
    (nnet_output xent : CuMatrix α m n) (d x : Option (CuMatrix α m n))
    (hl2 : opts.l2_regularize ≠ 0) :
    L2Regularize opts supervision nnet_output (some xent) d x =
      ⟨finite (-(1 / 2)) * (supervision.weight * opts.l2_regularize) *
          TraceMatMat
            (OutputDiff nnet_output xent (ComputeScaleAndOffset nnet_output xent).1
              (ComputeScaleAndOffset nnet_output xent).2)
            (OutputDiff nnet_output xent (ComputeScaleAndOffset nnet_output xent).1
              (ComputeScaleAndOffset nnet_output xent).2),
        d.map (CuMatrix.AddMat (supervision.weight * opts.l2_regularize)
          (OutputDiff nnet_output xent (ComputeScaleAndOffset nnet_output xent).1
            (ComputeScaleAndOffset nnet_output xent).2)),
        x.map (CuMatrix.AddMatDiagVec (finite (-1) * (supervision.weight * opts.l2_regularize))
          (OutputDiff nnet_output xent (ComputeScaleAndOffset nnet_output xent).1
            (ComputeScaleAndOffset nnet_output xent).2)
          (ComputeScaleAndOffset nnet_output xent).1 1)⟩ := by
  simp only [L2Regularize, feq_zero_eq_false _ hl2]
  rfl

end Regression

end kaldi

/-! ## The validity guard and the reported scalars -/

namespace kaldi

section Claims

variable {α : Type} [LinearOrderedField α] {m n : Nat}

open BaseFloat

/-- C1: the objective is replaced by the default (and the diagnostic emitted) if and only if the
raw objective `num_logprob_weighted - supervision.weight * den_logprob` is NaN or infinite, or a
primary gradient buffer is supplied and the denominator backward pass run on it returned false;
in that case the returned objective is `-10` times the returned frame weight, and otherwise it
is the raw objective. -/
theorem C1_guard_replaces_objective (verbose_level : Int)
    (numerator : NumeratorComputation α m n) (denominator : DenominatorComputation α m n)
    (opts : ChainTrainingOptions α) (supervision : Supervision α) (nnet_output : CuMatrix α m n)
    (xent_output : Option (CuMatrix α m n)) (d x : Option (CuMatrix α m n))
    (h : NoFault verbose_level supervision d) :
    ∃ r, ComputeChainObjfAndDeriv verbose_level numerator denominator opts supervision
        nnet_output xent_output d x = some r ∧
      (r.warning.isSome = true ↔
        ((numerator.Forward - supervision.weight * denominator.Forward = nan ∨
          numerator.Forward - supervision.weight * denominator.Forward = posInf ∨
          numerator.Forward - supervision.weight * denominator.Forward = negInf) ∨
         ∃ deriv, d = some deriv ∧
          (denominator.Backward (-supervision.weight)
            (numerator.Backward (CuMatrix.SetZero deriv))).1 = false)) ∧
      (r.warning.isSome = true → r.objf = finite (-10) * r.weight) ∧
      (r.warning.isSome = false →
        r.objf = numerator.Forward - supervision.weight * denominator.Forward) := by
  refine ⟨_, compute_of_noFault verbose_level numerator denominator opts supervision nnet_output
    xent_output d x h, ?_, ?_, ?_⟩
  · simp only [validityGuard_warning_isSome, isFinite_iff, not_not, forwardBackward_ok]
    have hl := forwardBackward_logprobs numerator denominator supervision d x
    rw [hl.1, hl.2]
    cases d <;> simp
  · intro hw
    simp only [] at hw ⊢
    rw [validityGuard_objf, if_pos hw]
  · intro hw
    simp only [] at hw ⊢
    rw [validityGuard_objf]
    rw [hw]
    rfl

/-- C1 at a concrete input: the denominator backward pass fails on a supplied primary buffer. -/
theorem C1_guard_replaces_objective_witness :
    NoFault 0 exSupervision (some exBuffer) ∧
    ∃ r, ComputeChainObjfAndDeriv 0 exNumerator exDenominatorFailing exOptsNoL2 exSupervision
        exNnetOutput none (some exBuffer) none = some r ∧
      (r.warning.isSome = true ↔
        ((exNumerator.Forward - exSupervision.weight * exDenominatorFailing.Forward = nan ∨
          exNumerator.Forward - exSupervision.weight * exDenominatorFailing.Forward = posInf ∨
          exNumerator.Forward - exSupervision.weight * exDenominatorFailing.Forward = negInf) ∨
         ∃ deriv, some exBuffer = some deriv ∧
          (exDenominatorFailing.Backward (-exSupervision.weight)
            (exNumerator.Backward (CuMatrix.SetZero deriv))).1 = false)) ∧
      (r.warning.isSome = true → r.objf = finite (-10) * r.weight) ∧
      (r.warning.isSome = false →
        r.objf = exNumerator.Forward - exSupervision.weight * exDenominatorFailing.Forward) :=
  ⟨Or.inl (by decide),
    C1_guard_replaces_objective 0 exNumerator exDenominatorFailing exOptsNoL2 exSupervision
      exNnetOutput none (some exBuffer) none (Or.inl (by decide))⟩

/-- C2, counterexample: with `l2_regularize = 1` and a denominator backward pass that reports
failure the guard fires, yet the primary buffer returned to the caller is not all-zero (entry
`(0,0)` is `-1`, the increment of the regularization step). -/
theorem C2_buffers_zero_counterexample :
    ∃ r, ComputeChainObjfAndDeriv 0 exNumerator exDenominatorFailing exOptsL2 exSupervision
        exNnetOutput none (some exBuffer) none = some r ∧
      r.warning.isSome = true ∧
      (∃ deriv, r.nnet_output_deriv = some deriv ∧ deriv 0 0 = finite (-1)) ∧
      r.nnet_output_deriv ≠ some (fun _ _ => 0) := by
  have hw : (ValidityGuard exSupervision (RunForwardBackward exNumerator exDenominatorFailing
      exSupervision (some exBuffer) none)).warning.isSome = true := by
    rw [validityGuard_warning_isSome]
    exact Or.inr rfl
  have hb := validityGuard_buffers_of_warning _ _ hw
  have hz := forwardBackward_setZero exNumerator exDenominatorFailing exSupervision
    (some exBuffer) none
  have hd : (L2Regularize exOptsL2 exSupervision exNnetOutput none
      (ValidityGuard exSupervision (RunForwardBackward exNumerator exDenominatorFailing
        exSupervision (some exBuffer) none)).nnet_output_deriv
      (ValidityGuard exSupervision (RunForwardBackward exNumerator exDenominatorFailing
        exSupervision (some exBuffer) none)).xent_output_deriv).nnet_output_deriv
      = some (fun j i => 0 + finite (-1) * (finite 1 * finite 1) * exNnetOutput j i) := by
    rw [hb.1, hb.2, hz.1, hz.2]
    simp [L2Regularize, exOptsL2, exSupervision, feq, zero_def]
    rfl
  refine ⟨_, compute_of_noFault 0 exNumerator exDenominatorFailing exOptsL2 exSupervision
    exNnetOutput none (some exBuffer) none (Or.inl (by decide)), hw, ⟨_, hd, ?_⟩, ?_⟩
  · simp [exNnetOutput, exNnetColumn, zero_def]
  · rw [hd]
    intro hcontra
    have h00 := congrFun (congrFun (Option.some.inj hcontra) 0) 0
    simp [exNnetOutput, exNnetColumn, zero_def] at h00

/-- The guard fires when the raw objective is not finite, or a primary buffer is supplied and
the denominator backward pass run on it returned false. -/
theorem validityGuard_fires (numerator : NumeratorComputation α m n)
    (denominator : DenominatorComputation α m n) (supervision : Supervision α)
    (d x : Option (CuMatrix α m n))
    (hfire : ¬ IsFinite (numerator.Forward - supervision.weight * denominator.Forward) ∨
      ∃ deriv, d = some deriv ∧
        (denominator.Backward (-supervision.weight)
          (numerator.Backward (CuMatrix.SetZero deriv))).1 = false) :
    (ValidityGuard supervision
      (RunForwardBackward numerator denominator supervision d x)).warning.isSome = true := by
  rw [validityGuard_warning_isSome]
  have hl := forwardBackward_logprobs numerator denominator supervision d x
  rw [hl.1, hl.2]
  rcases hfire with h | ⟨deriv, hd, hb⟩
  · exact Or.inl h
  · right
    rw [forwardBackward_ok, hd]
    exact hb

/-- C2 (amended): whenever the validity guard fires (the raw objective is NaN or infinite, or a
primary buffer is supplied and the denominator backward pass run on it returned false), the
diagnostic is emitted, both buffers supplied by the caller are all-zero at the end of the guard
step, and if `l2_regularize = 0` they are all-zero when the function returns. -/
theorem C2_buffers_zero_after_guard (verbose_level : Int)
    (numerator : NumeratorComputation α m n) (denominator : DenominatorComputation α m n)
    (opts : ChainTrainingOptions α) (supervision : Supervision α) (nnet_output : CuMatrix α m n)
    (xent_output : Option (CuMatrix α m n)) (d x : Option (CuMatrix α m n))
    (h : NoFault verbose_level supervision d)
    (hfire : ¬ IsFinite (numerator.Forward - supervision.weight * denominator.Forward) ∨
      ∃ deriv, d = some deriv ∧
        (denominator.Backward (-supervision.weight)
          (numerator.Backward (CuMatrix.SetZero deriv))).1 = false) :
    ∃ r, ComputeChainObjfAndDeriv verbose_level numerator denominator opts supervision
        nnet_output xent_output d x = some r ∧
      r.warning.isSome = true ∧
      ((ValidityGuard supervision
          (RunForwardBackward numerator denominator supervision d x)).nnet_output_deriv
          = d.map (fun _ => fun _ _ => 0) ∧
       (ValidityGuard supervision
          (RunForwardBackward numerator denominator supervision d x)).xent_output_deriv
          = x.map (fun _ => fun _ _ => 0)) ∧
      (opts.l2_regularize = 0 →
        r.nnet_output_deriv = d.map (fun _ => fun _ _ => 0) ∧
        r.xent_output_deriv = x.map (fun _ => fun _ _ => 0)) := by
  have hw := validityGuard_fires numerator denominator supervision d x hfire
  have hb := validityGuard_buffers_of_warning supervision _ hw
  have hz := forwardBackward_setZero numerator denominator supervision d x
  have hg : (ValidityGuard supervision
        (RunForwardBackward numerator denominator supervision d x)).nnet_output_deriv
        = d.map (fun _ => fun _ _ => 0) ∧
      (ValidityGuard supervision
        (RunForwardBackward numerator denominator supervision d x)).xent_output_deriv
        = x.map (fun _ => fun _ _ => 0) := ⟨hb.1.trans hz.1, hb.2.trans hz.2⟩
  refine ⟨_, compute_of_noFault verbose_level numerator denominator opts supervision nnet_output
    xent_output d x h, hw, hg, fun hl2 => ?_⟩
  simp only [l2Regularize_zero _ _ _ _ _ _ hl2]
  exact hg

/-- C2 (amended) at a concrete input: the denominator backward pass fails on the supplied
primary buffer, with `l2_regularize = 0`; both returned buffers are all-zero. -/
theorem C2_buffers_zero_after_guard_witness :
    (NoFault 0 exSupervision (some exBuffer) ∧
      (¬ IsFinite (exNumerator.Forward - exSupervision.weight * exDenominatorFailing.Forward) ∨
        ∃ deriv, some exBuffer = some deriv ∧
          (exDenominatorFailing.Backward (-exSupervision.weight)
            (exNumerator.Backward (CuMatrix.SetZero deriv))).1 = false)) ∧
    ∃ r, ComputeChainObjfAndDeriv 0 exNumerator exDenominatorFailing exOptsNoL2 exSupervision
        exNnetOutput none (some exBuffer) (some exBuffer) = some r ∧
      r.warning.isSome = true ∧
      ((ValidityGuard exSupervision (RunForwardBackward exNumerator exDenominatorFailing
          exSupervision (some exBuffer) (some exBuffer))).nnet_output_deriv
          = (some exBuffer).map (fun _ => fun _ _ => 0) ∧
       (ValidityGuard exSupervision (RunForwardBackward exNumerator exDenominatorFailing
          exSupervision (some exBuffer) (some exBuffer))).xent_output_deriv
          = (some exBuffer).map (fun _ => fun _ _ => 0)) ∧
      (exOptsNoL2.l2_regularize = 0 →
        r.nnet_output_deriv = (some exBuffer).map (fun _ => fun _ _ => 0) ∧
        r.xent_output_deriv = (some exBuffer).map (fun _ => fun _ _ => 0)) :=
  ⟨⟨Or.inl (by decide), Or.inr ⟨exBuffer, rfl, rfl⟩⟩,
    C2_buffers_zero_after_guard 0 exNumerator exDenominatorFailing exOptsNoL2 exSupervision
      exNnetOutput none (some exBuffer) (some exBuffer) (Or.inl (by decide))
      (Or.inr ⟨exBuffer, rfl, rfl⟩)⟩

/-- C3: whenever the validity guard does not fire (the raw objective is finite and the
denominator backward pass, if run, returned true), the returned objective is
`numerator.Forward() - supervision.weight * denominator.Forward()`. -/
theorem C3_objective_when_guard_silent (verbose_level : Int)
    (numerator : NumeratorComputation α m n) (denominator : DenominatorComputation α m n)
    (opts : ChainTrainingOptions α) (supervision : Supervision α) (nnet_output : CuMatrix α m n)
    (xent_output : Option (CuMatrix α m n)) (d x : Option (CuMatrix α m n))
    (h : NoFault verbose_level supervision d)
    (hfin : IsFinite (numerator.Forward - supervision.weight * denominator.Forward))
    (hok : ∀ deriv, d = some deriv →
      (denominator.Backward (-supervision.weight)
        (numerator.Backward (CuMatrix.SetZero deriv))).1 = true) :
    ∃ r, ComputeChainObjfAndDeriv verbose_level numerator denominator opts supervision
        nnet_output xent_output d x = some r ∧
      r.warning = none ∧
      r.objf = numerator.Forward - supervision.weight * denominator.Forward := by
  have hokfb : (RunForwardBackward numerator denominator supervision d x).ok = true := by
    rw [forwardBackward_ok]
    cases d with
    | none => rfl
    | some deriv => exact hok deriv rfl
  have hw := validityGuard_silent supervision
    (RunForwardBackward numerator denominator supervision d x) hfin hokfb
  refine ⟨_, compute_of_noFault verbose_level numerator denominator opts supervision nnet_output
    xent_output d x h, ?_, ?_⟩
  · simpa using hw
  · simp only []
    rw [validityGuard_objf, hw]
    rfl

/-- C3 at a concrete input: finite log-likelihoods and a successful denominator pass. -/
theorem C3_objective_when_guard_silent_witness :
    (NoFault 0 exSupervision (some exBuffer) ∧
      IsFinite (exNumerator.Forward - exSupervision.weight * exDenominator.Forward) ∧
      ∀ deriv, some exBuffer = some deriv →
        (exDenominator.Backward (-exSupervision.weight)
          (exNumerator.Backward (CuMatrix.SetZero deriv))).1 = true) ∧
    ∃ r, ComputeChainObjfAndDeriv 0 exNumerator exDenominator exOptsNoL2 exSupervision
        exNnetOutput none (some exBuffer) none = some r ∧
      r.warning = none ∧
      r.objf = exNumerator.Forward - exSupervision.weight * exDenominator.Forward :=
  ⟨⟨Or.inl (by decide), trivial, fun _ _ => rfl⟩,
    C3_objective_when_guard_silent 0 exNumerator exDenominator exOptsNoL2 exSupervision
      exNnetOutput none (some exBuffer) none (Or.inl (by decide)) trivial (fun _ _ => rfl)⟩

/-- C4: the returned frame weight is
`supervision.weight * supervision.num_sequences * supervision.frames_per_sequence`, whether or
not the guard fires and whatever the options are. -/
theorem C4_frame_weight (verbose_level : Int)
    (numerator : NumeratorComputation α m n) (denominator : DenominatorComputation α m n)
    (opts : ChainTrainingOptions α) (supervision : Supervision α) (nnet_output : CuMatrix α m n)
    (xent_output : Option (CuMatrix α m n)) (d x : Option (CuMatrix α m n))
    (h : NoFault verbose_level supervision d) :
    ∃ r, ComputeChainObjfAndDeriv verbose_level numerator denominator opts supervision
        nnet_output xent_output d x = some r ∧
      r.weight = supervision.weight * ofInt supervision.num_sequences *
        ofInt supervision.frames_per_sequence :=
  ⟨_, compute_of_noFault verbose_level numerator denominator opts supervision nnet_output
    xent_output d x h, validityGuard_weight supervision _⟩

/-- C4 at a concrete input, with the verbose block enabled and the guard firing. -/
theorem C4_frame_weight_witness :
    NoFault 1 exSupervision (some exBuffer) ∧
    ∃ r, ComputeChainObjfAndDeriv 1 exNumerator exDenominatorFailing exOptsL2 exSupervision
        exNnetOutput (some exXentOutput) (some exBuffer) (some exBuffer) = some r ∧
      r.weight = exSupervision.weight * ofInt exSupervision.num_sequences *
        ofInt exSupervision.frames_per_sequence :=
  ⟨Or.inr ⟨rfl, by decide⟩,
    C4_frame_weight 1 exNumerator exDenominatorFailing exOptsL2 exSupervision
      exNnetOutput (some exXentOutput) (some exBuffer) (some exBuffer) (Or.inr ⟨rfl, by decide⟩)⟩

/-- C5: when a primary gradient buffer is supplied, the guard does not fire and
`l2_regularize` is 0, the primary gradient returned is the numerator's contribution plus the
denominator's contribution scaled by `-supervision.weight`, accumulated onto a zeroed buffer;
the whole result is the same for every previous contents of the buffer. -/
theorem C5_primary_gradient (verbose_level : Int)
    (numerator : NumeratorComputation α m n) (denominator : DenominatorComputation α m n)
    (opts : ChainTrainingOptions α) (supervision : Supervision α) (nnet_output : CuMatrix α m n)
    (xent_output : Option (CuMatrix α m n)) (B : CuMatrix α m n) (x : Option (CuMatrix α m n))
    (N D : CuMatrix α m n)
    (hN : numerator.Accumulates N) (hD : denominator.Accumulates D)
    (h : NoFault verbose_level supervision (some B))
    (hfin : IsFinite (numerator.Forward - supervision.weight * denominator.Forward))
    (hok : (denominator.Backward (-supervision.weight)
      (numerator.Backward CuMatrix.Zero)).1 = true)
    (hl2 : opts.l2_regularize = 0) :
    (∃ r, ComputeChainObjfAndDeriv verbose_level numerator denominator opts supervision
        nnet_output xent_output (some B) x = some r ∧
      r.nnet_output_deriv = some (denominator.Backward (-supervision.weight)
        (numerator.Backward CuMatrix.Zero)).2 ∧
      r.nnet_output_deriv = some (fun j i => N j i + -supervision.weight * D j i)) ∧
    ∀ B', ComputeChainObjfAndDeriv verbose_level numerator denominator opts supervision
        nnet_output xent_output (some B') x =
      ComputeChainObjfAndDeriv verbose_level numerator denominator opts supervision
        nnet_output xent_output (some B) x := by
  refine ⟨⟨_, compute_of_noFault verbose_level numerator denominator opts supervision
    nnet_output xent_output (some B) x h, ?_, ?_⟩, fun B' => rfl⟩
  · have hp := forwardBackward_primary numerator denominator supervision B x
    have hw := validityGuard_silent supervision
      (RunForwardBackward numerator denominator supervision (some B) x) hfin (hp.2.2.trans hok)
    have hb := validityGuard_buffers_of_no_warning supervision _ hw
    simp only [l2Regularize_zero _ _ _ _ _ _ hl2]
    rw [hb.1, hp.1]
  · have hp := forwardBackward_primary numerator denominator supervision B x
    have hw := validityGuard_silent supervision
      (RunForwardBackward numerator denominator supervision (some B) x) hfin (hp.2.2.trans hok)
    have hb := validityGuard_buffers_of_no_warning supervision _ hw
    simp only [l2Regularize_zero _ _ _ _ _ _ hl2]
    rw [hb.1, hp.1, hD, hN]
    congr 1
    funext j i
    simp only [CuMatrix.Zero, fzero_add]

/-- C5 at a concrete input: a buffer holding `7` everywhere ends up holding `1 + -1 * (1/2)`. -/
theorem C5_primary_gradient_witness :
    (exNumerator.Accumulates exNumDeriv ∧ exDenominator.Accumulates exDenDeriv ∧
      NoFault 0 exSupervision (some exBuffer) ∧
      IsFinite (exNumerator.Forward - exSupervision.weight * exDenominator.Forward) ∧
      (exDenominator.Backward (-exSupervision.weight)
        (exNumerator.Backward CuMatrix.Zero)).1 = true ∧
      exOptsNoL2.l2_regularize = 0) ∧
    ((∃ r, ComputeChainObjfAndDeriv 0 exNumerator exDenominator exOptsNoL2 exSupervision
        exNnetOutput none (some exBuffer) none = some r ∧
      r.nnet_output_deriv = some (exDenominator.Backward (-exSupervision.weight)
        (exNumerator.Backward CuMatrix.Zero)).2 ∧
      r.nnet_output_deriv
        = some (fun j i => exNumDeriv j i + -exSupervision.weight * exDenDeriv j i)) ∧
    ∀ B', ComputeChainObjfAndDeriv 0 exNumerator exDenominator exOptsNoL2 exSupervision
        exNnetOutput none (some B') none =
      ComputeChainObjfAndDeriv 0 exNumerator exDenominator exOptsNoL2 exSupervision
        exNnetOutput none (some exBuffer) none) :=
  ⟨⟨fun _ => rfl, fun _ _ => rfl, Or.inl (by decide), trivial, rfl, rfl⟩,
    C5_primary_gradient 0 exNumerator exDenominator exOptsNoL2 exSupervision exNnetOutput none
      exBuffer none exNumDeriv exDenDeriv (fun _ => rfl) (fun _ _ => rfl) (Or.inl (by decide))
      trivial rfl rfl⟩

/-- C6: when only the auxiliary gradient buffer is supplied, it is zeroed and the numerator
backward pass is run into it: with the guard silent and `l2_regularize = 0` it holds exactly
the numerator gradient whatever it held before, no primary gradient is produced, and the
denominator backward pass is not run (the result is the same for every denominator with the
same `Forward()` value). -/
theorem C6_xent_only_gradient (verbose_level : Int)
    (numerator : NumeratorComputation α m n) (denominator : DenominatorComputation α m n)
    (opts : ChainTrainingOptions α) (supervision : Supervision α) (nnet_output : CuMatrix α m n)
    (xent_output : Option (CuMatrix α m n)) (B : CuMatrix α m n) (N : CuMatrix α m n)
    (hN : numerator.Accumulates N)
    (h : NoFault verbose_level supervision (none : Option (CuMatrix α m n)))
    (hfin : IsFinite (numerator.Forward - supervision.weight * denominator.Forward))
    (hl2 : opts.l2_regularize = 0) :
    (∃ r, ComputeChainObjfAndDeriv verbose_level numerator denominator opts supervision
        nnet_output xent_output none (some B) = some r ∧
      r.warning = none ∧
      r.nnet_output_deriv = none ∧
      r.xent_output_deriv = some (numerator.Backward (CuMatrix.SetZero B)) ∧
      r.xent_output_deriv = some N) ∧
    (∀ B', ComputeChainObjfAndDeriv verbose_level numerator denominator opts supervision
        nnet_output xent_output none (some B') =
      ComputeChainObjfAndDeriv verbose_level numerator denominator opts supervision
        nnet_output xent_output none (some B)) ∧
    (∀ backward', ComputeChainObjfAndDeriv verbose_level numerator
        ⟨denominator.Forward, backward'⟩ opts supervision nnet_output xent_output none (some B) =
      ComputeChainObjfAndDeriv verbose_level numerator denominator opts supervision
        nnet_output xent_output none (some B)) := by
  have hp := forwardBackward_xent_only numerator denominator supervision (some B)
  have hw := validityGuard_silent supervision
    (RunForwardBackward numerator denominator supervision none (some B)) hfin hp.2.2
  have hb := validityGuard_buffers_of_no_warning supervision _ hw
  refine ⟨⟨_, compute_of_noFault verbose_level numerator denominator opts supervision
    nnet_output xent_output none (some B) h, ?_, ?_, ?_, ?_⟩, fun B' => rfl, fun _ => rfl⟩
  · simpa using hw
  · simp only [l2Regularize_zero _ _ _ _ _ _ hl2]
    rw [hb.1, hp.1]
  · simp only [l2Regularize_zero _ _ _ _ _ _ hl2]
    rw [hb.2, hp.2.1]
    rfl
  · simp only [l2Regularize_zero _ _ _ _ _ _ hl2]
    rw [hb.2, hp.2.1, Option.map_some', hN]
    congr 1
    funext j i
    simp only [CuMatrix.Zero, fzero_add]

/-- C6 at a concrete input: an auxiliary buffer holding `7` everywhere ends up holding the
numerator gradient. -/
theorem C6_xent_only_gradient_witness :
    (exNumerator.Accumulates exNumDeriv ∧
      NoFault 0 exSupervision (none : Option (CuMatrix ℚ 2 1)) ∧
      IsFinite (exNumerator.Forward - exSupervision.weight * exDenominator.Forward) ∧
      exOptsNoL2.l2_regularize = 0) ∧
    ((∃ r, ComputeChainObjfAndDeriv 0 exNumerator exDenominator exOptsNoL2 exSupervision
        exNnetOutput none none (some exBuffer) = some r ∧
      r.warning = none ∧
      r.nnet_output_deriv = none ∧
      r.xent_output_deriv = some (exNumerator.Backward (CuMatrix.SetZero exBuffer)) ∧
      r.xent_output_deriv = some exNumDeriv) ∧
    (∀ B', ComputeChainObjfAndDeriv 0 exNumerator exDenominator exOptsNoL2 exSupervision
        exNnetOutput none none (some B') =
      ComputeChainObjfAndDeriv 0 exNumerator exDenominator exOptsNoL2 exSupervision
        exNnetOutput none none (some exBuffer)) ∧
    (∀ backward', ComputeChainObjfAndDeriv 0 exNumerator
        ⟨exDenominator.Forward, backward'⟩ exOptsNoL2 exSupervision exNnetOutput none none
        (some exBuffer) =
      ComputeChainObjfAndDeriv 0 exNumerator exDenominator exOptsNoL2 exSupervision
        exNnetOutput none none (some exBuffer))) :=
  ⟨⟨fun _ => rfl, Or.inl (by decide), trivial, rfl⟩,
    C6_xent_only_gradient 0 exNumerator exDenominator exOptsNoL2 exSupervision exNnetOutput none
      exBuffer exNumDeriv (fun _ => rfl) (Or.inl (by decide)) trivial rfl⟩

/-- C7: with verbose level 1 and no primary gradient buffer the verbose block dereferences the
null pointer `nnet_output_deriv` (line 91), so the call faults instead of completing. -/
theorem C7_verbose_null_dereference :
    ComputeChainObjfAndDeriv 1 exNumerator exDenominator exOptsNoL2 exSupervision exNnetOutput
      none none (some exBuffer) = none :=
  compute_fault 1 exNumerator exDenominator exOptsNoL2 exSupervision exNnetOutput none
    (some exBuffer) (by decide)

/-- C9: when `l2_regularize` is nonzero and `xent_output` is supplied, the returned L2 term is
`-0.5 * l2_regularize * supervision.weight * sum_ji residual_ji^2` with
`residual_ji = scale_i * xent_output_ji + offset_i - nnet_output_ji`, where `scale` and `offset`
are the vectors computed at lines 124-139. -/
theorem C9_l2_term_with_xent (verbose_level : Int)
    (numerator : NumeratorComputation α m n) (denominator : DenominatorComputation α m n)
    (opts : ChainTrainingOptions α) (supervision : Supervision α)
    (nnet_output xent : CuMatrix α m n) (d x : Option (CuMatrix α m n))
    (h : NoFault verbose_level supervision d) (hl2 : opts.l2_regularize ≠ 0) :
    ∃ r, ComputeChainObjfAndDeriv verbose_level numerator denominator opts supervision
        nnet_output (some xent) d x = some r ∧
      r.l2_term = finite (-(1 / 2)) * opts.l2_regularize * supervision.weight *
        sumFin m (fun j => sumFin n (fun i =>
          ((ComputeScaleAndOffset nnet_output xent).1 i * xent j i +
              (ComputeScaleAndOffset nnet_output xent).2 i - nnet_output j i) *
            ((ComputeScaleAndOffset nnet_output xent).1 i * xent j i +
              (ComputeScaleAndOffset nnet_output xent).2 i - nnet_output j i))) := by
  refine ⟨_, compute_of_noFault verbose_level numerator denominator opts supervision nnet_output
    (some xent) d x h, ?_⟩
  simp only [l2Regularize_xent _ _ _ _ _ _ hl2, TraceMatMat, outputDiff_apply]
  rw [fmul_comm supervision.weight, ← fmul_assoc (finite (-(1 / 2)))]

/-- C9 at a concrete input with `l2_regularize = 1`. -/
theorem C9_l2_term_with_xent_witness :
    (NoFault 0 exSupervision (some exBuffer) ∧ exOptsL2.l2_regularize ≠ 0) ∧
    ∃ r, ComputeChainObjfAndDeriv 0 exNumerator exDenominator exOptsL2 exSupervision
        exNnetOutput (some exXentOutput) (some exBuffer) (some exBuffer) = some r ∧
      r.l2_term = finite (-(1 / 2)) * exOptsL2.l2_regularize * exSupervision.weight *
        sumFin 2 (fun j => sumFin 1 (fun i =>
          ((ComputeScaleAndOffset exNnetOutput exXentOutput).1 i * exXentOutput j i +
              (ComputeScaleAndOffset exNnetOutput exXentOutput).2 i - exNnetOutput j i) *
            ((ComputeScaleAndOffset exNnetOutput exXentOutput).1 i * exXentOutput j i +
              (ComputeScaleAndOffset exNnetOutput exXentOutput).2 i - exNnetOutput j i))) :=
  ⟨⟨Or.inl (by decide), by decide⟩,
    C9_l2_term_with_xent 0 exNumerator exDenominator exOptsL2 exSupervision exNnetOutput
      exXentOutput (some exBuffer) (some exBuffer) (Or.inl (by decide)) (by decide)⟩

/-- C10: when `l2_regularize` is nonzero and `xent_output` is supplied, the regularization step
adds `l2_regularize * supervision.weight * residual_ji` to entry `(j,i)` of the primary gradient
buffer if it is present, adds `-l2_regularize * supervision.weight * residual_ji * scale_i` to
entry `(j,i)` of the auxiliary gradient buffer if it is present, and changes nothing else: an
absent buffer stays absent. -/
theorem C10_l2_gradient_with_xent (opts : ChainTrainingOptions α) (supervision : Supervision α)
    (nnet_output xent : CuMatrix α m n) (d x : Option (CuMatrix α m n))
    (hl2 : opts.l2_regularize ≠ 0) :
    (L2Regularize opts supervision nnet_output (some xent) d x).nnet_output_deriv =
        d.map (fun before => fun j i => before j i +
          opts.l2_regularize * supervision.weight *
            ((ComputeScaleAndOffset nnet_output xent).1 i * xent j i +
              (ComputeScaleAndOffset nnet_output xent).2 i - nnet_output j i)) ∧
      (L2Regularize opts supervision nnet_output (some xent) d x).xent_output_deriv =
        x.map (fun before => fun j i => before j i +
          -opts.l2_regularize * supervision.weight *
            ((ComputeScaleAndOffset nnet_output xent).1 i * xent j i +
              (ComputeScaleAndOffset nnet_output xent).2 i - nnet_output j i) *
            (ComputeScaleAndOffset nnet_output xent).1 i) := by
  rw [l2Regularize_xent _ _ _ _ _ _ hl2]
  constructor
  · cases d with
    | none => rfl
    | some before =>
        simp only [Option.map_some']
        congr 1
        funext j i
        simp only [CuMatrix.AddMat, outputDiff_apply]
        rw [fmul_comm supervision.weight]
  · cases x with
    | none => rfl
    | some before =>
        simp only [Option.map_some']
        congr 1
        funext j i
        simp only [CuMatrix.AddMatDiagVec, outputDiff_apply, fone_mul, fneg_one_mul]
        rw [fmul_comm supervision.weight, fneg_mul opts.l2_regularize,
          fmul_assoc (-(opts.l2_regularize * supervision.weight))]

/-- C10 at a concrete input with `l2_regularize = 1` and both buffers present. -/
theorem C10_l2_gradient_with_xent_witness :
    exOptsL2.l2_regularize ≠ 0 ∧
    ((L2Regularize exOptsL2 exSupervision exNnetOutput (some exXentOutput) (some exBuffer)
        (some exBuffer)).nnet_output_deriv =
        (some exBuffer).map (fun before => fun j i => before j i +
          exOptsL2.l2_regularize * exSupervision.weight *
            ((ComputeScaleAndOffset exNnetOutput exXentOutput).1 i * exXentOutput j i +
              (ComputeScaleAndOffset exNnetOutput exXentOutput).2 i - exNnetOutput j i)) ∧
      (L2Regularize exOptsL2 exSupervision exNnetOutput (some exXentOutput) (some exBuffer)
        (some exBuffer)).xent_output_deriv =
        (some exBuffer).map (fun before => fun j i => before j i +
          -exOptsL2.l2_regularize * exSupervision.weight *
            ((ComputeScaleAndOffset exNnetOutput exXentOutput).1 i * exXentOutput j i +
              (ComputeScaleAndOffset exNnetOutput exXentOutput).2 i - exNnetOutput j i) *
            (ComputeScaleAndOffset exNnetOutput exXentOutput).1 i)) :=
  ⟨by decide,
    C10_l2_gradient_with_xent exOptsL2 exSupervision exNnetOutput exXentOutput (some exBuffer)
      (some exBuffer) (by decide)⟩

end Claims

end kaldi

/-! ## The regularization step without a cross-entropy output, and its coefficient -/

namespace kaldi

section ClaimsL2

variable {α : Type} [LinearOrderedField α] {m n : Nat}

open BaseFloat

/-- The regularization step when `l2_regularize` is nonzero and `xent_output` is absent
(lines 107, 160-162). -/
theorem l2Regularize_no_xent (opts : ChainTrainingOptions α) (supervision : Supervision α)
    (nnet_output : CuMatrix α m n) (d x : Option (CuMatrix α m n))
    (hl2 : opts.l2_regularize ≠ 0) :
    L2Regularize opts supervision nnet_output none d x =
      ⟨finite (-(1 / 2)) * (supervision.weight * opts.l2_regularize) *
          TraceMatMat nnet_output nnet_output,
        d.map (CuMatrix.AddMat (finite (-1) * (supervision.weight * opts.l2_regularize))
          nnet_output),
        x⟩ := by
  simp only [L2Regularize, feq_zero_eq_false _ hl2]
  rfl

/-- C11: when `l2_regularize` is nonzero and no `xent_output` is supplied, the returned L2 term
is `-0.5 * l2_regularize * supervision.weight * sum_ji nnet_output_ji^2`, and the
regularization step adds `-l2_regularize * supervision.weight * nnet_output_ji` to entry
`(j,i)` of the primary gradient buffer if it is present and leaves the auxiliary gradient buffer
untouched. -/
theorem C11_l2_without_xent (verbose_level : Int)
    (numerator : NumeratorComputation α m n) (denominator : DenominatorComputation α m n)
    (opts : ChainTrainingOptions α) (supervision : Supervision α)
    (nnet_output : CuMatrix α m n) (d x : Option (CuMatrix α m n))
    (h : NoFault verbose_level supervision d) (hl2 : opts.l2_regularize ≠ 0) :
    (∃ r, ComputeChainObjfAndDeriv verbose_level numerator denominator opts supervision
        nnet_output none d x = some r ∧
      r.l2_term = finite (-(1 / 2)) * opts.l2_regularize * supervision.weight *
        sumFin m (fun j => sumFin n (fun i => nnet_output j i * nnet_output j i))) ∧
    ∀ before before_xent : Option (CuMatrix α m n),
      (L2Regularize opts supervision nnet_output none before before_xent).nnet_output_deriv =
          before.map (fun buf => fun j i => buf j i +
            -opts.l2_regularize * supervision.weight * nnet_output j i) ∧
        (L2Regularize opts supervision nnet_output none before before_xent).xent_output_deriv
          = before_xent := by
  refine ⟨⟨_, compute_of_noFault verbose_level numerator denominator opts supervision
    nnet_output none d x h, ?_⟩, fun before before_xent => ?_⟩
  · simp only [l2Regularize_no_xent _ _ _ _ _ hl2, TraceMatMat]
    rw [fmul_comm supervision.weight, ← fmul_assoc (finite (-(1 / 2)))]
  · rw [l2Regularize_no_xent _ _ _ _ _ hl2]
    refine ⟨?_, rfl⟩
    cases before with
    | none => rfl
    | some buf =>
        simp only [Option.map_some']
        congr 1
        funext j i
        simp only [CuMatrix.AddMat, fneg_one_mul]
        rw [fmul_comm supervision.weight, fneg_mul opts.l2_regularize]

/-- C11 at a concrete input with `l2_regularize = 1`. -/
theorem C11_l2_without_xent_witness :
    (NoFault 0 exSupervision (some exBuffer) ∧ exOptsL2.l2_regularize ≠ 0) ∧
    ((∃ r, ComputeChainObjfAndDeriv 0 exNumerator exDenominator exOptsL2 exSupervision
        exNnetOutput none (some exBuffer) (some exBuffer) = some r ∧
      r.l2_term = finite (-(1 / 2)) * exOptsL2.l2_regularize * exSupervision.weight *
        sumFin 2 (fun j => sumFin 1 (fun i => exNnetOutput j i * exNnetOutput j i))) ∧
    ∀ before before_xent : Option (CuMatrix ℚ 2 1),
      (L2Regularize exOptsL2 exSupervision exNnetOutput none before before_xent).nnet_output_deriv
          = before.map (fun buf => fun j i => buf j i +
            -exOptsL2.l2_regularize * exSupervision.weight * exNnetOutput j i) ∧
        (L2Regularize exOptsL2 exSupervision exNnetOutput none before
          before_xent).xent_output_deriv = before_xent) :=
  ⟨⟨Or.inl (by decide), by decide⟩,
    C11_l2_without_xent 0 exNumerator exDenominator exOptsL2 exSupervision exNnetOutput
      (some exBuffer) (some exBuffer) (Or.inl (by decide)) (by decide)⟩

/-- C12: with `l2_regularize = 0` the returned L2 term is exactly 0 and the regularization step
returns both gradient buffers exactly as the validity-guard step left them, whether or not a
cross-entropy output is supplied. -/
theorem C12_l2_disabled (verbose_level : Int)
    (numerator : NumeratorComputation α m n) (denominator : DenominatorComputation α m n)
    (opts : ChainTrainingOptions α) (supervision : Supervision α)
    (nnet_output : CuMatrix α m n) (xent_output : Option (CuMatrix α m n))
    (d x : Option (CuMatrix α m n))
    (h : NoFault verbose_level supervision d) (hl2 : opts.l2_regularize = 0) :
    (∃ r, ComputeChainObjfAndDeriv verbose_level numerator denominator opts supervision
        nnet_output xent_output d x = some r ∧
      r.l2_term = 0 ∧
      r.nnet_output_deriv = (ValidityGuard supervision
        (RunForwardBackward numerator denominator supervision d x)).nnet_output_deriv ∧
      r.xent_output_deriv = (ValidityGuard supervision
        (RunForwardBackward numerator denominator supervision d x)).xent_output_deriv) ∧
    ∀ before before_xent : Option (CuMatrix α m n),
      L2Regularize opts supervision nnet_output xent_output before before_xent
        = ⟨0, before, before_xent⟩ := by
  refine ⟨⟨_, compute_of_noFault verbose_level numerator denominator opts supervision
    nnet_output xent_output d x h, ?_⟩, fun before before_xent =>
      l2Regularize_zero opts supervision nnet_output xent_output before before_xent hl2⟩
  refine ⟨?_, ?_, ?_⟩ <;> rw [l2Regularize_zero _ _ _ _ _ _ hl2]

/-- C12 at a concrete input with a cross-entropy output and both buffers. -/
theorem C12_l2_disabled_witness :
    (NoFault 0 exSupervision (some exBuffer) ∧ exOptsNoL2.l2_regularize = 0) ∧
    ((∃ r, ComputeChainObjfAndDeriv 0 exNumerator exDenominator exOptsNoL2 exSupervision
        exNnetOutput (some exXentOutput) (some exBuffer) (some exBuffer) = some r ∧
      r.l2_term = 0 ∧
      r.nnet_output_deriv = (ValidityGuard exSupervision (RunForwardBackward exNumerator
        exDenominator exSupervision (some exBuffer) (some exBuffer))).nnet_output_deriv ∧
      r.xent_output_deriv = (ValidityGuard exSupervision (RunForwardBackward exNumerator
        exDenominator exSupervision (some exBuffer) (some exBuffer))).xent_output_deriv) ∧
    ∀ before before_xent : Option (CuMatrix ℚ 2 1),
      L2Regularize exOptsNoL2 exSupervision exNnetOutput (some exXentOutput) before before_xent
        = ⟨0, before, before_xent⟩) :=
  ⟨⟨Or.inl (by decide), rfl⟩,
    C12_l2_disabled 0 exNumerator exDenominator exOptsNoL2 exSupervision exNnetOutput
      (some exXentOutput) (some exBuffer) (some exBuffer) (Or.inl (by decide)) rfl⟩

/-- C13, counterexample: with `l2_regularize = -1` the call is not rejected: it returns the
objective `-1`, the L2 term `5` and a primary gradient whose entry `(0,0)` is `3/2`. -/
theorem C13_negative_l2_counterexample :
    exOptsNegL2.l2_regularize = finite (-1) ∧
    ∃ r, ComputeChainObjfAndDeriv 0 exNumerator exDenominator exOptsNegL2 exSupervision
        exNnetOutput none (some exBuffer) none = some r ∧
      r.objf = finite (-1) ∧ r.l2_term = finite 5 ∧
      ∃ deriv, r.nnet_output_deriv = some deriv ∧ deriv 0 0 = finite (3 / 2) := by
  have hl2 : exOptsNegL2.l2_regularize ≠ 0 := by decide
  have hp := forwardBackward_primary exNumerator exDenominator exSupervision exBuffer none
  have hw := validityGuard_silent exSupervision
    (RunForwardBackward exNumerator exDenominator exSupervision (some exBuffer) none)
    trivial hp.2.2
  have hb := validityGuard_buffers_of_no_warning exSupervision _ hw
  refine ⟨rfl, _, compute_of_noFault 0 exNumerator exDenominator exOptsNegL2 exSupervision
    exNnetOutput none (some exBuffer) none (Or.inl (by decide)), ?_, ?_, ?_⟩
  · simp only []
    rw [validityGuard_objf, hw]
    simp [RunForwardBackward, exNumerator, exDenominator, exSupervision]
    norm_num
  · simp only [l2Regularize_no_xent _ _ _ _ _ hl2]
    simp only [TraceMatMat, sumFin, exNnetOutput, exNnetColumn, exOptsNegL2, exSupervision,
      zero_def, finite_mul_finite, finite_add_finite]
    norm_num
  · simp only [l2Regularize_no_xent _ _ _ _ _ hl2, hb.1, hp.1, Option.map_some']
    refine ⟨_, rfl, ?_⟩
    simp [CuMatrix.AddMat, CuMatrix.Zero, exNumerator, exDenominator, exNumDeriv, exDenDeriv,
      exNnetOutput, exNnetColumn, exOptsNegL2, exSupervision, zero_def]
    norm_num

/-- C13 (amended): `ComputeChainObjfAndDeriv` does not check the sign of `l2_regularize`; for a
negative coefficient every call that does not fault returns an objective, the frame weight, the
L2 term `-0.5 * l2_regularize * supervision.weight * sum_ji e_ji^2` (with `e` the residual when
`xent_output` is supplied and `nnet_output` otherwise) and every gradient buffer that the
caller supplied. -/
theorem C13_negative_l2_is_computed (verbose_level : Int)
    (numerator : NumeratorComputation α m n) (denominator : DenominatorComputation α m n)
    (opts : ChainTrainingOptions α) (supervision : Supervision α)
    (nnet_output : CuMatrix α m n) (xent_output : Option (CuMatrix α m n))
    (d x : Option (CuMatrix α m n)) (c : α)
    (h : NoFault verbose_level supervision d) (hc : c < 0)
    (hl2 : opts.l2_regularize = finite c) :
    ∃ r, ComputeChainObjfAndDeriv verbose_level numerator denominator opts supervision
        nnet_output xent_output d x = some r ∧
      r.weight = supervision.weight * ofInt supervision.num_sequences *
        ofInt supervision.frames_per_sequence ∧
      r.l2_term = finite (-(1 / 2)) * finite c * supervision.weight *
        (match xent_output with
          | some xent => sumFin m (fun j => sumFin n (fun i =>
              ((ComputeScaleAndOffset nnet_output xent).1 i * xent j i +
                  (ComputeScaleAndOffset nnet_output xent).2 i - nnet_output j i) *
                ((ComputeScaleAndOffset nnet_output xent).1 i * xent j i +
                  (ComputeScaleAndOffset nnet_output xent).2 i - nnet_output j i)))
          | none => sumFin m (fun j => sumFin n (fun i => nnet_output j i * nnet_output j i))) ∧
      r.nnet_output_deriv.isSome = d.isSome ∧ r.xent_output_deriv.isSome = x.isSome := by
  have hne : opts.l2_regularize ≠ 0 := by
    rw [hl2, zero_def]
    intro he
    exact hc.ne (finite.inj he)
  have hxs : ∀ fb : ForwardBackward α m n,
      (ValidityGuard supervision fb).xent_output_deriv.isSome = fb.xent_output_deriv.isSome := by
    intro fb
    simp only [ValidityGuard]
    split <;> simp
  have hfx : (RunForwardBackward numerator denominator supervision d x).xent_output_deriv.isSome
      = x.isSome := by
    cases d <;> cases x <;> rfl
  refine ⟨_, compute_of_noFault verbose_level numerator denominator opts supervision
    nnet_output xent_output d x h, validityGuard_weight supervision _, ?_, ?_, ?_⟩
  · cases xent_output with
    | none =>
        simp only [l2Regularize_no_xent _ _ _ _ _ hne, TraceMatMat]
        rw [hl2, fmul_comm supervision.weight, ← fmul_assoc (finite (-(1 / 2)))]
    | some xent =>
        simp only [l2Regularize_xent _ _ _ _ _ _ hne, TraceMatMat, outputDiff_apply]
        rw [hl2, fmul_comm supervision.weight, ← fmul_assoc (finite (-(1 / 2)))]
  · cases xent_output with
    | none =>
        simp only [l2Regularize_no_xent _ _ _ _ _ hne, Option.isSome_map']
        rw [validityGuard_deriv_isSome, forwardBackward_deriv_isSome]
    | some xent =>
        simp only [l2Regularize_xent _ _ _ _ _ _ hne, Option.isSome_map']
        rw [validityGuard_deriv_isSome, forwardBackward_deriv_isSome]
  · cases xent_output with
    | none =>
        simp only [l2Regularize_no_xent _ _ _ _ _ hne]
        rw [hxs, hfx]
    | some xent =>
        simp only [l2Regularize_xent _ _ _ _ _ _ hne, Option.isSome_map']
        rw [hxs, hfx]

/-- C13 (amended) at a concrete input with `l2_regularize = -1`. -/
theorem C13_negative_l2_is_computed_witness :
    (NoFault 0 exSupervision (some exBuffer) ∧ (-1 : ℚ) < 0 ∧
      exOptsNegL2.l2_regularize = finite (-1)) ∧
    ∃ r, ComputeChainObjfAndDeriv 0 exNumerator exDenominator exOptsNegL2 exSupervision
        exNnetOutput (some exXentOutput) (some exBuffer) none = some r ∧
      r.weight = exSupervision.weight * ofInt exSupervision.num_sequences *
        ofInt exSupervision.frames_per_sequence ∧
      r.l2_term = finite (-(1 / 2)) * finite (-1) * exSupervision.weight *
        (match some exXentOutput with
          | some xent => sumFin 2 (fun j => sumFin 1 (fun i =>
              ((ComputeScaleAndOffset exNnetOutput xent).1 i * xent j i +
                  (ComputeScaleAndOffset exNnetOutput xent).2 i - exNnetOutput j i) *
                ((ComputeScaleAndOffset exNnetOutput xent).1 i * xent j i +
                  (ComputeScaleAndOffset exNnetOutput xent).2 i - exNnetOutput j i)))
          | none => sumFin 2 (fun j => sumFin 1 (fun i =>
              exNnetOutput j i * exNnetOutput j i))) ∧
      r.nnet_output_deriv.isSome = (some exBuffer).isSome ∧
      r.xent_output_deriv.isSome = (none : Option (CuMatrix ℚ 2 1)).isSome :=
  ⟨⟨Or.inl (by decide), by decide, rfl⟩,
    C13_negative_l2_is_computed 0 exNumerator exDenominator exOptsNegL2 exSupervision
      exNnetOutput (some exXentOutput) (some exBuffer) none (-1) (Or.inl (by decide))
      (by decide) rfl⟩

end ClaimsL2

end kaldi

/-! ## Splitting an utterance into ranges -/

namespace kaldi

namespace nnet3

theorem wrapInt32_of_fits (z : Int) (h0 : -2147483648 ≤ z) (h1 : z < 2147483648) :
    wrapInt32 z = z := by
  unfold wrapInt32
  omega

theorem wrapInt32_of_overflow (z : Int) (h0 : 2147483648 ≤ z) (h1 : z < 4294967296) :
    wrapInt32 z < 0 := by
  unfold wrapInt32
  omega

theorem sum_set_bump (l : List Int) (i : Nat) (h : i < l.length) :
    (l.set i (l.getD i 0 + 1)).sum = l.sum + 1 := by
  induction l generalizing i with
  | nil => simp at h
  | cons a l ih =>
      cases i with
      | zero => simp; ring
      | succ i =>
          have h' : i < l.length := by simpa using h
          simp only [List.set_cons_succ, List.sum_cons, List.getD_cons_succ, ih i h']
          ring

theorem getD_le_sum (l : List Int) (hpos : ∀ x ∈ l, 0 ≤ x) (i : Nat) :
    0 ≤ l.getD i 0 ∧ l.getD i 0 ≤ l.sum := by
  induction l generalizing i with
  | nil => simp
  | cons a l ih =>
      have ha : 0 ≤ a := hpos a (List.mem_cons_self _ _)
      have hl : ∀ x ∈ l, 0 ≤ x := fun x hx => hpos x (List.mem_cons_of_mem _ hx)
      have hs : 0 ≤ l.sum := List.sum_nonneg hl
      cases i with
      | zero =>
          simp only [List.getD_cons_zero, List.sum_cons]
          omega
      | succ i =>
          obtain ⟨h1, h2⟩ := ih hl i
          simp only [List.getD_cons_succ, List.sum_cons]
          omega

theorem mem_set_bump (l : List Int) (i : Nat) (v : Int) (hpos : ∀ x ∈ l, 0 ≤ x)
    (hv : 0 ≤ v) : ∀ x ∈ l.set i v, 0 ≤ x := by
  intro x hx
  rcases List.mem_or_eq_of_mem_set hx with h | h
  · exact hpos x h
  · rw [h]
    exact hv

/-- An increment of a counter that stays below `2^31`. -/
theorem bumpCount_some (counts : List Int) (idx : Int) (h0 : 0 ≤ idx)
    (h1 : idx < counts.length) (hpos : ∀ x ∈ counts, 0 ≤ x)
    (hsum : counts.sum + 1 < 2147483648) :
    ∃ c, bumpCount counts idx = some c ∧ c.length = counts.length ∧
      c.sum = counts.sum + 1 ∧ (∀ x ∈ c, 0 ≤ x) ∧
      ∀ j : Nat, idx.toNat ≠ j → c.getD j 0 = counts.getD j 0 := by
  obtain ⟨hg0, hg1⟩ := getD_le_sum counts hpos idx.toNat
  have hw : wrapInt32 (counts.getD idx.toNat 0 + 1) = counts.getD idx.toNat 0 + 1 :=
    wrapInt32_of_fits _ (by omega) (by omega)
  refine ⟨counts.set idx.toNat (counts.getD idx.toNat 0 + 1), ?_, by simp, ?_, ?_, ?_⟩
  · rw [bumpCount, if_pos ⟨h0, h1⟩, hw]
  · apply sum_set_bump
    omega
  · exact mem_set_bump counts _ _ hpos (by omega)
  · intro j hj
    simp [List.getD_eq_getElem?_getD, List.getElem?_set, hj]

/-- The counting loops return, keep the counters non-negative, add one per call and leave the
counters beyond `hi` as they were. -/
theorem drawCounts_some (RandInt : Nat → Int → Int → Int)
    (hrand : ∀ k lo hi, lo ≤ hi → lo ≤ RandInt k lo hi ∧ RandInt k lo hi ≤ hi)
    (hi : Int) (h0 : 0 ≤ hi) (counts : List Int) (hlen : hi < counts.length)
    (hpos : ∀ x ∈ counts, 0 ≤ x) (k : Nat) (hsum : counts.sum + k < 2147483648) :
    ∃ c, drawCounts RandInt hi k counts = some c ∧ c.length = counts.length ∧
      c.sum = counts.sum + k ∧ (∀ x ∈ c, 0 ≤ x) ∧
      ∀ j : Nat, hi.toNat < j → c.getD j 0 = counts.getD j 0 := by
  induction k with
  | zero => exact ⟨counts, rfl, rfl, by simp, hpos, fun _ _ => rfl⟩
  | succ k ih =>
      obtain ⟨c, hc, hl, hs, hp, hu⟩ := ih (by push_cast at hsum ⊢; omega)
      obtain ⟨hr0, hr1⟩ := hrand k 0 hi h0
      obtain ⟨c', hc', hl', hs', hp', hu'⟩ := bumpCount_some c (RandInt k 0 hi) hr0
        (by rw [hl]; omega) hp (by rw [hs]; push_cast at hsum ⊢; omega)
      refine ⟨c', ?_, hl'.trans hl, ?_, hp', ?_⟩
      · simp only [drawCounts, hc, Option.some_bind, hc']
      · rw [hs', hs]
        push_cast
        ring
      · intro j hj
        rw [hu' j (by omega), hu j hj]

theorem drawCounts_zero (RandInt : Nat → Int → Int → Int) (hi : Int) (counts : List Int) :
    drawCounts RandInt hi 0 counts = some counts := rfl

/-- The starts laid out with skips, when the last start plus one range fits `int32`. -/
theorem layoutSkips_spec (frames_per_range : Int) (hfpr : 0 ≤ frames_per_range)
    (skips : List Int) (cur_start : Int) (hcur : 0 ≤ cur_start)
    (hpos : ∀ s ∈ skips, 0 ≤ s)
    (hfit : cur_start + skips.length * frames_per_range + skips.sum < 2147483648) :
    (layoutSkips frames_per_range cur_start skips).1.length = skips.length ∧
      (layoutSkips frames_per_range cur_start skips).2
        = cur_start + skips.length * frames_per_range + skips.sum := by
  induction skips generalizing cur_start with
  | nil => simp [layoutSkips]
  | cons s skips ih =>
      have hs : 0 ≤ s := hpos s (List.mem_cons_self _ _)
      have hrest : ∀ x ∈ skips, 0 ≤ x := fun x hx => hpos x (List.mem_cons_of_mem _ hx)
      have hsum : 0 ≤ skips.sum := List.sum_nonneg hrest
      have hmul : 0 ≤ (skips.length : Int) * frames_per_range :=
        mul_nonneg (Int.natCast_nonneg _) hfpr
      simp only [List.length_cons, List.sum_cons, Nat.cast_add, Nat.cast_one] at hfit
      have hexp : ((skips.length : Int) + 1) * frames_per_range =
          (skips.length : Int) * frames_per_range + frames_per_range := by ring
      rw [hexp] at hfit
      have hw1 : wrapInt32 (cur_start + frames_per_range) = cur_start + frames_per_range :=
        wrapInt32_of_fits _ (by omega) (by omega)
      have hw2 : wrapInt32 (cur_start + frames_per_range + s) =
          cur_start + frames_per_range + s := wrapInt32_of_fits _ (by omega) (by omega)
      obtain ⟨h1, h2⟩ := ih (cur_start + frames_per_range + s) (by omega) hrest (by omega)
      simp only [layoutSkips, hw1, hw2, List.length_cons, h1, h2, List.sum_cons]
      refine ⟨trivial, ?_⟩
      push_cast
      ring

theorem layoutSkips_replicate_zero (frames_per_range : Int) (hfpr : 0 ≤ frames_per_range)
    (k : Nat) (cur_start : Int) (hcur : 0 ≤ cur_start)
    (hfit : cur_start + k * frames_per_range < 2147483648) :
    (layoutSkips frames_per_range cur_start (List.replicate k 0)).1
      = (List.range k).map (fun (i : Nat) => cur_start + (i : Int) * frames_per_range) := by
  induction k generalizing cur_start with
  | zero => simp [layoutSkips]
  | succ k ih =>
      have hmul : 0 ≤ (k : Int) * frames_per_range := mul_nonneg (Int.natCast_nonneg _) hfpr
      have hexp : ((k + 1 : Nat) : Int) * frames_per_range =
          (k : Int) * frames_per_range + frames_per_range := by push_cast; ring
      rw [hexp] at hfit
      have hw1 : wrapInt32 (cur_start + frames_per_range) = cur_start + frames_per_range :=
        wrapInt32_of_fits _ (by omega) (by omega)
      have hw2 : wrapInt32 (cur_start + frames_per_range + 0) =
          cur_start + frames_per_range := by
        rw [add_zero]
        exact hw1
      simp only [List.replicate_succ, layoutSkips, hw1, hw2,
        ih (cur_start + frames_per_range) (by omega) (by omega),
        List.range_succ_eq_map, List.map_cons, List.map_map]
      congr 1
      · simp
      · apply List.map_congr_left
        intro i _
        simp only [Function.comp]
        push_cast
        ring

/-- The starts laid out with backtracks, when no backtrack exceeds the range length and every
intermediate value of `cur_start` fits `int32`. -/
theorem layoutBacktracks_spec (frames_per_range : Int) (backtracks : List Int)
    (cur_start : Int) (hcur : 0 ≤ cur_start)
    (hb : ∀ b ∈ backtracks, 0 ≤ b ∧ b ≤ frames_per_range)
    (hfit : ∀ i < backtracks.length,
      cur_start + ((i : Int) + 1) * frames_per_range - (backtracks.take i).sum < 2147483648) :
    (layoutBacktracks frames_per_range cur_start backtracks).1.length = backtracks.length ∧
      (layoutBacktracks frames_per_range cur_start backtracks).2
        = cur_start + backtracks.length * frames_per_range - backtracks.sum := by
  induction backtracks generalizing cur_start with
  | nil => simp [layoutBacktracks]
  | cons b backtracks ih =>
      obtain ⟨hb0, hb1⟩ := hb b (List.mem_cons_self _ _)
      have h0 := hfit 0 (by simp)
      simp only [List.take_zero, List.sum_nil, Nat.cast_zero, zero_add, one_mul,
        sub_zero] at h0
      have hw1 : wrapInt32 (cur_start + frames_per_range) = cur_start + frames_per_range :=
        wrapInt32_of_fits _ (by omega) (by omega)
      have hw2 : wrapInt32 (cur_start + frames_per_range - b) =
          cur_start + frames_per_range - b := wrapInt32_of_fits _ (by omega) (by omega)
      obtain ⟨h1, h2⟩ := ih (cur_start + frames_per_range - b) (by omega)
        (fun x hx => hb x (List.mem_cons_of_mem _ hx))
        (by
          intro i hi
          have := hfit (i + 1) (by simpa using hi)
          simp only [List.take_succ_cons, List.sum_cons, Nat.cast_add, Nat.cast_one] at this
          have hexp : ((i : Int) + 1 + 1) * frames_per_range =
              ((i : Int) + 1) * frames_per_range + frames_per_range := by ring
          rw [hexp] at this
          omega)
      simp only [layoutBacktracks, hw1, hw2, List.length_cons, h1, h2, List.sum_cons]
      refine ⟨trivial, ?_⟩
      push_cast
      ring

theorem mem_le_sum (l : List Int) (hpos : ∀ x ∈ l, 0 ≤ x) : ∀ x ∈ l, x ≤ l.sum := by
  induction l with
  | nil => simp
  | cons a l ih =>
      have ha : 0 ≤ a := hpos a (List.mem_cons_self _ _)
      have hl : ∀ x ∈ l, 0 ≤ x := fun x hx => hpos x (List.mem_cons_of_mem _ hx)
      have hs : 0 ≤ l.sum := List.sum_nonneg hl
      intro x hx
      rw [List.sum_cons]
      rcases List.mem_cons.mp hx with h | h
      · omega
      · have := ih hl x h
        omega

theorem sum_take_succ (l : List Int) (i : Nat) (h : i < l.length) :
    (l.take (i + 1)).sum = (l.take i).sum + l.getD i 0 := by
  induction l generalizing i with
  | nil => simp at h
  | cons a l ih =>
      cases i with
      | zero => simp
      | succ i =>
          have h' : i < l.length := by simpa using h
          simp only [List.take_succ_cons, List.sum_cons, List.getD_cons_succ, ih i h']
          ring

theorem sum_take_nonneg (l : List Int) (hpos : ∀ x ∈ l, 0 ≤ x) (i : Nat) :
    0 ≤ (l.take i).sum :=
  List.sum_nonneg (fun x hx => hpos x (List.mem_of_mem_take hx))

/-- C19 (amended): for `int32` arguments with `frames_per_range > 0`, other than
`num_frames = 2147483647` with `frames_per_range = 1`, and a `RandInt` that returns values
within its bounds, `SplitIntoRanges` returns no ranges when `frames_per_range > num_frames`;
otherwise it returns exactly `num_frames / frames_per_range` ranges when
`num_frames % frames_per_range <= frames_per_range / 4` and one more otherwise; when
`num_frames` is an exact multiple of `frames_per_range` the starts are
`0, frames_per_range, 2 * frames_per_range, ...`. -/
theorem C19_split_into_ranges (RandInt : Nat → Int → Int → Int)
    (hrand : ∀ k lo hi, lo ≤ hi → lo ≤ RandInt k lo hi ∧ RandInt k lo hi ≤ hi)
    (num_frames frames_per_range : Int) (hfpr : 0 < frames_per_range)
    (hmax : num_frames < 2147483648)
    (hne : ¬ (num_frames = 2147483647 ∧ frames_per_range = 1)) :
    (frames_per_range > num_frames →
      SplitIntoRanges RandInt num_frames frames_per_range = some []) ∧
    (frames_per_range ≤ num_frames →
      ∃ range_starts, SplitIntoRanges RandInt num_frames frames_per_range = some range_starts ∧
        (range_starts.length : Int) =
          (if num_frames % frames_per_range ≤ frames_per_range / 4
            then num_frames / frames_per_range else num_frames / frames_per_range + 1) ∧
        (num_frames % frames_per_range = 0 →
          range_starts = (List.range (num_frames / frames_per_range).toNat).map
            (fun (i : Nat) => (i : Int) * frames_per_range))) := by
  refine ⟨fun h => if_pos h, fun hle => ?_⟩
  have hnf : 0 ≤ num_frames := by omega
  have hdiv : Int.tdiv num_frames frames_per_range = num_frames / frames_per_range :=
    Int.tdiv_eq_ediv hnf hfpr.le
  have hmod : Int.tmod num_frames frames_per_range = num_frames % frames_per_range :=
    Int.tmod_eq_emod hnf hfpr.le
  have hq : Int.tdiv frames_per_range 4 = frames_per_range / 4 :=
    Int.tdiv_eq_ediv hfpr.le (by decide)
  have hnr : 0 ≤ num_frames / frames_per_range := Int.ediv_nonneg hnf hfpr.le
  have hex : 0 ≤ num_frames % frames_per_range := Int.emod_nonneg _ hfpr.ne'
  have hexlt : num_frames % frames_per_range < frames_per_range := Int.emod_lt_of_pos _ hfpr
  have hsplit : frames_per_range * (num_frames / frames_per_range)
      + num_frames % frames_per_range = num_frames := Int.ediv_add_emod _ _
  have hqmul : num_frames / frames_per_range ≤
      frames_per_range * (num_frames / frames_per_range) := by
    have := Int.mul_le_mul_of_nonneg_right (show (1 : Int) ≤ frames_per_range by omega) hnr
    omega
  have hqfit : num_frames / frames_per_range + 1 < 2147483648 := by
    by_contra hcon
    have h1 : frames_per_range = 1 := by
      by_contra hf
      have h2 := Int.mul_le_mul_of_nonneg_right (show (2 : Int) ≤ frames_per_range by omega)
        hnr
      omega
    subst h1
    simp only [Int.ediv_one] at hcon
    exact hne ⟨by omega, rfl⟩
  have hw : wrapInt32 (num_frames / frames_per_range + 1) = num_frames / frames_per_range + 1 :=
    wrapInt32_of_fits _ (by omega) hqfit
  unfold SplitIntoRanges
  rw [if_neg (by omega), if_neg hfpr.ne']
  simp only [hdiv, hmod, hq, hw]
  by_cases hskip : num_frames % frames_per_range ≤ frames_per_range / 4
  · rw [if_pos hskip, if_pos hskip, if_neg (by omega)]
    obtain ⟨c, hc, hl, hs, hp, -⟩ := drawCounts_some RandInt hrand
      (num_frames / frames_per_range) hnr
      (List.replicate (num_frames / frames_per_range + 1).toNat 0)
      (by simp only [List.length_replicate]; omega)
      (fun x hx => by rw [(List.mem_replicate.mp hx).2])
      (num_frames % frames_per_range).toNat
      (by simp only [List.sum_replicate, smul_zero]; omega)
    simp only [hc, if_neg (not_lt.mpr hnr)]
    have hclen : c.length = (num_frames / frames_per_range).toNat + 1 := by
      rw [hl, List.length_replicate]
      omega
    obtain ⟨a, t, rfl⟩ : ∃ a t, c = a :: t := by
      cases c with
      | nil => simp at hclen
      | cons a t => exact ⟨a, t, rfl⟩
    have htlen : t.length = (num_frames / frames_per_range).toNat := by simpa using hclen
    have htake : t.take (num_frames / frames_per_range).toNat = t := by
      rw [← htlen]
      exact List.take_length t
    simp only [List.headD_cons, List.tail_cons, htake]
    have hsum : a + t.sum = num_frames % frames_per_range := by
      have := hs
      simp only [List.sum_cons, List.sum_replicate, smul_zero, zero_add] at this
      rw [this]
      omega
    have hmulcomm : (t.length : Int) * frames_per_range =
        frames_per_range * (num_frames / frames_per_range) := by
      rw [htlen, Int.toNat_of_nonneg hnr, mul_comm]
    obtain ⟨hL1, hL2⟩ := layoutSkips_spec frames_per_range hfpr.le t a
      (hp a (List.mem_cons_self _ _)) (fun x hx => hp x (List.mem_cons_of_mem _ hx))
      (by rw [hmulcomm]; omega)
    have hfinal : (layoutSkips frames_per_range a t).2 = num_frames := by
      rw [hL2, hmulcomm]
      omega
    rw [if_pos hfinal]
    refine ⟨_, rfl, ?_, fun h0 => ?_⟩
    · rw [hL1, htlen, Int.toNat_of_nonneg hnr]
    · have hk : (num_frames % frames_per_range).toNat = 0 := by rw [h0]; rfl
      rw [hk, drawCounts_zero] at hc
      have hceq := Option.some.inj hc
      have hrep : a :: t = List.replicate ((num_frames / frames_per_range).toNat + 1) 0 := by
        rw [← hceq]
        congr 1
        omega
      rw [List.replicate_succ] at hrep
      obtain ⟨ha, ht⟩ := List.cons.inj hrep
      rw [ha, ht, layoutSkips_replicate_zero frames_per_range hfpr.le _ 0 (le_refl _)
        (by
          rw [Int.toNat_of_nonneg hnr, mul_comm]
          omega)]
      apply List.map_congr_left
      intro i _
      ring
  · rw [if_neg hskip, if_neg hskip]
    have hq1 : 1 ≤ num_frames / frames_per_range := by
      by_contra hcon
      have h0 : num_frames / frames_per_range = 0 := by omega
      rw [h0] at hsplit
      omega
    have hwd : wrapInt32 (frames_per_range - num_frames % frames_per_range) =
        frames_per_range - num_frames % frames_per_range :=
      wrapInt32_of_fits _ (by omega) (by omega)
    have hw2 : wrapInt32 (num_frames / frames_per_range + 1 - 2) =
        num_frames / frames_per_range + 1 - 2 := wrapInt32_of_fits _ (by omega) (by omega)
    rw [if_neg (by omega), hwd, hw2]
    obtain ⟨c, hc, hl, hs, hp, hu⟩ := drawCounts_some RandInt hrand
      (num_frames / frames_per_range + 1 - 2) (by omega)
      (List.replicate (num_frames / frames_per_range + 1).toNat 0)
      (by simp only [List.length_replicate]; omega)
      (fun x hx => by rw [(List.mem_replicate.mp hx).2])
      (frames_per_range - num_frames % frames_per_range).toNat
      (by simp only [List.sum_replicate, smul_zero]; omega)
    simp only [hc]
    have hclen : (c.length : Int) = num_frames / frames_per_range + 1 := by
      rw [hl, List.length_replicate]
      omega
    have hsum : c.sum = frames_per_range - num_frames % frames_per_range := by
      rw [hs]
      simp only [List.sum_replicate, smul_zero, zero_add]
      omega
    have hlast : c.getD (num_frames / frames_per_range).toNat 0 = 0 := by
      rw [hu _ (by omega), List.getD_eq_getElem?_getD, List.getElem?_replicate]
      split <;> rfl
    have htakeq : (c.take (num_frames / frames_per_range).toNat).sum = c.sum := by
      have h1 := sum_take_succ c (num_frames / frames_per_range).toNat (by omega)
      have h2 : c.take ((num_frames / frames_per_range).toNat + 1) = c :=
        List.take_of_length_le (by omega)
      rw [h2, hlast] at h1
      omega
    obtain ⟨hL1, hL2⟩ := layoutBacktracks_spec frames_per_range c 0 (le_refl _)
      (fun b hb => ⟨hp b hb, by have := mem_le_sum c hp b hb; omega⟩)
      (by
        intro i hi
        have hnn := sum_take_nonneg c hp i
        by_cases hiq : (i : Int) + 1 ≤ num_frames / frames_per_range
        · have := Int.mul_le_mul_of_nonneg_right hiq hfpr.le
          rw [mul_comm (num_frames / frames_per_range)] at this
          omega
        · have hi2 : i = (num_frames / frames_per_range).toNat := by omega
          rw [hi2, htakeq, hsum, Int.toNat_of_nonneg hnr]
          have hexp : (num_frames / frames_per_range + 1) * frames_per_range =
              frames_per_range * (num_frames / frames_per_range) + frames_per_range := by ring
          rw [hexp]
          omega)
    have hfinal : (layoutBacktracks frames_per_range 0 c).2 = num_frames := by
      rw [hL2, hclen, hsum]
      linarith [mul_comm frames_per_range (num_frames / frames_per_range)]
    rw [if_pos hfinal]
    refine ⟨_, rfl, ?_, fun h0 => ?_⟩
    · rw [hL1, hclen]
    · exfalso
      apply hskip
      rw [h0]
      exact Int.ediv_nonneg hfpr.le (by decide)

/-- C19 (counterexample): with `num_frames = 2147483647` and `frames_per_range = 1` the
arguments satisfy `0 < frames_per_range <= num_frames` and the remainder is 0, so 2147483647
ranges are due, but `num_ranges + 1` at line 305 overflows `int32`: the vector `num_skips` has a
negative size and nothing is returned. -/
theorem C19_int32_overflow_counterexample :
    (0 : Int) < 1 ∧ (1 : Int) ≤ 2147483647 ∧ (2147483647 : Int) % 1 ≤ 1 / 4 ∧
      SplitIntoRanges exRandInt 2147483647 1 = none := by
  refine ⟨by decide, by decide, by decide, ?_⟩
  have h1 : Int.tdiv 2147483647 1 = 2147483647 := rfl
  have h2 : Int.tmod 2147483647 1 = 0 := rfl
  have h3 : Int.tdiv 1 4 = 0 := rfl
  have h4 : wrapInt32 (2147483647 + 1) = -2147483648 := by
    unfold wrapInt32
    norm_num
  unfold SplitIntoRanges
  rw [if_neg (by decide), if_neg (by decide)]
  simp only [h1, h2, h3, h4]
  rfl

/-- C19 (amended) at a concrete input: 11 frames in ranges of 3 give one range more than
`11 / 3`. -/
theorem C19_split_into_ranges_witness :
    ((∀ k lo hi, lo ≤ hi → lo ≤ exRandInt k lo hi ∧ exRandInt k lo hi ≤ hi) ∧ (0 : Int) < 3 ∧
      (11 : Int) < 2147483648 ∧ ¬ ((11 : Int) = 2147483647 ∧ (3 : Int) = 1)) ∧
    ((3 > (11 : Int) → SplitIntoRanges exRandInt 11 3 = some []) ∧
    ((3 : Int) ≤ 11 →
      ∃ range_starts, SplitIntoRanges exRandInt 11 3 = some range_starts ∧
        (range_starts.length : Int) =
          (if (11 : Int) % 3 ≤ 3 / 4 then (11 : Int) / 3 else (11 : Int) / 3 + 1) ∧
        ((11 : Int) % 3 = 0 →
          range_starts = (List.range ((11 : Int) / 3).toNat).map
            (fun (i : Nat) => (i : Int) * 3)))) :=
  ⟨⟨fun _ _ _ h => ⟨le_refl _, h⟩, by decide, by decide, by decide⟩,
    C19_split_into_ranges exRandInt (fun _ _ _ h => ⟨le_refl _, h⟩) 11 3 (by decide)
      (by decide) (by decide)⟩

end nnet3

end kaldi

/-! ## Weights of overlapping ranges -/

namespace kaldi

namespace nnet3

open BaseFloat

/-- C20: for `range_length = 9` and `range_starts = 0, 1, 2` the middle range overlaps both
neighbours.  After the pair `(0, 1)` its weights at positions 3 and 4 are `1/2` and `5/6`; the
pair `(1, 2)` then stores its interpolated weights `5/6` and `1/2` there by assignment, so the
result holds `5/6` and `1/2` and not the products `5/12`. -/
theorem C20_middle_weight_is_overwritten :
    GetWeightsForRangesStep 9 [0, 1, 2]
        (List.replicate 3 (List.replicate 9 (1 : BaseFloat ℚ))) 0 =
      some [[1, 1, 1, finite (5 / 6), finite (1 / 2), finite (1 / 6), 0, 0, 0],
        [0, 0, finite (1 / 6), finite (1 / 2), finite (5 / 6), 1, 1, 1, 1],
        [1, 1, 1, 1, 1, 1, 1, 1, 1]] ∧
    GetWeightsForRangesStep 9 [0, 1, 2]
        [[1, 1, 1, finite (5 / 6), finite (1 / 2), finite (1 / 6), 0, 0, 0],
          [0, 0, finite (1 / 6), finite (1 / 2), finite (5 / 6), 1, 1, 1, 1],
          [1, 1, 1, 1, 1, 1, 1, 1, (1 : BaseFloat ℚ)]] 1 =
      some [[1, 1, 1, finite (5 / 6), finite (1 / 2), finite (1 / 6), 0, 0, 0],
        [0, 0, finite (1 / 6), finite (5 / 6), finite (1 / 2), finite (1 / 6), 0, 0, 0],
        [0, 0, finite (1 / 6), finite (1 / 2), finite (5 / 6), 1, 1, 1, 1]] ∧
    (GetWeightsForRanges 9 [0, 1, 2] : Option (List (List (BaseFloat ℚ)))) =
      some [[1, 1, 1, finite (5 / 6), finite (1 / 2), finite (1 / 6), 0, 0, 0],
        [0, 0, finite (1 / 6), finite (5 / 6), finite (1 / 2), finite (1 / 6), 0, 0, 0],
        [0, 0, finite (1 / 6), finite (1 / 2), finite (5 / 6), 1, 1, 1, 1]] := by
  have h1 : Int.tdiv 8 3 = 2 := rfl
  have h2 : Int.tdiv 6 2 = 3 := rfl
  refine ⟨?_, ?_, ?_⟩
  · simp [GetWeightsForRangesStep, setWeight, List.range, List.range.loop, List.replicate,
      h1, h2]
    norm_num
  · simp [GetWeightsForRangesStep, setWeight, List.range, List.range.loop, h1, h2]
    norm_num
  · simp [GetWeightsForRanges, GetWeightsForRangesStep, setWeight, List.range, List.range.loop,
      List.replicate, h1, h2]
    norm_num

end nnet3

end kaldi

/-! ## Merging examples -/

namespace kaldi

namespace nnet3

section MergeLemmas

variable {β : Type}

/-- One step of `GetIoSizes` records the feature dimension of its `NnetIo` and keeps every
dimension recorded before. -/
theorem getIoSizesStep_dims (names : List String) (st st1 : List Int × List Int)
    (io : NnetIo β) (h : GetIoSizesStep names st io = some st1) :
    st1.1.getD (lowerBound io.name names) 0 = (io.features.NumCols : Int) ∧
      ∀ k, st.1.getD k 0 ≠ -1 → st1.1.getD k 0 = st.1.getD k 0 := by
  unfold GetIoSizesStep at h
  simp only [] at h
  split at h
  · exact absurd h (by simp)
  · by_cases hneg : st.1.getD (lowerBound io.name names) 0 = -1
    · rw [if_pos hneg] at h
      simp only [] at h
      split at h
      · exact absurd h (by simp)
      · have hst := Option.some.inj h
        rw [← hst]
        have hlt : lowerBound io.name names < st.1.length := by
          by_contra hge
          rw [List.getD_eq_default _ _ (not_lt.mp hge)] at hneg
          exact absurd hneg (by decide)
        constructor
        · simp only [List.getD_eq_getElem?_getD, List.getElem?_set, hlt, if_true]
          rfl
        · intro k hk
          have hne : lowerBound io.name names ≠ k := by
            rintro rfl
            exact hk hneg
          simp only [List.getD_eq_getElem?_getD, List.getElem?_set, hne, if_false]
    · rw [if_neg hneg] at h
      by_cases hdim : st.1.getD (lowerBound io.name names) 0 ≠ (io.features.NumCols : Int)
      · rw [if_pos hdim] at h
        exact absurd h (by simp)
      · rw [if_neg hdim] at h
        simp only [] at h
        split at h
        · exact absurd h (by simp)
        · have hst := Option.some.inj h
          rw [← hst]
          exact ⟨not_not.mp hdim, fun k _ => rfl⟩

/-- When the loop of `GetIoSizes` completes, every `NnetIo` it visited has the feature
dimension recorded for its name. -/
theorem getIoSizes_fold_dims (names : List String) (ios : List (NnetIo β))
    (st st1 : List Int × List Int) (h : ios.foldlM (GetIoSizesStep names) st = some st1) :
    (∀ io ∈ ios, st1.1.getD (lowerBound io.name names) 0 = (io.features.NumCols : Int)) ∧
      ∀ k, st.1.getD k 0 ≠ -1 → st1.1.getD k 0 = st.1.getD k 0 := by
  induction ios generalizing st with
  | nil =>
      simp only [List.foldlM_nil] at h
      have := Option.some.inj h
      subst this
      exact ⟨fun io hio => absurd hio (List.not_mem_nil io), fun k _ => rfl⟩
  | cons io ios ih =>
      rw [List.foldlM_cons] at h
      cases hstep : GetIoSizesStep names st io with
      | none => rw [hstep] at h; exact absurd h (by simp)
      | some st2 =>
          rw [hstep] at h
          simp only [Option.some_bind, Option.bind_eq_bind] at h
          obtain ⟨h1, h2⟩ := getIoSizesStep_dims names st st2 io hstep
          obtain ⟨h3, h4⟩ := ih st2 h
          constructor
          · intro io' hio'
            rcases List.mem_cons.mp hio' with rfl | hmem
            · rw [h4 _ (by rw [h1]; omega), h1]
            · exact h3 io' hmem
          · intro k hk
            rw [h4 k (by rw [h2 k hk]; exact hk), h2 k hk]

theorem getIoSizes_none_of_dims_differ (src : List (NnetExample β)) (names : List String)
    (eg1 eg2 : NnetExample β) (io1 io2 : NnetIo β) (he1 : eg1 ∈ src) (he2 : eg2 ∈ src)
    (hi1 : io1 ∈ eg1.io) (hi2 : io2 ∈ eg2.io) (hname : io1.name = io2.name)
    (hdim : io1.features.NumCols ≠ io2.features.NumCols) :
    GetIoSizes src names = none := by
  unfold GetIoSizes
  cases hfold : (src.flatMap (fun eg => eg.io)).foldlM (GetIoSizesStep names)
      (List.replicate names.length (-1), List.replicate names.length 0) with
  | none => rfl
  | some st1 =>
      exfalso
      obtain ⟨hall, -⟩ := getIoSizes_fold_dims names _ _ st1 hfold
      have m1 : io1 ∈ src.flatMap (fun eg => eg.io) := List.mem_flatMap.mpr ⟨eg1, he1, hi1⟩
      have m2 : io2 ∈ src.flatMap (fun eg => eg.io) := List.mem_flatMap.mpr ⟨eg2, he2, hi2⟩
      have e1 := hall io1 m1
      have e2 := hall io2 m2
      rw [hname] at e1
      rw [e1] at e2
      exact hdim (by exact_mod_cast e2)

/-- C16: `MergeExamples` fails (it returns no merged example) when the list of source examples
is empty, and it fails when two `NnetIo` with the same name have feature matrices with
different numbers of columns. -/
theorem C16_merge_examples_fails (Compress : GeneralMatrix β → GeneralMatrix β)
    (compress : Bool) (src : List (NnetExample β)) (eg1 eg2 : NnetExample β)
    (io1 io2 : NnetIo β) (he1 : eg1 ∈ src) (he2 : eg2 ∈ src) (hi1 : io1 ∈ eg1.io)
    (hi2 : io2 ∈ eg2.io) (hname : io1.name = io2.name)
    (hdim : io1.features.NumCols ≠ io2.features.NumCols) :
    MergeExamples Compress ([] : List (NnetExample β)) compress = none ∧
      MergeExamples Compress src compress = none := by
  refine ⟨rfl, ?_⟩
  unfold MergeExamples
  split
  · rfl
  · simp only [getIoSizes_none_of_dims_differ src (GetIoNames src) eg1 eg2 io1 io2 he1 he2 hi1
      hi2 hname hdim]

end MergeLemmas

/-- C16 at a concrete input: two examples whose "input" has 2 and 3 feature columns. -/
theorem C16_merge_examples_fails_witness :
    ((⟨[exIoTwoCols]⟩ : NnetExample ℚ) ∈ [(⟨[exIoTwoCols]⟩ : NnetExample ℚ), ⟨[exIoThreeCols]⟩] ∧
      (⟨[exIoThreeCols]⟩ : NnetExample ℚ) ∈
        [(⟨[exIoTwoCols]⟩ : NnetExample ℚ), ⟨[exIoThreeCols]⟩] ∧
      exIoTwoCols ∈ (⟨[exIoTwoCols]⟩ : NnetExample ℚ).io ∧
      exIoThreeCols ∈ (⟨[exIoThreeCols]⟩ : NnetExample ℚ).io ∧
      exIoTwoCols.name = exIoThreeCols.name ∧
      exIoTwoCols.features.NumCols ≠ exIoThreeCols.features.NumCols) ∧
    (MergeExamples id ([] : List (NnetExample ℚ)) false = none ∧
      MergeExamples id [(⟨[exIoTwoCols]⟩ : NnetExample ℚ), ⟨[exIoThreeCols]⟩] false = none) :=
  ⟨⟨List.mem_cons_self _ _, List.mem_cons_of_mem _ (List.mem_cons_self _ _),
      List.mem_cons_self _ _, List.mem_cons_self _ _, rfl, by decide⟩,
    C16_merge_examples_fails id false [(⟨[exIoTwoCols]⟩ : NnetExample ℚ), ⟨[exIoThreeCols]⟩]
      ⟨[exIoTwoCols]⟩ ⟨[exIoThreeCols]⟩ exIoTwoCols exIoThreeCols (List.mem_cons_self _ _)
      (List.mem_cons_of_mem _ (List.mem_cons_self _ _)) (List.mem_cons_self _ _)
      (List.mem_cons_self _ _) rfl (by decide)⟩

end nnet3

end kaldi

/-! ## The buffers returned when the validity guard fires -/

namespace kaldi

section ClaimsGuardL2

variable {α : Type} [LinearOrderedField α] {m n : Nat}

open BaseFloat

/-- The regularization step applied to zeroed buffers, with a cross-entropy output. -/
theorem l2Regularize_xent_on_zero (opts : ChainTrainingOptions α) (supervision : Supervision α)
    (nnet_output xent : CuMatrix α m n) (d x : Option (CuMatrix α m n))
    (hl2 : opts.l2_regularize ≠ 0) :
    (L2Regularize opts supervision nnet_output (some xent)
        (d.map (fun _ => fun _ _ => 0)) (x.map (fun _ => fun _ _ => 0))).nnet_output_deriv =
        d.map (fun _ => fun j i =>
          opts.l2_regularize * supervision.weight *
            ((ComputeScaleAndOffset nnet_output xent).1 i * xent j i +
              (ComputeScaleAndOffset nnet_output xent).2 i - nnet_output j i)) ∧
      (L2Regularize opts supervision nnet_output (some xent)
        (d.map (fun _ => fun _ _ => 0)) (x.map (fun _ => fun _ _ => 0))).xent_output_deriv =
        x.map (fun _ => fun j i =>
          -opts.l2_regularize * supervision.weight *
            ((ComputeScaleAndOffset nnet_output xent).1 i * xent j i +
              (ComputeScaleAndOffset nnet_output xent).2 i - nnet_output j i) *
            (ComputeScaleAndOffset nnet_output xent).1 i) := by
  rw [l2Regularize_xent _ _ _ _ _ _ hl2]
  constructor
  · cases d with
    | none => rfl
    | some before =>
        simp only [Option.map_some']
        congr 1
        funext j i
        simp only [CuMatrix.AddMat, outputDiff_apply, fzero_add]
        rw [fmul_comm supervision.weight]
  · cases x with
    | none => rfl
    | some before =>
        simp only [Option.map_some']
        congr 1
        funext j i
        simp only [CuMatrix.AddMatDiagVec, outputDiff_apply, fone_mul, fneg_one_mul, fzero_add]
        rw [fmul_comm supervision.weight, fneg_mul opts.l2_regularize,
          fmul_assoc (-(opts.l2_regularize * supervision.weight))]

/-- The regularization step applied to zeroed buffers, without a cross-entropy output. -/
theorem l2Regularize_no_xent_on_zero (opts : ChainTrainingOptions α)
    (supervision : Supervision α) (nnet_output : CuMatrix α m n)
    (d x : Option (CuMatrix α m n)) (hl2 : opts.l2_regularize ≠ 0) :
    (L2Regularize opts supervision nnet_output none
        (d.map (fun _ => fun _ _ => 0)) (x.map (fun _ => fun _ _ => 0))).nnet_output_deriv =
        d.map (fun _ => fun j i =>
          -opts.l2_regularize * supervision.weight * nnet_output j i) ∧
      (L2Regularize opts supervision nnet_output none
        (d.map (fun _ => fun _ _ => 0)) (x.map (fun _ => fun _ _ => 0))).xent_output_deriv =
        x.map (fun _ => fun _ _ => 0) := by
  rw [l2Regularize_no_xent _ _ _ _ _ hl2]
  refine ⟨?_, rfl⟩
  cases d with
  | none => rfl
  | some before =>
      simp only [Option.map_some']
      congr 1
      funext j i
      simp only [CuMatrix.AddMat, fneg_one_mul, fzero_add]
      rw [fmul_comm supervision.weight, fneg_mul opts.l2_regularize]

/-- The buffers that the guard step hands to the regularization step when the guard fires. -/
theorem validityGuard_zeroed (numerator : NumeratorComputation α m n)
    (denominator : DenominatorComputation α m n) (supervision : Supervision α)
    (d x : Option (CuMatrix α m n))
    (hw : (ValidityGuard supervision
      (RunForwardBackward numerator denominator supervision d x)).warning.isSome = true) :
    (ValidityGuard supervision
        (RunForwardBackward numerator denominator supervision d x)).nnet_output_deriv
        = d.map (fun _ => fun _ _ => 0) ∧
      (ValidityGuard supervision
        (RunForwardBackward numerator denominator supervision d x)).xent_output_deriv
        = x.map (fun _ => fun _ _ => 0) := by
  have hb := validityGuard_buffers_of_warning supervision _ hw
  have hz := forwardBackward_setZero numerator denominator supervision d x
  exact ⟨hb.1.trans hz.1, hb.2.trans hz.2⟩

/-- C25: when the validity guard fires (the raw objective is NaN or infinite, or a primary
buffer is supplied and the denominator backward pass run on it returned false), the diagnostic
is emitted and the gradient buffers returned to the caller hold exactly the contribution of the
regularization step: all-zero when `l2_regularize = 0`; otherwise the primary buffer is
`l2_regularize * supervision.weight * residual` (or
`-l2_regularize * supervision.weight * nnet_output` without a cross-entropy output) and the
auxiliary buffer is `-l2_regularize * supervision.weight * residual * scale` (or zero without a
cross-entropy output). -/
theorem C25_buffers_when_guard_fires (verbose_level : Int)
    (numerator : NumeratorComputation α m n) (denominator : DenominatorComputation α m n)
    (opts : ChainTrainingOptions α) (supervision : Supervision α) (nnet_output : CuMatrix α m n)
    (xent_output : Option (CuMatrix α m n)) (d x : Option (CuMatrix α m n))
    (h : NoFault verbose_level supervision d)
    (hfire : ¬ IsFinite (numerator.Forward - supervision.weight * denominator.Forward) ∨
      ∃ deriv, d = some deriv ∧
        (denominator.Backward (-supervision.weight)
          (numerator.Backward (CuMatrix.SetZero deriv))).1 = false) :
    ∃ r, ComputeChainObjfAndDeriv verbose_level numerator denominator opts supervision
        nnet_output xent_output d x = some r ∧
      r.warning.isSome = true ∧
      (opts.l2_regularize = 0 →
        r.nnet_output_deriv = d.map (fun _ => fun _ _ => 0) ∧
        r.xent_output_deriv = x.map (fun _ => fun _ _ => 0)) ∧
      (opts.l2_regularize ≠ 0 →
        match xent_output with
        | some xent =>
            r.nnet_output_deriv = d.map (fun _ => fun j i =>
              opts.l2_regularize * supervision.weight *
                ((ComputeScaleAndOffset nnet_output xent).1 i * xent j i +
                  (ComputeScaleAndOffset nnet_output xent).2 i - nnet_output j i)) ∧
            r.xent_output_deriv = x.map (fun _ => fun j i =>
              -opts.l2_regularize * supervision.weight *
                ((ComputeScaleAndOffset nnet_output xent).1 i * xent j i +
                  (ComputeScaleAndOffset nnet_output xent).2 i - nnet_output j i) *
                (ComputeScaleAndOffset nnet_output xent).1 i)
        | none =>
            r.nnet_output_deriv = d.map (fun _ => fun j i =>
              -opts.l2_regularize * supervision.weight * nnet_output j i) ∧
            r.xent_output_deriv = x.map (fun _ => fun _ _ => 0)) := by
  have hw := validityGuard_fires numerator denominator supervision d x hfire
  obtain ⟨hg1, hg2⟩ := validityGuard_zeroed numerator denominator supervision d x hw
  refine ⟨_, compute_of_noFault verbose_level numerator denominator opts supervision nnet_output
    xent_output d x h, hw, fun hl2 => ?_, fun hl2 => ?_⟩
  · simp only [l2Regularize_zero _ _ _ _ _ _ hl2]
    exact ⟨hg1, hg2⟩
  · cases xent_output with
    | some xent =>
        simp only [hg1, hg2]
        exact l2Regularize_xent_on_zero opts supervision nnet_output xent d x hl2
    | none =>
        simp only [hg1, hg2]
        exact l2Regularize_no_xent_on_zero opts supervision nnet_output d x hl2

/-- C25 at a concrete input: a failing denominator backward pass with `l2_regularize = 1` and
no cross-entropy output; the returned primary buffer is `-nnet_output`, with rows `-1` and
`-3`, and the returned auxiliary buffer is all-zero. -/
theorem C25_buffers_when_guard_fires_witness :
    (NoFault 0 exSupervision (some exBuffer) ∧
      (¬ IsFinite (exNumerator.Forward - exSupervision.weight * exDenominatorFailing.Forward) ∨
        ∃ deriv, some exBuffer = some deriv ∧
          (exDenominatorFailing.Backward (-exSupervision.weight)
            (exNumerator.Backward (CuMatrix.SetZero deriv))).1 = false)) ∧
    ∃ r, ComputeChainObjfAndDeriv 0 exNumerator exDenominatorFailing exOptsL2 exSupervision
        exNnetOutput none (some exBuffer) (some exBuffer) = some r ∧
      r.warning.isSome = true ∧
      (exOptsL2.l2_regularize = 0 →
        r.nnet_output_deriv = (some exBuffer).map (fun _ => fun _ _ => 0) ∧
        r.xent_output_deriv = (some exBuffer).map (fun _ => fun _ _ => 0)) ∧
      (exOptsL2.l2_regularize ≠ 0 →
        r.nnet_output_deriv = (some exBuffer).map (fun _ => fun j i =>
          -exOptsL2.l2_regularize * exSupervision.weight * exNnetOutput j i) ∧
        r.xent_output_deriv = (some exBuffer).map (fun _ => fun _ _ => 0)) :=
  ⟨⟨Or.inl (by decide), Or.inr ⟨exBuffer, rfl, rfl⟩⟩,
    C25_buffers_when_guard_fires 0 exNumerator exDenominatorFailing exOptsL2 exSupervision
      exNnetOutput none (some exBuffer) (some exBuffer) (Or.inl (by decide))
      (Or.inr ⟨exBuffer, rfl, rfl⟩)⟩

end ClaimsGuardL2

end kaldi

/-! ## Properties of the rounding to a binary format -/

namespace kaldi

namespace BaseFloat

section RoundingLemmas

variable {α : Type} [LinearOrderedField α] [FloorRing α]

theorem roundTiesToEven_intCast (z : Int) : roundTiesToEven ((z : Int) : α) = z := by
  unfold roundTiesToEven
  simp

theorem roundTiesToEven_error (x : α) : |((roundTiesToEven x : Int) : α) - x| ≤ 1 / 2 := by
  have h1 := Int.floor_le x
  have h2 := Int.lt_floor_add_one x
  unfold roundTiesToEven
  split_ifs <;> push_cast <;> rw [abs_le] <;> constructor <;> linarith

/-- The value of `roundTiesToEven` away from a tie. -/
theorem roundTiesToEven_eq (x : α) (f : Int) (h1 : (f : α) - 1 / 2 < x)
    (h2 : x < (f : α) + 1 / 2) : roundTiesToEven x = f := by
  have hg1 := Int.floor_le x
  have hg2 := Int.lt_floor_add_one x
  have hfg : f ≤ ⌊x⌋ + 1 := by
    have : (f : α) < ((⌊x⌋ + 1 + 1 : Int) : α) := by push_cast; linarith
    have := Int.cast_lt.mp this
    omega
  have hgf : ⌊x⌋ ≤ f := by
    have : ((⌊x⌋ : Int) : α) < ((f + 1 : Int) : α) := by push_cast; linarith
    have := Int.cast_lt.mp this
    omega
  unfold roundTiesToEven
  split_ifs with c1 c2 c3
  · by_contra hne
    have hf : f = ⌊x⌋ + 1 := by omega
    rw [hf] at h1
    push_cast at h1
    linarith
  · by_contra hne
    have hf : f = ⌊x⌋ := by omega
    rw [hf] at h2
    linarith
  · exfalso
    have hx : x - (⌊x⌋ : α) = 1 / 2 := le_antisymm (not_lt.mp c2) (not_lt.mp c1)
    rcases (by omega : f = ⌊x⌋ ∨ f = ⌊x⌋ + 1) with hf | hf
    · rw [hf] at h2
      linarith
    · rw [hf] at h1
      push_cast at h1
      linarith
  · exfalso
    have hx : x - (⌊x⌋ : α) = 1 / 2 := le_antisymm (not_lt.mp c2) (not_lt.mp c1)
    rcases (by omega : f = ⌊x⌋ ∨ f = ⌊x⌋ + 1) with hf | hf
    · rw [hf] at h2
      linarith
    · rw [hf] at h1
      push_cast at h1
      linarith

/-- The value of `roundTiesToEven` at a tie. -/
theorem roundTiesToEven_tie (x : α) (f : Int) (h : x = (f : α) + 1 / 2) :
    roundTiesToEven x = if f % 2 = 0 then f else f + 1 := by
  have hfl : ⌊x⌋ = f := by
    rw [Int.floor_eq_iff, h]
    constructor <;> linarith
  have hd : x - ((⌊x⌋ : Int) : α) = 1 / 2 := by
    rw [hfl, h]
    ring
  unfold roundTiesToEven
  rw [hd, if_neg (lt_irrefl _), if_neg (lt_irrefl _), hfl]

theorem two_zpow_pos (e : Int) : (0 : α) < 2 ^ e := zpow_pos (by norm_num) e

theorem binade_ge (emin : Int) (x : α) : emin ≤ binade emin x := le_max_right _ _

theorem lt_zpow_binade (emin : Int) (x : α) : |x| < 2 ^ (binade emin x + 1) := by
  have h := Int.lt_zpow_succ_log_self (b := 2) (by norm_num) |x|
  have hle : ((2 : Nat) : α) ^ (Int.log 2 |x| + 1) ≤ 2 ^ (binade emin x + 1) := by
    rw [Nat.cast_ofNat]
    apply zpow_le_zpow_right₀ (by norm_num)
    unfold binade
    have := le_max_left (Int.log 2 |x|) emin
    omega
  exact lt_of_lt_of_le h hle

theorem binade_le (emin E : Int) (x : α) (hE : emin ≤ E) (hx : |x| < 2 ^ (E + 1))
    (h0 : x = 0 → 0 ≤ E) : binade emin x ≤ E := by
  unfold binade
  apply max_le _ hE
  by_cases hz : x = 0
  · rw [hz, abs_zero, Int.log_of_right_le_zero 2 (le_refl (0 : α))]
    exact h0 hz
  · have hpos : 0 < |x| := abs_pos.mpr hz
    have hx2 : |x| < ((2 : Nat) : α) ^ (E + 1) := by
      rw [Nat.cast_ofNat]
      exact hx
    have := (Int.lt_zpow_iff_log_lt (by norm_num : 1 < 2) hpos).mp hx2
    omega

theorem binade_eq (emin e : Int) (x : α) (he : emin ≤ e) (hlo : 2 ^ e ≤ |x|)
    (hhi : |x| < 2 ^ (e + 1)) : binade emin x = e := by
  have hpos : 0 < |x| := lt_of_lt_of_le (two_zpow_pos e) hlo
  have h1 : Int.log 2 |x| < e + 1 := by
    have hx2 : |x| < ((2 : Nat) : α) ^ (e + 1) := by
      rw [Nat.cast_ofNat]
      exact hhi
    exact (Int.lt_zpow_iff_log_lt (by norm_num : 1 < 2) hpos).mp hx2
  have h2 : e ≤ Int.log 2 |x| := by
    have hx2 : ((2 : Nat) : α) ^ e ≤ |x| := by
      rw [Nat.cast_ofNat]
      exact hlo
    exact (Int.zpow_le_iff_le_log (by norm_num : 1 < 2) hpos).mp hx2
  unfold binade
  rw [max_eq_left (by omega)]
  omega

theorem half_quantum (b : Int) (prec : Nat) :
    (1 / 2 : α) * 2 ^ (b - ((prec : Int) - 1)) = 2 ^ (b - (prec : Int)) := by
  have h : b - ((prec : Int) - 1) = (b - (prec : Int)) + 1 := by ring
  rw [h, zpow_add_one₀ (by norm_num : (2 : α) ≠ 0)]
  ring

/-- The rounding error is at most half a unit in the last place when the result does not
overflow. -/
theorem roundBinary_error (prec : Nat) (emin emax : Int) (x : α)
    (hov : |x| + 2 ^ (binade emin x - (prec : Int)) < 2 ^ (emax + 1)) :
    ∃ r, roundBinary prec emin emax x = finite r ∧
      |r - x| ≤ 2 ^ (binade emin x - (prec : Int)) := by
  have hQ := two_zpow_pos (α := α) (binade emin x - ((prec : Int) - 1))
  have herr := roundTiesToEven_error (x / 2 ^ (binade emin x - ((prec : Int) - 1)))
  have hrx : |((roundTiesToEven (x / 2 ^ (binade emin x - ((prec : Int) - 1))) : Int) : α) *
      2 ^ (binade emin x - ((prec : Int) - 1)) - x| ≤ 2 ^ (binade emin x - (prec : Int)) := by
    have hfac : ((roundTiesToEven (x / 2 ^ (binade emin x - ((prec : Int) - 1))) : Int) : α) *
        2 ^ (binade emin x - ((prec : Int) - 1)) - x =
        (((roundTiesToEven (x / 2 ^ (binade emin x - ((prec : Int) - 1))) : Int) : α) -
          x / 2 ^ (binade emin x - ((prec : Int) - 1))) *
          2 ^ (binade emin x - ((prec : Int) - 1)) := by
      field_simp
    rw [hfac, abs_mul, abs_of_pos hQ, ← half_quantum]
    exact mul_le_mul_of_nonneg_right herr hQ.le
  refine ⟨_, ?_, hrx⟩
  unfold roundBinary
  simp only []
  rw [if_neg]
  rw [not_le]
  have habs : |((roundTiesToEven (x / 2 ^ (binade emin x - ((prec : Int) - 1))) : Int) : α) *
      2 ^ (binade emin x - ((prec : Int) - 1))| ≤
      |x| + 2 ^ (binade emin x - (prec : Int)) := by
    have h1 := abs_sub_abs_le_abs_sub
      (((roundTiesToEven (x / 2 ^ (binade emin x - ((prec : Int) - 1))) : Int) : α) *
        2 ^ (binade emin x - ((prec : Int) - 1))) x
    linarith
  exact lt_of_le_of_lt habs hov

/-- A multiple of the unit in the last place is not changed by the rounding. -/
theorem roundBinary_of_multiple (prec : Nat) (emin emax : Int) (x : α) (z t : Int)
    (hx : x = (z : α) * 2 ^ t) (ht : binade emin x - ((prec : Int) - 1) ≤ t)
    (hov : |x| < 2 ^ (emax + 1)) : roundBinary prec emin emax x = finite x := by
  have h2 : (2 : α) ≠ 0 := by norm_num
  obtain ⟨n, hn⟩ : ∃ n : Nat, t = binade emin x - ((prec : Int) - 1) + n :=
    ⟨(t - (binade emin x - ((prec : Int) - 1))).toNat, by omega⟩
  have hdiv : x / 2 ^ (binade emin x - ((prec : Int) - 1)) = ((z * 2 ^ n : Int) : α) := by
    rw [div_eq_iff (two_zpow_pos _).ne']
    nth_rewrite 1 [hx]
    rw [hn, zpow_add₀ h2, zpow_natCast]
    push_cast
    ring
  have hr : ((roundTiesToEven (x / 2 ^ (binade emin x - ((prec : Int) - 1))) : Int) : α) *
      2 ^ (binade emin x - ((prec : Int) - 1)) = x := by
    rw [hdiv, roundTiesToEven_intCast, ← hdiv]
    exact div_mul_cancel₀ x (two_zpow_pos _).ne'
  unfold roundBinary
  simp only []
  rw [hr, if_neg (not_le.mpr hov)]

/-- A number of the format is a multiple of the unit in the last place of its binade. -/
theorem multiple_of_roundBinary (prec : Nat) (emin emax : Int) (x : α)
    (h : roundBinary prec emin emax x = finite x) :
    ∃ M : Int, x = (M : α) * 2 ^ (binade emin x - ((prec : Int) - 1)) := by
  unfold roundBinary at h
  simp only [] at h
  split at h
  · split at h <;> exact absurd h (by simp)
  · exact ⟨_, (finite.inj h).symm⟩

/-- The rounding of a number whose binade and rounded significand are known. -/
theorem roundBinary_eval (prec : Nat) (emin emax e M : Int) (x : α) (he : emin ≤ e)
    (hlo : 2 ^ e ≤ |x|) (hhi : |x| < 2 ^ (e + 1))
    (hM : roundTiesToEven (x / 2 ^ (e - ((prec : Int) - 1))) = M)
    (hov : |(M : α) * 2 ^ (e - ((prec : Int) - 1))| < 2 ^ (emax + 1)) :
    roundBinary prec emin emax x = finite ((M : α) * 2 ^ (e - ((prec : Int) - 1))) := by
  unfold roundBinary
  simp only []
  rw [binade_eq emin e x he hlo hhi, hM, if_neg (not_le.mpr hov)]

end RoundingLemmas

end BaseFloat

end kaldi

/-! ## Round trip of a vector written as characters -/

namespace kaldi

namespace nnet3

section VectorAsCharLemmas

open BaseFloat

variable {α : Type} [LinearOrderedField α] [FloorRing α]

theorem fle_unit_interval (v : BaseFloat α) :
    (fle 0 v && fle v 1) = true ↔ ∃ q, v = finite q ∧ 0 ≤ q ∧ q ≤ 1 := by
  cases v <;> simp [fle, zero_def, one_def]

/-- The character stored for a value of `[0, 1]` in exact arithmetic: the integer closest to
`255 * value`. -/
theorem toUnsignedChar_round (q : α) (h0 : 0 ≤ q) (h1 : q ≤ 1) :
    ∃ k : Nat, toUnsignedChar (finite 255 * finite q + finite (1 / 2)) = k ∧ k ≤ 255 ∧
      (k : Int) = ⌊255 * q + 1 / 2⌋ ∧ |(k : α) / 255 - q| ≤ 1 / 510 := by
  have hx0 : (0 : α) ≤ 255 * q + 1 / 2 := by positivity
  have hz0 : 0 ≤ ⌊255 * q + 1 / 2⌋ := Int.floor_nonneg.mpr hx0
  have hz1 : ⌊255 * q + 1 / 2⌋ ≤ 255 := by
    have : ⌊255 * q + 1 / 2⌋ < 256 := by
      rw [Int.floor_lt]
      push_cast
      linarith
    omega
  have hle : ((⌊255 * q + 1 / 2⌋ : Int) : α) ≤ 255 * q + 1 / 2 := Int.floor_le _
  have hlt : 255 * q + 1 / 2 < ((⌊255 * q + 1 / 2⌋ : Int) : α) + 1 := Int.lt_floor_add_one _
  refine ⟨(⌊255 * q + 1 / 2⌋).toNat, ?_, by omega, Int.toNat_of_nonneg hz0, ?_⟩
  · simp only [finite_mul_finite, finite_add_finite, toUnsignedChar, if_pos hx0]
    congr 1
    omega
  · have hk : (((⌊255 * q + 1 / 2⌋).toNat : Nat) : α) = ((⌊255 * q + 1 / 2⌋ : Int) : α) := by
      have : (((⌊255 * q + 1 / 2⌋).toNat : Nat) : Int) = ⌊255 * q + 1 / 2⌋ :=
        Int.toNat_of_nonneg hz0
      exact_mod_cast congrArg (fun z : Int => (z : α)) this
    rw [hk, abs_le]
    constructor
    · rw [le_sub_iff_add_le, le_div_iff₀ (by norm_num : (0 : α) < 255)]
      linarith
    · rw [sub_le_iff_le_add, div_le_iff₀ (by norm_num : (0 : α) < 255)]
      linarith

/-- The `float` constant `scale` of line 247: `1.0 / 255.0` is computed in `double` and
converted to `float`. -/
theorem scale_eq : (round32 (round64 (finite 1 / finite 255)) : BaseFloat α) =
    finite (8421505 / 2147483648) := by
  have h255 : (255 : α) ≠ 0 := by norm_num
  have hd : (round64 (finite 1 / finite 255) : BaseFloat α) =
      finite (((4521260802379792 : Int) : α) * 2 ^ ((-8 : Int) - (((53 : Nat) : Int) - 1))) := by
    rw [finite_div_finite _ _ h255]
    refine roundBinary_eval 53 (-1022) 1023 (-8) 4521260802379792 (1 / 255) (by norm_num)
      ?_ ?_ ?_ ?_
    · rw [abs_of_pos (by norm_num)]
      norm_num
    · rw [abs_of_pos (by norm_num)]
      norm_num
    · apply roundTiesToEven_eq
      · norm_num
      · norm_num
    · rw [abs_of_pos (by norm_num)]
      norm_num
  rw [hd]
  have hs : (round32 (finite (((4521260802379792 : Int) : α) *
      2 ^ ((-8 : Int) - (((53 : Nat) : Int) - 1)))) : BaseFloat α) =
      finite (((8421505 : Int) : α) * 2 ^ ((-8 : Int) - (((24 : Nat) : Int) - 1))) := by
    refine roundBinary_eval 24 (-126) 127 (-8) 8421505 _ (by norm_num) ?_ ?_ ?_ ?_
    · rw [abs_of_pos (by norm_num)]
      norm_num
    · rw [abs_of_pos (by norm_num)]
      norm_num
    · apply roundTiesToEven_eq
      · norm_num
      · norm_num
    · rw [abs_of_pos (by norm_num)]
      norm_num
  rw [hs]
  congr 1
  norm_num

theorem binade_zero (emin : Int) : binade emin (0 : α) = max 0 emin := by
  unfold binade
  rw [abs_zero, Int.log_of_right_le_zero 2 (le_refl (0 : α))]

/-- The exponent of a `float` in `[0, 1]` and its significand. -/
theorem float_unit_interval (q : α) (hq : round32 (finite q) = finite q) (h0 : 0 ≤ q)
    (h1 : q ≤ 1) :
    ∃ (b M : Int), -126 ≤ b ∧ b ≤ 0 ∧ q = (M : α) * 2 ^ (b - 23) ∧ q < 2 ^ (b + 1) ∧
      (q = 0 → b = 0) := by
  have hq2 : roundBinary 24 (-126) 127 q = finite q := hq
  obtain ⟨M, hM⟩ := multiple_of_roundBinary 24 (-126) 127 q hq2
  have habs : |q| = q := abs_of_nonneg h0
  refine ⟨binade (-126) q, M, binade_ge _ _, ?_, ?_, ?_, ?_⟩
  · apply binade_le _ _ _ (by norm_num) _ (fun _ => le_refl _)
    rw [habs]
    norm_num
    linarith
  · have h23 : binade (-126) q - (((24 : Nat) : Int) - 1) = binade (-126) q - 23 := by
      norm_num
    rw [h23] at hM
    exact hM
  · have := lt_zpow_binade (-126) q
    rw [habs] at this
    exact this
  · intro hz
    rw [hz, binade_zero]
    rfl

/-- The `double` product `255.0 * value` is exact for a `float` value in `[0, 1]`. -/
theorem round64_scaled (q : α) (hq : round32 (finite q) = finite q) (h0 : 0 ≤ q)
    (h1 : q ≤ 1) : round64 (finite 255 * finite q) = finite (255 * q) := by
  obtain ⟨b, M, hb0, hb1, hM, hlt, hz⟩ := float_unit_interval q hq h0 h1
  have h2 : (2 : α) ≠ 0 := by norm_num
  have habs : |255 * q| = 255 * q := abs_of_nonneg (by positivity)
  rw [finite_mul_finite]
  refine roundBinary_of_multiple 53 (-1022) 1023 (255 * q) (255 * M) (b - 23) ?_ ?_ ?_
  · rw [hM]
    push_cast
    ring
  · have hle : binade (-1022) (255 * q) ≤ b + 8 := by
      apply binade_le _ _ _ (by omega)
      · rw [habs]
        have h9 : (2 : α) ^ (b + 8 + 1) = 2 ^ (b + 1) * 256 := by
          have : b + 8 + 1 = (b + 1) + 8 := by ring
          rw [this, zpow_add₀ h2]
          norm_num
        rw [h9]
        linarith
      · intro hx
        have hq0 : q = 0 := by
          rcases mul_eq_zero.mp hx with h | h
          · norm_num at h
          · exact h
        rw [hz hq0]
        norm_num
    have h52 : (((53 : Nat) : Int) - 1) = 52 := by norm_num
    rw [h52]
    omega
  · rw [habs]
    have h8 : (255 : α) < 2 ^ ((8 : Int)) := by norm_num
    have hmono : (2 : α) ^ ((8 : Int)) ≤ 2 ^ ((1023 : Int) + 1) :=
      zpow_le_zpow_right₀ (by norm_num) (by norm_num)
    nlinarith

/-- The truncated `double` value of `255.0 * value + 0.5` is the truncated exact value. -/
theorem fillChar_exact (q : α) (hq : round32 (finite q) = finite q) (h0 : 0 ≤ q)
    (h1 : q ≤ 1) :
    toUnsignedChar (round64 (round64 (finite 255 * finite q) + finite (1 / 2))) =
      toUnsignedChar (finite 255 * finite q + finite (1 / 2)) := by
  obtain ⟨b, M, hb0, hb1, hM, hlt, hz⟩ := float_unit_interval q hq h0 h1
  have h2 : (2 : α) ≠ 0 := by norm_num
  have hzpos : (0 : α) ≤ 255 * q + 1 / 2 := by positivity
  have habs : |255 * q + 1 / 2| = 255 * q + 1 / 2 := abs_of_nonneg hzpos
  have h8 : (2 : α) ^ ((8 : Int)) = 256 := by norm_num
  have h52 : (((53 : Nat) : Int) - 1) = 52 := by norm_num
  rw [round64_scaled q hq h0 h1, finite_mul_finite, finite_add_finite]
  by_cases hb : -22 ≤ b
  · -- the sum is a `double`
    have hrep : roundBinary 53 (-1022) 1023 (255 * q + 1 / 2) = finite (255 * q + 1 / 2) := by
      refine roundBinary_of_multiple 53 (-1022) 1023 (255 * q + 1 / 2)
        (255 * M + 2 ^ (22 - b).toNat) (b - 23) ?_ ?_ ?_
      · have hpow : ((2 : α) ^ (22 - b).toNat) * 2 ^ (b - 23) = 1 / 2 := by
          rw [← zpow_natCast, ← zpow_add₀ h2]
          have : (((22 - b).toNat : Nat) : Int) + (b - 23) = -1 := by omega
          rw [this]
          norm_num
        rw [hM]
        push_cast
        rw [add_mul, hpow]
        ring
      · have hle : binade (-1022) (255 * q + 1 / 2) ≤ 7 := by
          apply binade_le _ _ _ (by norm_num) _ (fun _ => by norm_num)
          rw [habs]
          have : (2 : α) ^ ((7 : Int) + 1) = 256 := by norm_num
          rw [this]
          linarith
        rw [h52]
        omega
      · rw [habs]
        have hmono : (2 : α) ^ ((8 : Int)) ≤ 2 ^ ((1023 : Int) + 1) :=
          zpow_le_zpow_right₀ (by norm_num) (by norm_num)
        rw [h8] at hmono
        linarith
    show toUnsignedChar (roundBinary 53 (-1022) 1023 (255 * q + 1 / 2)) = _
    rw [hrep]
  · -- the value is so small that the sum stays below 1
    have hsmall : q < 2 ^ ((-22 : Int)) :=
      lt_of_lt_of_le hlt (zpow_le_zpow_right₀ (by norm_num) (by omega))
    have h22 : (2 : α) ^ ((-22 : Int)) = 1 / 4194304 := by norm_num
    rw [h22] at hsmall
    have hbin : binade (-1022) (255 * q + 1 / 2) = -1 := by
      apply binade_eq _ _ _ (by norm_num)
      · rw [habs]
        norm_num
        linarith
      · rw [habs]
        norm_num
        linarith
    obtain ⟨r, hr, herr⟩ := roundBinary_error 53 (-1022) 1023 (255 * q + 1 / 2) (by
      rw [habs, hbin]
      have hmono : (2 : α) ^ ((8 : Int)) ≤ 2 ^ ((1023 : Int) + 1) :=
        zpow_le_zpow_right₀ (by norm_num) (by norm_num)
      rw [h8] at hmono
      have : (2 : α) ^ ((-1 : Int) - ((53 : Nat) : Int)) ≤ 1 := by norm_num
      linarith)
    rw [hbin] at herr
    have h54 : (2 : α) ^ ((-1 : Int) - ((53 : Nat) : Int)) = 1 / 18014398509481984 := by
      norm_num
    rw [h54, abs_le] at herr
    show toUnsignedChar (roundBinary 53 (-1022) 1023 (255 * q + 1 / 2)) = _
    rw [hr]
    have hr0 : 0 ≤ r := by linarith
    have hfr : ⌊r⌋ = 0 := by
      rw [Int.floor_eq_iff]
      constructor
      · simpa using hr0
      · norm_num
        linarith
    have hfz : ⌊255 * q + 1 / 2⌋ = 0 := by
      rw [Int.floor_eq_iff]
      constructor
      · simpa using hzpos
      · norm_num
        linarith
    simp only [toUnsignedChar, if_pos hr0, if_pos hzpos, hfr, hfz]

/-- The entry that `ReadVectorAsChar` computes from the character `k`. -/
theorem readChar_error (k : Nat) (hk : k ≤ 255) :
    ∃ r : α, round32 (round32 (round64 (finite 1 / finite 255)) * finite (k : α)) = finite r ∧
      |r - (k : α) / 255| ≤ 1 / 8388608 := by
  have hk0 : (0 : α) ≤ (k : α) := Nat.cast_nonneg k
  have hk1 : (k : α) ≤ 255 := by exact_mod_cast hk
  have hx0 : (0 : α) ≤ 8421505 / 2147483648 * (k : α) := by positivity
  have habs : |(8421505 / 2147483648 : α) * (k : α)| = 8421505 / 2147483648 * (k : α) :=
    abs_of_nonneg hx0
  have hbin : binade (-126) ((8421505 / 2147483648 : α) * (k : α)) ≤ 0 := by
    apply binade_le _ _ _ (by norm_num) _ (fun _ => le_refl _)
    rw [habs]
    norm_num
    linarith
  have hq : (2 : α) ^ (binade (-126) ((8421505 / 2147483648 : α) * (k : α)) -
      ((24 : Nat) : Int)) ≤ 1 / 16777216 := by
    have h24 : (2 : α) ^ ((-24 : Int)) = 1 / 16777216 := by norm_num
    rw [← h24]
    apply zpow_le_zpow_right₀ (by norm_num)
    have : ((24 : Nat) : Int) = 24 := by norm_num
    omega
  obtain ⟨r, hr, herr⟩ := roundBinary_error 24 (-126) 127
    ((8421505 / 2147483648 : α) * (k : α)) (by
      rw [habs]
      have h2 : (2 : α) ^ ((2 : Int)) = 4 := by norm_num
      have hmono : (2 : α) ^ ((2 : Int)) ≤ 2 ^ ((127 : Int) + 1) :=
        zpow_le_zpow_right₀ (by norm_num) (by norm_num)
      rw [h2] at hmono
      linarith)
  refine ⟨r, ?_, ?_⟩
  · rw [scale_eq, finite_mul_finite]
    exact hr
  · have herr2 := le_trans herr hq
    rw [abs_le] at herr2 ⊢
    constructor <;> linarith

theorem fillCharVec_some (vec : List (BaseFloat α))
    (h : ∀ v ∈ vec, ∃ q, v = finite q ∧ round32 (finite q) = finite q ∧ 0 ≤ q ∧ q ≤ 1) :
    ∃ chars, FillCharVec vec = some chars ∧
      List.Forall₂ (fun v (c : Nat) => ∃ q, v = finite q ∧ c ≤ 255 ∧
        (c : Int) = ⌊255 * q + 1 / 2⌋ ∧ |(c : α) / 255 - q| ≤ 1 / 510) vec chars := by
  induction vec with
  | nil => exact ⟨[], rfl, List.Forall₂.nil⟩
  | cons v rest ih =>
      obtain ⟨chars, hc, hall⟩ := ih (fun v' hv' => h v' (List.mem_cons_of_mem _ hv'))
      obtain ⟨q, rfl, hq, h0, h1⟩ := h v (List.mem_cons_self _ _)
      obtain ⟨k, hk, hk255, hkfloor, hkerr⟩ := toUnsignedChar_round q h0 h1
      refine ⟨k :: chars, ?_, List.Forall₂.cons ⟨q, rfl, hk255, hkfloor, hkerr⟩ hall⟩
      have hguard : (fle 0 (finite q) && fle (finite q) 1) = true :=
        (fle_unit_interval _).mpr ⟨q, rfl, h0, h1⟩
      simp only [FillCharVec, hguard, if_true, hc, Option.map_some',
        fillChar_exact q hq h0 h1, hk]

theorem fillCharVec_none (vec : List (BaseFloat α))
    (h : ∃ v ∈ vec, ¬ ∃ q, v = finite q ∧ 0 ≤ q ∧ q ≤ 1) :
    FillCharVec vec = none := by
  induction vec with
  | nil =>
      obtain ⟨v, hv, -⟩ := h
      exact absurd hv (List.not_mem_nil v)
  | cons v rest ih =>
      by_cases hv : (fle 0 v && fle v 1) = true
      · obtain ⟨v', hv', hbad⟩ := h
        rcases List.mem_cons.mp hv' with rfl | hmem
        · exact absurd ((fle_unit_interval _).mp hv) hbad
        · simp only [FillCharVec, hv, if_true, ih ⟨v', hmem, hbad⟩, Option.map_none']
      · simp only [FillCharVec, hv]
        rfl

/-- C21 (amended): in binary mode, writing a vector of `float` entries that all lie in `[0, 1]`
and reading it back gives a vector of the same dimension; every entry read back is the `float`
product of the `float` constant `1.0 / 255.0` and an integer `0 <= k <= 255`, where `k` is the
integer closest to `255 * v` (the value is rounded to the closest integer rather than down); it
differs from `k / 255` by at most `2^-23` and from the original entry by at most
`1/510 + 2^-23`.  An entry outside `[0, 1]` makes the write fail. -/
theorem C21_vector_as_char_round_trip (vec : List (BaseFloat α)) :
    ((∀ v ∈ vec, ∃ q, v = finite q ∧ round32 (finite q) = finite q ∧ 0 ≤ q ∧ q ≤ 1) →
      ∃ os out, WriteVectorAsChar true vec = some os ∧ ReadVectorAsChar true os = some out ∧
        out.length = vec.length ∧
        List.Forall₂ (fun v o => ∃ (q r : α) (k : Nat), v = finite q ∧ k ≤ 255 ∧
          (k : Int) = ⌊255 * q + 1 / 2⌋ ∧
          o = round32 (round32 (round64 (finite 1 / finite 255)) * finite (k : α)) ∧
          o = finite r ∧ |r - (k : α) / 255| ≤ 1 / 8388608 ∧
          |r - q| ≤ 1 / 510 + 1 / 8388608) vec out) ∧
    ((∃ v ∈ vec, ¬ ∃ q, v = finite q ∧ 0 ≤ q ∧ q ≤ 1) →
      WriteVectorAsChar true vec = none) := by
  constructor
  · intro h
    obtain ⟨chars, hc, hall⟩ := fillCharVec_some vec h
    have hout : List.Forall₂ (fun v o => ∃ (q r : α) (k : Nat), v = finite q ∧ k ≤ 255 ∧
        (k : Int) = ⌊255 * q + 1 / 2⌋ ∧
        o = round32 (round32 (round64 (finite 1 / finite 255)) * finite (k : α)) ∧
        o = finite r ∧ |r - (k : α) / 255| ≤ 1 / 8388608 ∧
        |r - q| ≤ 1 / 510 + 1 / 8388608) vec
        (chars.map (fun (c : Nat) =>
          round32 (round32 (round64 (finite 1 / finite 255) : BaseFloat α) *
            finite (c : α)))) := by
      rw [List.forall₂_map_right_iff]
      refine hall.imp ?_
      rintro v c ⟨q, hv, hc255, hfloor, herr⟩
      obtain ⟨r, hr, hrerr⟩ := readChar_error (α := α) c hc255
      refine ⟨q, r, c, hv, hc255, hfloor, rfl, hr, hrerr, ?_⟩
      rw [abs_le] at herr hrerr ⊢
      constructor <;> linarith
    refine ⟨VectorStream.chars chars, _, ?_, rfl, ?_, hout⟩
    · simp only [WriteVectorAsChar, if_true, hc, Option.map_some']
    · rw [← hout.length_eq]
  · intro h
    simp only [WriteVectorAsChar, if_true, fillCharVec_none vec h, Option.map_none']

end VectorAsCharLemmas

/-- The number `0x1.7f7f8p-2` is a `float`. -/
theorem exFloat_is_float :
    BaseFloat.round32 (BaseFloat.finite (196351 / 524288 : ℚ)) =
      BaseFloat.finite (196351 / 524288) := by
  refine BaseFloat.roundBinary_of_multiple 24 (-126) 127 (196351 / 524288 : ℚ) 196351 (-19)
    (by norm_num) ?_ (by rw [abs_of_pos (by norm_num)]; norm_num)
  have hle : BaseFloat.binade (-126) (196351 / 524288 : ℚ) ≤ -2 := by
    apply BaseFloat.binade_le _ _ _ (by norm_num) _ (fun h => absurd h (by norm_num))
    rw [abs_of_pos (by norm_num)]
    norm_num
  have : (((24 : Nat) : Int) - 1) = 23 := by norm_num
  rw [this]
  omega

theorem exFloatVector_in_range :
    ∀ v ∈ exFloatVector, ∃ q : ℚ, v = BaseFloat.finite q ∧
      BaseFloat.round32 (BaseFloat.finite q) = BaseFloat.finite q ∧ 0 ≤ q ∧ q ≤ 1 := by
  intro v hv
  simp only [exFloatVector, List.mem_cons, List.mem_singleton, List.not_mem_nil, or_false] at hv
  rcases hv with rfl | rfl | rfl
  · refine ⟨_, rfl, ?_, by norm_num, by norm_num⟩
    exact BaseFloat.roundBinary_of_multiple 24 (-126) 127 (0 : ℚ) 0 0 (by norm_num)
      (by rw [binade_zero]; norm_num) (by norm_num)
  · exact ⟨_, rfl, exFloat_is_float, by norm_num, by norm_num⟩
  · refine ⟨_, rfl, ?_, by norm_num, by norm_num⟩
    refine BaseFloat.roundBinary_of_multiple 24 (-126) 127 (1 : ℚ) 1 0 (by norm_num) ?_
      (by norm_num)
    have hle : BaseFloat.binade (-126) (1 : ℚ) ≤ 0 := by
      apply BaseFloat.binade_le _ _ _ (by norm_num) _ (fun _ => le_refl _)
      norm_num
    have : (((24 : Nat) : Int) - 1) = 23 := by norm_num
    rw [this]
    omega

/-- C21 (counterexample): the `float` `0x1.7f7f8p-2` lies in `[0, 1]`; it is written as the
character 96 and read back as `0x1.818184p-2` (the product `scale * 96` lies halfway between
two `float` numbers and goes to the even one), which is not `k/255` for any integer `k` and
differs from the original entry by more than `1/510`. -/
theorem C21_round_trip_counterexample :
    (BaseFloat.round32 (BaseFloat.finite (196351 / 524288 : ℚ)) =
        BaseFloat.finite (196351 / 524288) ∧
      (0 : ℚ) ≤ 196351 / 524288 ∧ (196351 / 524288 : ℚ) ≤ 1) ∧
    WriteVectorAsChar true [BaseFloat.finite (196351 / 524288 : ℚ)] =
      some (VectorStream.chars [96]) ∧
    ReadVectorAsChar true (VectorStream.chars [96] : VectorStream ℚ) =
      some [BaseFloat.finite (6316129 / 16777216 : ℚ)] ∧
    (¬ ∃ k : Nat, (6316129 / 16777216 : ℚ) = (k : ℚ) / 255) ∧
    (1 / 510 : ℚ) < |(6316129 / 16777216 : ℚ) - 196351 / 524288| := by
  refine ⟨⟨exFloat_is_float, by norm_num, by norm_num⟩, ?_, ?_, ?_, ?_⟩
  · have hg : (BaseFloat.fle 0 (BaseFloat.finite (196351 / 524288 : ℚ)) &&
        BaseFloat.fle (BaseFloat.finite (196351 / 524288 : ℚ)) 1) = true :=
      (fle_unit_interval _).mpr ⟨_, rfl, by norm_num, by norm_num⟩
    have hchar : BaseFloat.toUnsignedChar (BaseFloat.finite 255 *
        BaseFloat.finite (196351 / 524288 : ℚ) + BaseFloat.finite (1 / 2)) = 96 := by
      have hx0 : (0 : ℚ) ≤ 255 * (196351 / 524288) + 1 / 2 := by norm_num
      have hfl : ⌊(255 : ℚ) * (196351 / 524288) + 1 / 2⌋ = 96 := by
        rw [Int.floor_eq_iff]
        constructor <;> norm_num
      simp only [BaseFloat.finite_mul_finite, BaseFloat.finite_add_finite,
        BaseFloat.toUnsignedChar, if_pos hx0, hfl]
      rfl
    simp only [WriteVectorAsChar, if_true, FillCharVec, hg, Option.map_some',
      fillChar_exact _ exFloat_is_float (by norm_num) (by norm_num), hchar]
  · have hprod : BaseFloat.round32 (BaseFloat.round32 (BaseFloat.round64
        (BaseFloat.finite 1 / BaseFloat.finite 255)) * BaseFloat.finite ((96 : Nat) : ℚ)) =
        BaseFloat.finite (6316129 / 16777216 : ℚ) := by
      rw [scale_eq, BaseFloat.finite_mul_finite]
      have h := BaseFloat.roundBinary_eval 24 (-126) 127 (-2) 12632258
        ((8421505 / 2147483648 : ℚ) * ((96 : Nat) : ℚ)) (by norm_num)
        (by rw [abs_of_pos (by norm_num)]; norm_num)
        (by rw [abs_of_pos (by norm_num)]; norm_num)
        (by
          rw [BaseFloat.roundTiesToEven_tie _ 12632257 (by norm_num)]
          rfl)
        (by rw [abs_of_pos (by norm_num)]; norm_num)
      show BaseFloat.roundBinary 24 (-126) 127 _ = _
      rw [h]
      congr 1
      norm_num
    simp only [ReadVectorAsChar, if_true, List.map_cons, List.map_nil, hprod]
  · rintro ⟨k, hk⟩
    have h1 : (6316129 : ℚ) * 255 = (k : ℚ) * 16777216 := by
      field_simp at hk
      linarith
    have h2 : (6316129 * 255 : Nat) = k * 16777216 := by exact_mod_cast h1
    omega
  · rw [abs_of_pos (by norm_num)]
    norm_num

/-- C21 (amended) at a concrete input: the vector with entries `0`, `0x1.7f7f8p-2` and `1`. -/
theorem C21_vector_as_char_round_trip_witness :
    (∀ v ∈ exFloatVector, ∃ q : ℚ, v = BaseFloat.finite q ∧
      BaseFloat.round32 (BaseFloat.finite q) = BaseFloat.finite q ∧ 0 ≤ q ∧ q ≤ 1) ∧
    ∃ os out, WriteVectorAsChar true exFloatVector = some os ∧
      ReadVectorAsChar true os = some out ∧ out.length = exFloatVector.length ∧
      List.Forall₂ (fun v o => ∃ (q r : ℚ) (k : Nat), v = BaseFloat.finite q ∧ k ≤ 255 ∧
        (k : Int) = ⌊255 * q + 1 / 2⌋ ∧
        o = BaseFloat.round32 (BaseFloat.round32 (BaseFloat.round64
          (BaseFloat.finite 1 / BaseFloat.finite 255)) * BaseFloat.finite (k : ℚ)) ∧
        o = BaseFloat.finite r ∧ |r - (k : ℚ) / 255| ≤ 1 / 8388608 ∧
        |r - q| ≤ 1 / 510 + 1 / 8388608) exFloatVector out :=
  ⟨exFloatVector_in_range,
    (C21_vector_as_char_round_trip exFloatVector).1 exFloatVector_in_range⟩

end nnet3

end kaldi

/-! ## Rounding the chunk length up to the subsampling factor (`RoundUpNumFrames`) -/

namespace kaldi
namespace nnet3

section RoundUpLemmas

/-- The mathematical value of the rounded-up number. -/
theorem roundUp_least (f x : Int) (hf : 0 < f) (hx : 0 ≤ x) :
    f ∣ f * ((x + f - 1) / f) ∧ x ≤ f * ((x + f - 1) / f) ∧
      f * ((x + f - 1) / f) < x + f ∧
      (∀ c, f ∣ c → x ≤ c → f * ((x + f - 1) / f) ≤ c) ∧
      (f ∣ x → f * ((x + f - 1) / f) = x) := by
  have h1 := Int.ediv_add_emod (x + f - 1) f
  have h2 := Int.emod_nonneg (x + f - 1) hf.ne'
  have h3 := Int.emod_lt_of_pos (x + f - 1) hf
  refine ⟨Dvd.intro _ rfl, by omega, by omega, ?_, ?_⟩
  · rintro c ⟨k, rfl⟩ hxc
    have hk : (x + f - 1) / f ≤ k := by
      by_contra hcon
      have hk1 : k + 1 ≤ (x + f - 1) / f := by omega
      have := Int.mul_le_mul_of_nonneg_left hk1 hf.le
      have e : f * (k + 1) = f * k + f := by ring
      omega
    exact Int.mul_le_mul_of_nonneg_left hk hf.le
  · rintro ⟨k, rfl⟩
    have e : (f * k + f - 1) / f = k := by
      have : f * k + f - 1 = (f - 1) + f * k := by ring
      rw [this, Int.add_mul_ediv_left _ _ hf.ne', Int.ediv_eq_zero_of_lt (by omega) (by omega)]
      simp
    rw [e]

theorem roundUpValue_eq (f x : Int) (hf : 0 < f) (hx : 0 ≤ x) (hx31 : x < 2147483648) :
    RoundUpValue f x = wrapInt32 (f * ((x + f - 1) / f)) ∨
      (RoundUpValue f x = x ∧ f * ((x + f - 1) / f) = x) := by
  have hdiv : Int.tdiv x f = x / f := Int.tdiv_eq_ediv hx hf.le
  have hmod : Int.tmod x f = x % f := Int.tmod_eq_emod hx hf.le
  have h1 := Int.ediv_add_emod x f
  have h2 := Int.emod_nonneg x hf.ne'
  have h3 := Int.emod_lt_of_pos x hf
  unfold RoundUpValue
  rw [hdiv, hmod]
  by_cases hr : x % f = 0
  · right
    rw [if_neg (not_not.mpr hr)]
    exact ⟨rfl, (roundUp_least f x hf hx).2.2.2.2 (Int.dvd_of_emod_eq_zero hr)⟩
  · left
    rw [if_pos hr]
    have hq0 : 0 ≤ x / f := Int.ediv_nonneg hx hf.le
    have hf2 : 2 ≤ f := by
      by_contra hcon
      have hf1 : f = 1 := by omega
      rw [hf1] at hr
      simp at hr
    have hqle : 2 * (x / f) ≤ f * (x / f) := Int.mul_le_mul_of_nonneg_right hf2 hq0
    rw [wrapInt32_of_fits (x / f + 1) (by omega) (by omega)]
    have e : (x + f - 1) / f = x / f + 1 := by
      have hsplit : x + f - 1 = (x % f - 1) + f * (x / f + 1) := by
        have : f * (x / f + 1) = f * (x / f) + f := by ring
        omega
      rw [hsplit, Int.add_mul_ediv_left _ _ hf.ne',
        Int.ediv_eq_zero_of_lt (by omega) (by omega)]
      simp
    rw [e]

/-- C23: for `frame_subsampling_factor > 0` and non-negative `int32` values of `num_frames` and
`num_frames_overlap`, whenever `RoundUpNumFrames` returns, each output is the smallest multiple
of `frame_subsampling_factor` that is not below the corresponding input (the input itself when
it is a multiple), and `0 <= num_frames_overlap < num_frames` on return; it does return
whenever the rounded overlap is below the rounded number of frames and that number fits
`int32`. -/
theorem C23_round_up_num_frames (f nf ov : Int) (hf : 0 < f) (hfmax : f < 2147483648)
    (hnf : 0 ≤ nf)
    (hnf31 : nf < 2147483648) (hov : 0 ≤ ov) (hov31 : ov < 2147483648) :
    (∀ a b, RoundUpNumFrames f nf ov = some (a, b) →
      (f ∣ a ∧ nf ≤ a ∧ ∀ c, f ∣ c → nf ≤ c → a ≤ c) ∧
      (f ∣ b ∧ ov ≤ b ∧ ∀ c, f ∣ c → ov ≤ c → b ≤ c) ∧
      (f ∣ nf → a = nf) ∧ (f ∣ ov → b = ov) ∧ 0 ≤ b ∧ b < a) ∧
    (f * ((ov + f - 1) / f) < f * ((nf + f - 1) / f) ∧ f * ((nf + f - 1) / f) < 2147483648 →
      RoundUpNumFrames f nf ov = some (f * ((nf + f - 1) / f), f * ((ov + f - 1) / f))) := by
  obtain ⟨hn1, hn2, hn3, hn4, hn5⟩ := roundUp_least f nf hf hnf
  obtain ⟨ho1, ho2, ho3, ho4, ho5⟩ := roundUp_least f ov hf hov
  have hfits : ∀ x, 0 ≤ x → x < 2147483648 → x ≤ f * ((x + f - 1) / f) →
      (RoundUpValue f x = f * ((x + f - 1) / f) ∧ f * ((x + f - 1) / f) < 2147483648) ∨
      (RoundUpValue f x < 0 ∧ 2147483648 ≤ f * ((x + f - 1) / f)) ∨
      (RoundUpValue f x = f * ((x + f - 1) / f) ∧ 2147483648 ≤ f * ((x + f - 1) / f) ∧
        False) := by
    intro x hx hx31 hxle
    rcases roundUpValue_eq f x hf hx hx31 with h | ⟨h, he⟩
    · by_cases hbig : f * ((x + f - 1) / f) < 2147483648
      · left
        exact ⟨by rw [h, wrapInt32_of_fits _ (by omega) hbig], hbig⟩
      · right
        left
        have hlt := (roundUp_least f x hf hx).2.2.1
        have hf31 : f * ((x + f - 1) / f) < 4294967296 := by omega
        exact ⟨by rw [h]; exact wrapInt32_of_overflow _ (by omega) hf31, by omega⟩
    · left
      exact ⟨by rw [h, he], by omega⟩
  have hunf : RoundUpNumFrames f nf ov =
      if RoundUpValue f ov < 0 ∨ RoundUpValue f ov ≥ RoundUpValue f nf then none
      else some (RoundUpValue f nf, RoundUpValue f ov) := by
    unfold RoundUpNumFrames
    rw [if_neg hf.ne', if_neg (by omega)]
  constructor
  · intro a b hab
    rw [hunf] at hab
    split at hab
    · exact absurd hab (by simp)
    · rename_i hcond
      push_neg at hcond
      obtain ⟨hb0, hba⟩ := hcond
      have hpair := Option.some.inj hab
      have ha : RoundUpValue f nf = a := congrArg Prod.fst hpair
      have hb : RoundUpValue f ov = b := congrArg Prod.snd hpair
      have hvb : RoundUpValue f ov = f * ((ov + f - 1) / f) := by
        rcases hfits ov hov hov31 ho2 with h | h | h
        · exact h.1
        · omega
        · exact h.1
      have hva : RoundUpValue f nf = f * ((nf + f - 1) / f) := by
        rcases hfits nf hnf hnf31 hn2 with h | h | h
        · exact h.1
        · omega
        · exact h.1
      rw [← ha, ← hb, hva, hvb]
      refine ⟨⟨hn1, hn2, hn4⟩, ⟨ho1, ho2, ho4⟩, hn5, ho5, by omega, ?_⟩
      rw [← hva, ← hvb]
      exact hba
  · rintro ⟨hlt, hfit⟩
    have hva : RoundUpValue f nf = f * ((nf + f - 1) / f) := by
      rcases hfits nf hnf hnf31 hn2 with h | h | h
      · exact h.1
      · omega
      · exact h.1
    have hvb : RoundUpValue f ov = f * ((ov + f - 1) / f) := by
      rcases hfits ov hov hov31 ho2 with h | h | h
      · exact h.1
      · omega
      · exact h.1
    rw [hunf, hva, hvb, if_neg (by omega)]

/-- C23 at a concrete input: 13 frames with an overlap of 4 and a subsampling factor of 3. -/
theorem C23_round_up_num_frames_witness :
    ((0 : Int) < 3 ∧ (3 : Int) < 2147483648 ∧ (0 : Int) ≤ 13 ∧ (13 : Int) < 2147483648 ∧ (0 : Int) ≤ 4 ∧
      (4 : Int) < 2147483648) ∧
    ((∀ a b, RoundUpNumFrames 3 13 4 = some (a, b) →
      ((3 : Int) ∣ a ∧ 13 ≤ a ∧ ∀ c, (3 : Int) ∣ c → 13 ≤ c → a ≤ c) ∧
      ((3 : Int) ∣ b ∧ 4 ≤ b ∧ ∀ c, (3 : Int) ∣ c → 4 ≤ c → b ≤ c) ∧
      ((3 : Int) ∣ 13 → a = 13) ∧ ((3 : Int) ∣ 4 → b = 4) ∧ 0 ≤ b ∧ b < a) ∧
    ((3 : Int) * ((4 + 3 - 1) / 3) < 3 * ((13 + 3 - 1) / 3) ∧
        (3 : Int) * ((13 + 3 - 1) / 3) < 2147483648 →
      RoundUpNumFrames 3 13 4 = some (3 * ((13 + 3 - 1) / 3), 3 * ((4 + 3 - 1) / 3)))) :=
  ⟨⟨by decide, by decide, by decide, by decide, by decide, by decide⟩,
    C23_round_up_num_frames 3 13 4 (by decide) (by decide) (by decide) (by decide)
      (by decide) (by decide)⟩

end RoundUpLemmas

end nnet3
end kaldi

/-! ## The histories of the states of `TfRnnlmDeterministicFst` -/

namespace kaldi

namespace tf_rnnlm

section TfRnnlmLemmas

variable {α : Type} [LinearOrderedField α] {Tensor : Type}

theorem eraseWhileLong_length (max_ngram_order_ : Int) (h : 0 < max_ngram_order_)
    (wseq : List Int) :
    ((eraseWhileLong max_ngram_order_ wseq).length : Int) ≤ max_ngram_order_ - 1 := by
  induction wseq with
  | nil =>
    simp only [eraseWhileLong, List.length_nil]
    omega
  | cons w ws ih =>
    simp only [eraseWhileLong]
    split
    · exact ih
    · rename_i hlt
      push_neg at hlt
      omega

theorem lookup_some_mem (m : List (List Int × Int)) (k : List Int) (v : Int)
    (h : m.lookup k = some v) : (k, v) ∈ m := by
  induction m with
  | nil => simp [List.lookup] at h
  | cons p m ih =>
    obtain ⟨a, b⟩ := p
    by_cases hk : k = a
    · subst hk
      simp [List.lookup] at h
      subst h
      exact List.mem_cons_self _ _
    · have hka : (k == a) = false := by simpa using hk
      rw [List.lookup_cons, hka] at h
      exact List.mem_cons_of_mem _ (ih h)

/-- What a call of `GetArc` that returns has done. -/
theorem getArc_some (fst after : tf_rnnlm.TfRnnlmDeterministicFst α Tensor) (s ilabel : Int)
    (oarc : StdArc α) (h : fst.GetArc s ilabel = some (after, oarc)) :
    ∃ (history : List Int) (rnn_word : Int) (new_context new_cell : Tensor) (wseq : List Int),
      wseq = (if fst.max_ngram_order_ > 0 then
          eraseWhileLong fst.max_ngram_order_ (history ++ [rnn_word])
        else history ++ [rnn_word]) ∧
      ((fst.wseq_to_state_.lookup wseq = some oarc.nextstate ∧
          after = ⟨fst.max_ngram_order_, fst.rnnlm_, fst.state_to_wseq_, fst.wseq_to_state_,
            fst.state_to_context_, fst.state_to_cell_, fst.start_state_⟩) ∨
        (oarc.nextstate = wrapInt32 fst.state_to_wseq_.length ∧
          after = ⟨fst.max_ngram_order_, fst.rnnlm_, fst.state_to_wseq_ ++ [wseq],
            fst.wseq_to_state_ ++ [(wseq, wrapInt32 fst.state_to_wseq_.length)],
            fst.state_to_context_ ++ [new_context], fst.state_to_cell_ ++ [new_cell],
            fst.start_state_⟩)) := by
  unfold TfRnnlmDeterministicFst.GetArc at h
  split at h
  · exact absurd h (by simp)
  · split at h
    · rename_i history context cell hw hc hd
      split at h
      · exact absurd h (by simp)
      · split at h
        · exact absurd h (by simp)
        · rename_i rnn_word hword
          split at h
          · exact absurd h (by simp)
          · rename_i logprob new_context new_cell hlog
            refine ⟨history, rnn_word, new_context, new_cell, _, rfl, ?_⟩
            simp only [Option.some.injEq, Prod.mk.injEq] at h
            obtain ⟨h1, h2⟩ := h
            subst h1 h2
            generalize (if fst.max_ngram_order_ > 0 then
                eraseWhileLong fst.max_ngram_order_ (history ++ [rnn_word])
              else history ++ [rnn_word]) = wseq
            cases hl : List.lookup wseq fst.wseq_to_state_ with
            | none =>
              right
              simp [MapType.insert, hl]
            | some found =>
              left
              simp [MapType.insert, hl]
    · exact absurd h (by simp)

theorem getElem?_append_of_some {β : Type} (l l' : List β) (i : Nat) (x : β)
    (h : l[i]? = some x) : (l ++ l')[i]? = some x := by
  have hi : i < l.length := by
    by_contra hcon
    rw [List.getElem?_eq_none (by omega)] at h
    exact absurd h (by simp)
  rw [List.getElem?_append_left hi]
  exact h

theorem lt_length_of_getElem? {β : Type} (l : List β) (i : Nat) (x : β)
    (h : l[i]? = some x) : i < l.length := by
  by_contra hcon
  rw [List.getElem?_eq_none (by omega)] at h
  exact absurd h (by simp)

theorem constructed_consistent (max_ngram_order : Int) (rnnlm : KaldiTfRnnlmWrapper α Tensor)
    (fst : tf_rnnlm.TfRnnlmDeterministicFst α Tensor)
    (h : TfRnnlmDeterministicFst.TfRnnlmDeterministicFst max_ngram_order (some rnnlm) =
      some fst) :
    fst.Consistent ∧ fst.max_ngram_order_ = max_ngram_order ∧ fst.rnnlm_ = rnnlm := by
  simp only [TfRnnlmDeterministicFst.TfRnnlmDeterministicFst, Option.some.injEq] at h
  subst h
  refine ⟨⟨rfl, rfl, rfl, rfl, ?_, ?_⟩, rfl, rfl⟩
  · intro hmax wseq hw
    simp only [List.mem_singleton] at hw
    subst hw
    have hmax2 : 0 < max_ngram_order := hmax
    simp only [List.length_nil]
    show (0 : Int) ≤ max_ngram_order - 1
    omega
  · intro _ p hp
    simp only [List.mem_singleton] at hp
    subst hp
    exact ⟨le_refl _, rfl⟩

/-- A call of `GetArc` that returns keeps the tables consistent, and the state it returns is
one of the states of the tables as long as their number fits 32 bits. -/
theorem getArc_consistent (fst after : tf_rnnlm.TfRnnlmDeterministicFst α Tensor)
    (s ilabel : Int) (oarc : StdArc α) (hc : fst.Consistent)
    (h : fst.GetArc s ilabel = some (after, oarc)) :
    after.Consistent ∧ after.max_ngram_order_ = fst.max_ngram_order_ ∧
      after.rnnlm_ = fst.rnnlm_ ∧
      ((after.state_to_wseq_.length : Int) < 2147483648 →
        0 ≤ oarc.nextstate ∧
          ∃ wseq, after.state_to_wseq_[oarc.nextstate.toNat]? = some wseq) := by
  obtain ⟨history, rnn_word, new_context, new_cell, wseq, hwseq, hcase⟩ :=
    getArc_some fst after s ilabel oarc h
  obtain ⟨hc1, hc2, hc3, hc4, hc5, hc6⟩ := hc
  rcases hcase with ⟨hfound, hafter⟩ | ⟨hnew, hafter⟩
  · subst hafter
    refine ⟨⟨hc1, hc2, hc3, hc4, hc5, hc6⟩, rfl, rfl, ?_⟩
    intro hlen
    have hp := hc6 hlen _ (lookup_some_mem _ _ _ hfound)
    exact ⟨hp.1, _, hp.2⟩
  · subst hafter
    have hfit : ∀ (hlen : ((fst.state_to_wseq_ ++ [wseq]).length : Int) < 2147483648),
        wrapInt32 fst.state_to_wseq_.length = fst.state_to_wseq_.length := by
      intro hlen
      simp only [List.length_append, List.length_singleton, Nat.cast_add, Nat.cast_one] at hlen
      exact nnet3.wrapInt32_of_fits _ (by omega) (by omega)
    have hlast : (fst.state_to_wseq_ ++ [wseq])[fst.state_to_wseq_.length]? = some wseq := by
      simp
    refine ⟨⟨?_, ?_, hc3, getElem?_append_of_some _ _ _ _ hc4, ?_, ?_⟩, rfl, rfl, ?_⟩
    · simp only [List.length_append, List.length_singleton, hc1]
    · simp only [List.length_append, List.length_singleton, hc2]
    · intro hmax w hw
      rcases List.mem_append.mp hw with hw | hw
      · exact hc5 hmax w hw
      · simp only [List.mem_singleton] at hw
        subst hw
        have hmax2 : fst.max_ngram_order_ > 0 := hmax
        rw [hwseq, if_pos hmax2]
        exact eraseWhileLong_length _ hmax _
    · intro hlen p hp
      have hlen2 := hlen
      simp only [List.length_append, List.length_singleton, Nat.cast_add, Nat.cast_one] at hlen2
      rcases List.mem_append.mp hp with hp | hp
      · have hq := hc6 (by omega) p hp
        exact ⟨hq.1, getElem?_append_of_some _ _ _ _ hq.2⟩
      · simp only [List.mem_singleton] at hp
        subst hp
        simp only [hfit hlen]
        exact ⟨Int.natCast_nonneg _, by rw [Int.toNat_natCast]; exact hlast⟩
    · intro hlen
      rw [hnew, hfit hlen]
      exact ⟨Int.natCast_nonneg _, wseq, by rw [Int.toNat_natCast]; exact hlast⟩

theorem reachable_consistent (max_ngram_order : Int) (rnnlm : KaldiTfRnnlmWrapper α Tensor)
    (fst : tf_rnnlm.TfRnnlmDeterministicFst α Tensor)
    (hreach : Reachable max_ngram_order rnnlm fst) :
    fst.Consistent ∧ fst.max_ngram_order_ = max_ngram_order ∧ fst.rnnlm_ = rnnlm := by
  induction hreach with
  | constructed fst h => exact constructed_consistent max_ngram_order rnnlm fst h
  | arc fst after s ilabel oarc _ h ih =>
    obtain ⟨h1, h2, h3, _⟩ := getArc_consistent fst after s ilabel oarc ih.1 h
    exact ⟨h1, h2.trans ih.2.1, h3.trans ih.2.2⟩

/-- `GetArc` returns for a state of the tables and a label of the label table when the
session does not fail. -/
theorem getArc_isSome (fst : tf_rnnlm.TfRnnlmDeterministicFst α Tensor) (s ilabel : Int)
    (hc : fst.Consistent) (hs0 : 0 ≤ s) (hs : s < fst.state_to_wseq_.length)
    (hi0 : 0 ≤ ilabel) (hi : ilabel < fst.rnnlm_.fst_label_to_rnn_label_.length)
    (hlog : ∀ word context cell, (fst.rnnlm_.GetLogProb word ilabel context cell).isSome) :
    (fst.GetArc s ilabel).isSome := by
  obtain ⟨hc1, hc2, _⟩ := hc
  have hsn : s.toNat < fst.state_to_wseq_.length := by omega
  have hin : ilabel.toNat < fst.rnnlm_.fst_label_to_rnn_label_.length := by omega
  have hw := List.getElem?_eq_getElem hsn
  have hcx := List.getElem?_eq_getElem (hc1 ▸ hsn : s.toNat < fst.state_to_context_.length)
  have hcl := List.getElem?_eq_getElem (hc2 ▸ hsn : s.toNat < fst.state_to_cell_.length)
  have hlab := List.getElem?_eq_getElem hin
  obtain ⟨r, hr⟩ := Option.isSome_iff_exists.mp
    (hlog (fst.rnnlm_.fst_label_to_rnn_label_[ilabel.toNat]) (fst.state_to_context_[s.toNat])
      (fst.state_to_cell_[s.toNat]))
  unfold TfRnnlmDeterministicFst.GetArc
  rw [if_neg (by omega), hw, hcx, hcl]
  simp only [if_neg (not_lt.mpr hi0), hlab, hr]
  rfl

/-- C24: in a `TfRnnlmDeterministicFst` with `max_ngram_order > 0` obtained from the
constructor by any sequence of `GetArc` calls, the start state has the empty history and every
state has a history of at most `max_ngram_order - 1` words; `GetArc` returns for every state
of the tables and every known label when the session does not fail, and when it returns and
the number of states fits the 32-bit state id, `nextstate` is an index into the three state
tables, of a state whose history has at most `max_ngram_order - 1` words. -/
theorem C24_histories_are_bounded (max_ngram_order : Int)
    (rnnlm : KaldiTfRnnlmWrapper α Tensor) (fst : tf_rnnlm.TfRnnlmDeterministicFst α Tensor)
    (hmax : 0 < max_ngram_order) (hreach : Reachable max_ngram_order rnnlm fst) :
    (0 ≤ fst.start_state_ ∧ fst.state_to_wseq_[fst.start_state_.toNat]? = some []) ∧
    (∀ wseq ∈ fst.state_to_wseq_, (wseq.length : Int) ≤ max_ngram_order - 1) ∧
    ∀ s ilabel : Int,
      (0 ≤ s → s < fst.state_to_wseq_.length → 0 ≤ ilabel →
        ilabel < rnnlm.fst_label_to_rnn_label_.length →
        (∀ word context cell, (rnnlm.GetLogProb word ilabel context cell).isSome) →
        (fst.GetArc s ilabel).isSome) ∧
      ∀ after oarc, fst.GetArc s ilabel = some (after, oarc) →
        (after.state_to_wseq_.length : Int) < 2147483648 →
        0 ≤ oarc.nextstate ∧ oarc.nextstate < after.state_to_wseq_.length ∧
          oarc.nextstate < after.state_to_context_.length ∧
          oarc.nextstate < after.state_to_cell_.length ∧
          ∃ wseq, after.state_to_wseq_[oarc.nextstate.toNat]? = some wseq ∧
            (wseq.length : Int) ≤ max_ngram_order - 1 := by
  obtain ⟨hc, hm, hr⟩ := reachable_consistent max_ngram_order rnnlm fst hreach
  subst hm hr
  refine ⟨?_, hc.2.2.2.2.1 hmax, ?_⟩
  · rw [hc.2.2.1]
    exact ⟨le_refl _, hc.2.2.2.1⟩
  · intro s ilabel
    refine ⟨fun hs0 hs hi0 hi hlog => getArc_isSome fst s ilabel hc hs0 hs hi0 hi hlog, ?_⟩
    intro after oarc h hlen
    obtain ⟨hca, hma, _, hnext⟩ := getArc_consistent fst after s ilabel oarc hc h
    obtain ⟨h0, wseq, hw⟩ := hnext hlen
    have hlt := lt_length_of_getElem? _ _ _ hw
    have hlt2 : oarc.nextstate < after.state_to_wseq_.length := by omega
    refine ⟨h0, hlt2, by rw [hca.1]; exact hlt2, by rw [hca.2.1]; exact hlt2, wseq, hw, ?_⟩
    have hmem : wseq ∈ after.state_to_wseq_ := by
      rw [List.getElem?_eq_getElem hlt] at hw
      exact (Option.some.inj hw) ▸ List.getElem_mem hlt
    have := hca.2.2.2.2.1 (by rw [hma]; exact hmax) wseq hmem
    rw [hma] at this
    exact this

/-- C24 at the object reached by `GetArc(0, 2)` and `GetArc(1, 3)` with
`max_ngram_order = 3`. -/
theorem C24_histories_are_bounded_witness :
    ((0 : Int) < 3 ∧ Reachable 3 exRnnlm exFstTwoWords) ∧
    ((0 ≤ exFstTwoWords.start_state_ ∧
        exFstTwoWords.state_to_wseq_[exFstTwoWords.start_state_.toNat]? = some []) ∧
      (∀ wseq ∈ exFstTwoWords.state_to_wseq_, (wseq.length : Int) ≤ 3 - 1) ∧
      ∀ s ilabel : Int,
        (0 ≤ s → s < exFstTwoWords.state_to_wseq_.length → 0 ≤ ilabel →
          ilabel < exRnnlm.fst_label_to_rnn_label_.length →
          (∀ word context cell, (exRnnlm.GetLogProb word ilabel context cell).isSome) →
          (exFstTwoWords.GetArc s ilabel).isSome) ∧
        ∀ after oarc, exFstTwoWords.GetArc s ilabel = some (after, oarc) →
          (after.state_to_wseq_.length : Int) < 2147483648 →
          0 ≤ oarc.nextstate ∧ oarc.nextstate < after.state_to_wseq_.length ∧
            oarc.nextstate < after.state_to_context_.length ∧
            oarc.nextstate < after.state_to_cell_.length ∧
            ∃ wseq, after.state_to_wseq_[oarc.nextstate.toNat]? = some wseq ∧
              (wseq.length : Int) ≤ 3 - 1) :=
  have hreach : Reachable 3 exRnnlm exFstTwoWords :=
    Reachable.arc exFstOneWord exFstTwoWords 1 3 ⟨3, 3, -BaseFloat.finite (-1), 2⟩
      (Reachable.arc exFstStart exFstOneWord 0 2 ⟨2, 2, -BaseFloat.finite (-1), 1⟩
        (Reachable.constructed exFstStart rfl) rfl) rfl
  ⟨⟨by decide, hreach⟩, C24_histories_are_bounded 3 exRnnlm exFstTwoWords (by decide) hreach⟩

end TfRnnlmLemmas

end tf_rnnlm

end kaldi

/-! ## Merging examples: names, sizes and merged indexes -/

namespace kaldi

namespace nnet3

section MergeLemmas

variable {β : Type}

end MergeLemmas
